import Mathlib

/-!
Verification of the extendible hash index of the subject repository
(`src/storage/page/hash_table_bucket_page.cpp` and
`src/container/hash/extendible_hash_table.cpp`).

Modelling conventions:
* `BUCKET_ARRAY_SIZE` is a compile-time constant depending on the template
  instantiation (the defining header is not among the provided sources; the
  spec only constrains it to fit a page).  It is modelled as a parameter `sz`.
* Machine integers (`uint32_t`, `int`, `char`) are modelled as `Nat` with
  explicit `% 2 ^ w` at the places where wraparound can actually occur for
  the values the code manipulates (hash truncation, the `local_depth - 1`
  shift in `Merge`, sign extension of `char` in `NumReadable`).
* Key and value types are generic (`int`/`GenericKey`/`RID` instantiations in
  the source); the comparator only decides equality, so it is modelled by
  decidable equality.
* The buffer pool is modelled by a list of bucket pages indexed by page id
  (`NewPage` returns a fresh zeroed page with a fresh id, as bustub's buffer
  pool does), together with the list of ids passed to `DeletePage`.
-/

set_option linter.unusedVariables false

namespace Bustub

/-! ## Preliminaries -/

/-- A C-style `for (i = 0; i < n; i++)` loop whose body transforms a state. -/
def loopN {α : Type} (n : Nat) (f : Nat → α → α) (a : α) : α :=
  (List.range n).foldl (fun acc i => f i acc) a

/-- A C-style `for (i = lo; i < lo + len; i++)` loop. -/
def loopFrom {α : Type} (lo len : Nat) (f : Nat → α → α) (a : α) : α :=
  (List.range' lo len).foldl (fun acc i => f i acc) a

/-! ## Bucket pages (`hash_table_bucket_page.cpp`)

A bucket page holds two byte-array bitmaps (`occupied_`, `readable_`, LSB
first inside each byte) and a slot array of key/value pairs. -/

structure Bucket (K V : Type) where
  occupied : List Nat
  readable : List Nat
  array : List (K × V)

variable {K V : Type}

/-- A zeroed page, as returned by the buffer pool's `NewPage`. -/
def Bucket.empty (K V : Type) [Inhabited K] [Inhabited V] (sz : Nat) : Bucket K V :=
  { occupied := List.replicate ((sz - 1) / 8 + 1) 0
    readable := List.replicate ((sz - 1) / 8 + 1) 0
    array := List.replicate sz (default, default) }

/-- `IsOccupied`: `occupied_[bucket_idx / 8] & (1 << (bucket_idx % 8))` as a Bool. -/
def Bucket.isOccupied (b : Bucket K V) (i : Nat) : Bool :=
  decide ((b.occupied.getD (i / 8) 0) &&& (1 <<< (i % 8)) ≠ 0)

/-- `SetOccupied`: `occupied_[bucket_idx / 8] |= 1 << (bucket_idx % 8)`. -/
def Bucket.setOccupied (b : Bucket K V) (i : Nat) : Bucket K V :=
  { b with occupied := b.occupied.modify (fun c => c ||| (1 <<< (i % 8))) (i / 8) }

/-- `IsReadable`: `readable_[bucket_idx / 8] & (1 << (bucket_idx % 8))` as a Bool. -/
def Bucket.isReadable (b : Bucket K V) (i : Nat) : Bool :=
  decide ((b.readable.getD (i / 8) 0) &&& (1 <<< (i % 8)) ≠ 0)

/-- `SetReadable`: `readable_[bucket_idx / 8] |= 1 << (bucket_idx % 8)`. -/
def Bucket.setReadable (b : Bucket K V) (i : Nat) : Bucket K V :=
  { b with readable := b.readable.modify (fun c => c ||| (1 <<< (i % 8))) (i / 8) }

/-- `SetUnreadable`: `readable_[bucket_idx / 8] &= ~(1 << (bucket_idx % 8))`.
The int-promoted complement truncated back to the `char` byte equals
`0xFF ^ (1 << offset)`. -/
def Bucket.setUnreadable (b : Bucket K V) (i : Nat) : Bucket K V :=
  { b with readable := b.readable.modify (fun c => c &&& (255 ^^^ (1 <<< (i % 8)))) (i / 8) }

/-- `RemoveAt`: unconditionally clears the readable bit. -/
def Bucket.removeAt (b : Bucket K V) (i : Nat) : Bucket K V :=
  b.setUnreadable i

/-- `KeyAt`: slot key when readable, else a default-constructed key. -/
def Bucket.keyAt [Inhabited K] [Inhabited V] (b : Bucket K V) (i : Nat) : K :=
  if b.isReadable i then (b.array.getD i default).1 else default

/-- `ValueAt`: slot value when readable, else a default-constructed value. -/
def Bucket.valueAt [Inhabited K] [Inhabited V] (b : Bucket K V) (i : Nat) : V :=
  if b.isReadable i then (b.array.getD i default).2 else default

/-- The scan of `GetValue`: push every readable slot whose key compares equal,
stop at the first slot that is neither (readable ∧ matching) nor occupied. -/
def Bucket.getValueLoop [DecidableEq K] [Inhabited K] [Inhabited V]
    (b : Bucket K V) (key : K) : List Nat → List V
  | [] => []
  | i :: rest =>
    if b.isReadable i ∧ (b.array.getD i default).1 = key then
      (b.array.getD i default).2 :: b.getValueLoop key rest
    else if ¬ b.isOccupied i then []
    else b.getValueLoop key rest

/-- `GetValue`: the collected values and the flag (`true` iff at least one
value was appended). -/
def Bucket.getValue [DecidableEq K] [Inhabited K] [Inhabited V]
    (sz : Nat) (b : Bucket K V) (key : K) : List V × Bool :=
  let r := b.getValueLoop key (List.range sz)
  (r, !r.isEmpty)

/-- The scan of `Insert`.  `ii` is the running `insert_index` with sentinel
`sz`.  Returns `none` when an identical (key, value) entry is found
(`return false`), otherwise the final `insert_index`. -/
def Bucket.insertLoop [DecidableEq K] [DecidableEq V] [Inhabited K] [Inhabited V]
    (sz : Nat) (b : Bucket K V) (key : K) (value : V) : List Nat → Nat → Option Nat
  | [], ii => some ii
  | i :: rest, ii =>
    if b.isReadable i ∧ b.array.getD i default = (key, value) then none
    else if ¬ b.isReadable i then
      let ii' := if ii = sz then i else ii
      if ¬ b.isOccupied i then some ii'
      else insertLoop sz b key value rest ii'
    else insertLoop sz b key value rest ii

/-- The tail of `Insert` after the scan: write into `insert_index` (setting
both bits) unless a duplicate was found (`none`) or the sentinel survived
(bucket full). -/
def Bucket.insertFinish [DecidableEq K] [DecidableEq V] [Inhabited K] [Inhabited V]
    (sz : Nat) (b : Bucket K V) (key : K) (value : V) : Option Nat → Bucket K V × Bool
  | none => (b, false)
  | some ii =>
    if ii = sz then (b, false)
    else ((({ b with array := b.array.set ii (key, value) }).setOccupied ii).setReadable ii, true)

/-- `Insert` = scan, then write. -/
def Bucket.insert [DecidableEq K] [DecidableEq V] [Inhabited K] [Inhabited V]
    (sz : Nat) (b : Bucket K V) (key : K) (value : V) : Bucket K V × Bool :=
  b.insertFinish sz key value (b.insertLoop sz key value (List.range sz) sz)

/-- The scan of `Remove`: the first readable slot holding exactly
(key, value), stopping at the first non-occupied slot. -/
def Bucket.removeLoop [DecidableEq K] [DecidableEq V] [Inhabited K] [Inhabited V]
    (b : Bucket K V) (key : K) (value : V) : List Nat → Option Nat
  | [] => none
  | i :: rest =>
    if b.isReadable i ∧ b.array.getD i default = (key, value) then some i
    else if ¬ b.isOccupied i then none
    else removeLoop b key value rest

/-- `Remove`: clear the readable bit of the found slot. -/
def Bucket.remove [DecidableEq K] [DecidableEq V] [Inhabited K] [Inhabited V]
    (sz : Nat) (b : Bucket K V) (key : K) (value : V) : Bucket K V × Bool :=
  match b.removeLoop key value (List.range sz) with
  | some i => (b.setUnreadable i, true)
  | none => (b, false)

/-- `IsFull`: every exactly-divisible byte equals `0xFF`, and (when
`BUCKET_ARRAY_SIZE` is not a multiple of 8) the trailing byte equals
`(1 << rest) - 1` where `rest = BUCKET_ARRAY_SIZE - BUCKET_ARRAY_SIZE / 8 * 8`. -/
def Bucket.isFull (sz : Nat) (b : Bucket K V) : Bool :=
  ((List.range (sz / 8)).all fun i => b.readable.getD i 0 == 255) &&
    !(decide (sz - sz / 8 * 8 ≠ 0) &&
      decide (b.readable.getD ((sz - 1) / 8) 0 ≠ (1 <<< (sz - sz / 8 * 8)) - 1))

/-- `IsEmpty`: every byte of the readable bitmap is zero. -/
def Bucket.isEmpty (sz : Nat) (b : Bucket K V) : Bool :=
  (List.range ((sz - 1) / 8 + 1)).all fun i => b.readable.getD i 0 == 0

/-- `static_cast<int>(c)` for a `char` byte: `char` is signed on the target
platform, so bytes `≥ 128` sign-extend; the resulting 32-bit `int` is modelled
by its two's-complement encoding as a `Nat` below `2 ^ 32`. -/
def signExtInt32 (c : Nat) : Nat :=
  if 128 ≤ c then c + (2 ^ 32 - 256) else c

/-- The `while (n != 0) { n &= n - 1; cnt++; }` loop of `NumReadable`, with
explicit fuel.  Each iteration clears the lowest set bit, so `n` itself is
always enough fuel (see `bkAux_fuel_irrelevant`). -/
def bkAux : Nat → Nat → Nat
  | 0, _ => 0
  | fuel + 1, n => if n = 0 then 0 else bkAux fuel (n &&& (n - 1)) + 1

/-- The count of iterations of the Brian-Kernighan loop started at `n`. -/
def bkCount (n : Nat) : Nat := bkAux n n

/-- `NumReadable`: per-byte Brian-Kernighan counts, with the byte first cast
`static_cast<int>(readable_[i])`. -/
def Bucket.numReadable (sz : Nat) (b : Bucket K V) : Nat :=
  ((List.range ((sz - 1) / 8 + 1)).map fun i => bkCount (signExtInt32 (b.readable.getD i 0))).sum

/-- `GetAllItem`: all readable (key, value) pairs in slot order. -/
def Bucket.getAllItem [Inhabited K] [Inhabited V] (sz : Nat) (b : Bucket K V) : List (K × V) :=
  (List.range sz).filterMap fun i =>
    if b.isReadable i then some (b.array.getD i default) else none

/-! ### Bucket well-formedness (established for every page the table ever
creates: fresh pages are zeroed and the page operations preserve these). -/

/-- Bitmap and slot-array lengths are those of the C++ fixed-size arrays. -/
def Bucket.lenWF (sz : Nat) (b : Bucket K V) : Bool :=
  (b.occupied.length == (sz - 1) / 8 + 1) && (b.readable.length == (sz - 1) / 8 + 1) &&
    (b.array.length == sz)

/-- Every bitmap byte is an actual byte value. -/
def Bucket.bytesWF (b : Bucket K V) : Bool :=
  b.occupied.all (· < 256) && b.readable.all (· < 256)

/-- No readable or occupied bit at or beyond `BUCKET_ARRAY_SIZE` (bits of the
trailing byte past `rest` are never set by the page operations). -/
def Bucket.junkFree (sz : Nat) (b : Bucket K V) : Bool :=
  ((List.range (8 * b.readable.length)).all fun i => decide (i < sz) || !b.isReadable i) &&
    ((List.range (8 * b.occupied.length)).all fun i => decide (i < sz) || !b.isOccupied i)

/-- A readable slot is occupied. -/
def Bucket.rdImpOcc (sz : Nat) (b : Bucket K V) : Bool :=
  (List.range sz).all fun i => !b.isReadable i || b.isOccupied i

/-- Occupied bits form a prefix: an occupied slot has all earlier slots
occupied (the linear probe never leaves gaps). -/
def Bucket.noGap (sz : Nat) (b : Bucket K V) : Bool :=
  (List.range sz).all fun j => !b.isOccupied j || (List.range j).all fun i => b.isOccupied i

/-- All bucket-page invariants together. -/
def Bucket.invariant (sz : Nat) (b : Bucket K V) : Bool :=
  b.lenWF sz && b.bytesWF && b.junkFree sz && b.rdImpOcc sz && b.noGap sz

/-! ### Claim-side definition for C3 (comparison only)

The following definition renders the words of claim C3 / spec §4.1: the scan
range runs up to (and including) the first `occupied = 0` slot; a duplicate
anywhere in that range rejects; otherwise the earliest `readable = 0` slot of
the range receives the pair; otherwise the page is full. -/

/-- Written from the claim text: slot `i` is scanned iff it is in range and
every earlier slot is occupied (the scan stops at the first non-occupied
slot, which is itself still examined). -/
def Bucket.specScanned (sz : Nat) (b : Bucket K V) (i : Nat) : Bool :=
  decide (i < sz) && (List.range i).all fun l => b.isOccupied l

/-- Written from the claim text of C3: reject a duplicate in the scanned
range, else write into the earliest scanned slot with `readable = 0`, else
report the page full. -/
def Bucket.insertSpec [DecidableEq K] [DecidableEq V] [Inhabited K] [Inhabited V]
    (sz : Nat) (b : Bucket K V) (key : K) (value : V) : Bucket K V × Bool :=
  if (List.range sz).any fun i =>
      b.specScanned sz i && b.isReadable i && decide (b.array.getD i default = (key, value)) then
    (b, false)
  else
    match (List.range sz).find? (fun i => b.specScanned sz i && !b.isReadable i) with
    | some i =>
        ((({ b with array := b.array.set i (key, value) }).setOccupied i).setReadable i, true)
    | none => (b, false)

/-! ## Directory page

Modelled from the spec: the body of `HashTableDirectoryPage` is not among the
provided sources (only the table code calling it); §4.2 of the spec gives its
contract, which the definitions below follow literally.  Slots are a total
function on indices; only indices below `Size() = 2^global_depth` are ever
read or written by the table. -/

structure Directory where
  globalDepth : Nat
  localDepths : Nat → Nat
  bucketPageIds : Nat → Nat

/-- Modelled from the spec: `Size() = 1 << global_depth`. -/
def Directory.size (d : Directory) : Nat := 2 ^ d.globalDepth

/-- Modelled from the spec: `GetGlobalDepthMask() = (1 << global_depth) - 1`. -/
def Directory.globalDepthMask (d : Directory) : Nat := 2 ^ d.globalDepth - 1

/-- Modelled from the spec: `GetLocalDepthMask(i) = (1 << local_depths[i]) - 1`. -/
def Directory.localDepthMask (d : Directory) (i : Nat) : Nat := 2 ^ d.localDepths i - 1

/-- Modelled from the spec: `SetBucketPageId`. -/
def Directory.setBucketPageId (d : Directory) (i pid : Nat) : Directory :=
  { d with bucketPageIds := Function.update d.bucketPageIds i pid }

/-- Modelled from the spec: `SetLocalDepth`. -/
def Directory.setLocalDepth (d : Directory) (i v : Nat) : Directory :=
  { d with localDepths := Function.update d.localDepths i v }

/-- Modelled from the spec: `IncrLocalDepth`. -/
def Directory.incrLocalDepth (d : Directory) (i : Nat) : Directory :=
  d.setLocalDepth i (d.localDepths i + 1)

/-- Modelled from the spec: `DecrLocalDepth`. -/
def Directory.decrLocalDepth (d : Directory) (i : Nat) : Directory :=
  d.setLocalDepth i (d.localDepths i - 1)

/-- Modelled from the spec: `IncrGlobalDepth`. -/
def Directory.incrGlobalDepth (d : Directory) : Directory :=
  { d with globalDepth := d.globalDepth + 1 }

/-- Modelled from the spec: `DecrGlobalDepth`. -/
def Directory.decrGlobalDepth (d : Directory) : Directory :=
  { d with globalDepth := d.globalDepth - 1 }

/-- Modelled from the spec: `GetSplitImageIndex(i) = i XOR (1 << (local_depths[i] - 1))`
(the table only calls this under a `local_depth > 0` guard). -/
def Directory.getSplitImageIndex (d : Directory) (i : Nat) : Nat :=
  i ^^^ (1 <<< (d.localDepths i - 1))

/-- Modelled from the spec: `CanShrink() = (max local_depth < global_depth)`. -/
def Directory.canShrink (d : Directory) : Bool :=
  (List.range d.size).all fun i => d.localDepths i < d.globalDepth

/-! ## The table (`extendible_hash_table.cpp`)

State: the directory page, the buffer pool's bucket pages indexed by page id
(`NewPage` hands out fresh ids in order and zeroed frames), and the ids passed
to `DeletePage`. -/

structure TableState (K V : Type) where
  dir : Directory
  buckets : List (Bucket K V)
  freed : List Nat

/-- `Hash`: downcast of the 64-bit hash to 32 bits. -/
def hash32 (hashFn : K → Nat) (k : K) : Nat := hashFn k % 2 ^ 32

/-- `KeyToDirectoryIndex`: `Hash(key) & GetGlobalDepthMask()`. -/
def keyToDirectoryIndex (hashFn : K → Nat) (t : TableState K V) (k : K) : Nat :=
  hash32 hashFn k &&& t.dir.globalDepthMask

/-- `KeyToPageId`: directory slot contents at the routed index. -/
def keyToPageId (hashFn : K → Nat) (t : TableState K V) (k : K) : Nat :=
  t.dir.bucketPageIds (keyToDirectoryIndex hashFn t k)

/-- `FetchBucketPage` (an unallocated id is never fetched on reachable paths). -/
def fetchBucket [Inhabited K] [Inhabited V] (sz : Nat) (t : TableState K V) (pid : Nat) :
    Bucket K V :=
  t.buckets.getD pid (Bucket.empty K V sz)

/-- Construction: one directory page (zeroed: depth 0, all local depths 0) and
one bucket page wired into slot 0. -/
def initTable (K V : Type) [Inhabited K] [Inhabited V] (sz : Nat) : TableState K V :=
  { dir := { globalDepth := 0, localDepths := fun _ => 0, bucketPageIds := fun _ => 0 }
    buckets := [Bucket.empty K V sz]
    freed := [] }

/-- `GetValue`: route to the bucket and run its scan. -/
def getValueOp [DecidableEq K] [Inhabited K] [Inhabited V] (hashFn : K → Nat) (sz : Nat)
    (t : TableState K V) (k : K) : List V × Bool :=
  (fetchBucket sz t (keyToPageId hashFn t k)).getValue sz k

/-- `SplitInsert` (under the table write latch): re-check fullness, allocate a
new bucket, raise the depths of the slots still agreeing with the old bucket
under the extended mask, redirect (or mirror, after doubling) the other half,
redistribute the full bucket's entries, and retry the insertion. -/
def splitInsert [DecidableEq K] [DecidableEq V] [Inhabited K] [Inhabited V]
    (hashFn : K → Nat) (sz : Nat) (t : TableState K V) (key : K) (value : V) :
    TableState K V × Bool :=
  let dir := t.dir
  let oldIndex := keyToDirectoryIndex hashFn t key
  let oldPid := keyToPageId hashFn t key
  let localDepth := dir.localDepths oldIndex
  let oldBucket := fetchBucket sz t oldPid
  if ¬ (oldBucket.isFull sz = true) then
    let p := oldBucket.insert sz key value
    ({ t with buckets := t.buckets.set oldPid p.1 }, p.2)
  else
    let newPid := t.buckets.length
    let t1 : TableState K V := { t with buckets := t.buckets ++ [Bucket.empty K V sz] }
    let oldLocalMask := dir.localDepthMask oldIndex
    let newLocalMask := oldLocalMask + (oldLocalMask + 1)
    let newLocalHash := oldIndex &&& newLocalMask
    let dirSize := dir.size
    let dir1 := loopN dirSize (fun i dd =>
      if i &&& newLocalMask = newLocalHash then dd.incrLocalDepth i else dd) dir
    let dir2 :=
      if localDepth < dir1.globalDepth then
        loopN dirSize (fun i dd =>
          if dd.bucketPageIds i = oldPid ∧ i &&& newLocalMask ≠ newLocalHash then
            (dd.setBucketPageId i newPid).incrLocalDepth i
          else dd) dir1
      else
        loopFrom dirSize dirSize (fun i dd =>
          let upperPid := dd.bucketPageIds (i - dirSize)
          let upperLocalDepth := dd.localDepths (i - dirSize)
          (if upperPid = oldPid then dd.setBucketPageId i newPid
            else dd.setBucketPageId i upperPid).setLocalDepth i upperLocalDepth)
          dir1.incrGlobalDepth
    let rd := loopN sz (fun i (p : Bucket K V × Bucket K V) =>
      let bucketKey := p.1.keyAt i
      let bucketValue := p.1.valueAt i
      let bpid := dir2.bucketPageIds (hash32 hashFn bucketKey &&& dir2.globalDepthMask)
      if bpid = newPid then (p.1.removeAt i, (p.2.insert sz bucketKey bucketValue).1)
      else p) (oldBucket, fetchBucket sz t1 newPid)
    let retryPid := dir2.bucketPageIds (hash32 hashFn key &&& dir2.globalDepthMask)
    let result :=
      if retryPid = oldPid then
        let p := rd.1.insert sz key value
        ((p.1, rd.2), p.2)
      else
        let p := rd.2.insert sz key value
        ((rd.1, p.1), p.2)
    ({ t1 with
        dir := dir2
        buckets := (t1.buckets.set oldPid result.1.1).set newPid result.1.2 }, result.2)

/-- `Insert`: fast path into the routed bucket; on failure with a full bucket,
fall back to `SplitInsert`. -/
def insertOp [DecidableEq K] [DecidableEq V] [Inhabited K] [Inhabited V]
    (hashFn : K → Nat) (sz : Nat) (t : TableState K V) (key : K) (value : V) :
    TableState K V × Bool :=
  let pid := keyToPageId hashFn t key
  let b := fetchBucket sz t pid
  let p := b.insert sz key value
  let t' : TableState K V := { t with buckets := t.buckets.set pid p.1 }
  if ¬ p.2 ∧ p.1.isFull sz = true then splitInsert hashFn sz t' key value
  else (t', p.2)

/-- The `local_depth - 1` shift amount that `Merge` computes at entry for
`same_mask`, in `uint32_t` arithmetic (`local_depth = 0` wraps to `2^32 - 1`). -/
def mergeShiftAmount (localDepth : Nat) : Nat := (localDepth + 2 ^ 32 - 1) % 2 ^ 32

/-- `Merge` (under the table write latch): abort unless the routed bucket is
still empty with positive depth and its split image has the same depth; else
redirect the empty bucket's slots to the sibling, delete the empty page,
decrement the merged prefix's depths, shrink if possible.

The source computes `same_mask = local_mask ^ (1 << (local_depth - 1))` at
entry, before the `local_depth > 0` test; the shift amount of that expression
is `mergeShiftAmount local_depth` (claim C10).  Its value is only consumed
inside the branch below, where `local_depth ≥ 1`. -/
def mergeOp [DecidableEq K] [DecidableEq V] [Inhabited K] [Inhabited V]
    (hashFn : K → Nat) (sz : Nat) (t : TableState K V) (key : K) : TableState K V :=
  let dir := t.dir
  let index := keyToDirectoryIndex hashFn t key
  let pid := keyToPageId hashFn t key
  let dirSize := dir.size
  let localDepth := dir.localDepths index
  let localMask := dir.localDepthMask index
  let b := fetchBucket sz t pid
  if 0 < localDepth ∧ b.isEmpty sz = true then
    let anotherIdx := dir.getSplitImageIndex index
    let anotherLocalDepth := dir.localDepths anotherIdx
    if anotherLocalDepth = localDepth then
      let anotherPid := dir.bucketPageIds anotherIdx
      let sameMask := localMask ^^^ (1 <<< (localDepth - 1))
      let dir1 := loopN dirSize (fun i dd =>
        if i &&& localMask = index &&& localMask then dd.setBucketPageId i anotherPid
        else dd) dir
      let dir2 := loopN dirSize (fun i dd =>
        if i &&& sameMask = index &&& sameMask then dd.decrLocalDepth i else dd) dir1
      let dir3 := if dir2.canShrink then dir2.decrGlobalDepth else dir2
      { t with dir := dir3, freed := t.freed ++ [pid] }
    else t
  else t

/-- `ExtraMerge` (under the table write latch): if the routed bucket's split
image is empty at equal positive depth, merge in the reverse direction;
returns whether a merge occurred. -/
def extraMergeOp [DecidableEq K] [DecidableEq V] [Inhabited K] [Inhabited V]
    (hashFn : K → Nat) (sz : Nat) (t : TableState K V) (key : K) : TableState K V × Bool :=
  let dir := t.dir
  let pid := keyToPageId hashFn t key
  let index := keyToDirectoryIndex hashFn t key
  let localDepth := dir.localDepths index
  let dirSize := dir.size
  if 0 < localDepth then
    let extraIdx := dir.getSplitImageIndex index
    let extraLocalDepth := dir.localDepths extraIdx
    let extraPid := dir.bucketPageIds extraIdx
    let extraBucket := fetchBucket sz t extraPid
    if extraLocalDepth = localDepth ∧ extraBucket.isEmpty sz = true then
      let dir1 := loopN dirSize (fun i dd =>
        if dd.bucketPageIds i = extraPid then (dd.setBucketPageId i pid).decrLocalDepth i
        else if dd.bucketPageIds i = pid then dd.decrLocalDepth i
        else dd) dir
      let dir2 := if dir1.canShrink then dir1.decrGlobalDepth else dir1
      ({ t with dir := dir2, freed := t.freed ++ [extraPid] }, true)
    else (t, false)
  else (t, false)

/-- The `while (ExtraMerge(...)) {}` loop of `Remove`, with explicit fuel.
Under the reachable-state invariants every successful `ExtraMerge` strictly
decreases the routed slot's local depth (which is at most the global depth),
so `globalDepth + 1` rounds always reach the terminating `false`; the fuel
below therefore computes the unbounded loop. -/
def extraMergeLoop [DecidableEq K] [DecidableEq V] [Inhabited K] [Inhabited V]
    (hashFn : K → Nat) (sz : Nat) : Nat → TableState K V → K → TableState K V
  | 0, t, _ => t
  | fuel + 1, t, key =>
    let p := extraMergeOp hashFn sz t key
    if p.2 then extraMergeLoop hashFn sz fuel p.1 key else p.1

/-- `Remove`: remove from the routed bucket; when this empties the bucket,
run `Merge` and then `ExtraMerge` until it reports no merge. -/
def removeOp [DecidableEq K] [DecidableEq V] [Inhabited K] [Inhabited V]
    (hashFn : K → Nat) (sz : Nat) (t : TableState K V) (key : K) (value : V) :
    TableState K V × Bool :=
  let pid := keyToPageId hashFn t key
  let b := fetchBucket sz t pid
  let p := b.remove sz key value
  let t' : TableState K V := { t with buckets := t.buckets.set pid p.1 }
  if p.2 ∧ p.1.isEmpty sz = true then
    let t2 := mergeOp hashFn sz t' key
    (extraMergeLoop hashFn sz (t2.dir.globalDepth + 1) t2 key, p.2)
  else (t', p.2)

/-- The test of `Remove` that decides whether `Merge` is invoked. -/
def removeInvokesMerge [DecidableEq K] [DecidableEq V] [Inhabited K] [Inhabited V]
    (hashFn : K → Nat) (sz : Nat) (t : TableState K V) (key : K) (value : V) : Bool :=
  let pid := keyToPageId hashFn t key
  let b := fetchBucket sz t pid
  let p := b.remove sz key value
  p.2 && p.1.isEmpty sz

/-- The operations a client can issue. -/
inductive Op (K V : Type) where
  | insert (key : K) (value : V)
  | remove (key : K) (value : V)
  | getValue (key : K)

/-- One operation's effect on the table state. -/
def applyOp [DecidableEq K] [DecidableEq V] [Inhabited K] [Inhabited V]
    (hashFn : K → Nat) (sz : Nat) (t : TableState K V) : Op K V → TableState K V
  | .insert k v => (insertOp hashFn sz t k v).1
  | .remove k v => (removeOp hashFn sz t k v).1
  | .getValue _ => t

/-- A sequence of operations applied from a state. -/
def runOps [DecidableEq K] [DecidableEq V] [Inhabited K] [Inhabited V]
    (hashFn : K → Nat) (sz : Nat) (t : TableState K V) : List (Op K V) → TableState K V
  | [] => t
  | op :: rest => runOps hashFn sz (applyOp hashFn sz t op) rest

/-! ### Directory invariants (spec §3)

`DirInv` is the inductive core from which the §3 invariants follow: local
depths are bounded by the global depth; all slots agreeing with slot `i` on
its low `local_depth` bits carry the same depth and bucket id; and two slots
carrying the same bucket id agree on the low `local_depth` bits. -/

def DirInv (d : Directory) : Prop :=
  (∀ i, i < d.size → d.localDepths i ≤ d.globalDepth) ∧
  (∀ i j, i < d.size → j < d.size → j % 2 ^ d.localDepths i = i % 2 ^ d.localDepths i →
    d.localDepths j = d.localDepths i ∧ d.bucketPageIds j = d.bucketPageIds i) ∧
  (∀ i j, i < d.size → j < d.size → d.bucketPageIds i = d.bucketPageIds j →
    i % 2 ^ d.localDepths i = j % 2 ^ d.localDepths i)

/-- Directory invariants plus freshness: every referenced bucket page id was
allocated (the buffer pool hands out ids `0, 1, 2, …` in order). -/
def StateInvD (t : TableState K V) : Prop :=
  DirInv t.dir ∧ ∀ i, i < t.dir.size → t.dir.bucketPageIds i < t.buckets.length

deriving instance DecidableEq for Op

/-- The slot write performed by a successful bucket `Insert`: store the pair
and set both bits. -/
def Bucket.writeSlot (b : Bucket K V) (i : Nat) (key : K) (value : V) : Bucket K V :=
  (({ b with array := b.array.set i (key, value) }).setOccupied i).setReadable i

/-- A page whose occupied and readable bits both form the prefix `[0, m)` —
the shape of a page built from zeroed by successful inserts only. -/
def prefixShaped (sz m : Nat) (b : Bucket K V) : Prop :=
  b.lenWF sz = true ∧ m ≤ sz ∧ (∀ l, b.isReadable l = decide (l < m)) ∧
    ∀ l, b.isOccupied l = decide (l < m)

/-- Every allocated bucket page has the declared array lengths and satisfies
the readable-implies-occupied discipline (true of every page the table ever
creates). -/
def PoolWF [Inhabited K] [Inhabited V] (sz : Nat) (t : TableState K V) : Prop :=
  ∀ p, p < t.buckets.length →
    (fetchBucket sz t p).lenWF sz = true ∧ (fetchBucket sz t p).rdImpOcc sz = true

/-- The pair (k, v) is stored: the bucket the key routes to holds it in a
readable slot all of whose predecessors are occupied (so the probe scans
reach it). -/
def hasPairAt [Inhabited K] [Inhabited V] (hashFn : K → Nat) (sz : Nat)
    (t : TableState K V) (k : K) (v : V) : Prop :=
  ∃ i, i < sz ∧
    (fetchBucket sz t (keyToPageId hashFn t k)).isReadable i = true ∧
    (fetchBucket sz t (keyToPageId hashFn t k)).array.getD i default = (k, v) ∧
    ∀ l, l < i → (fetchBucket sz t (keyToPageId hashFn t k)).isOccupied l = true

/-- The directory produced by the full-bucket branch of `SplitInsert`: raise
the depths of the slots still agreeing with the old bucket under the extended
mask, then redirect (or, after doubling, mirror) the other half. -/
def splitDir2 (hashFn : K → Nat) (t : TableState K V) (key : K) : Directory :=
  let dir := t.dir
  let oldIndex := keyToDirectoryIndex hashFn t key
  let oldPid := keyToPageId hashFn t key
  let localDepth := dir.localDepths oldIndex
  let newPid := t.buckets.length
  let oldLocalMask := dir.localDepthMask oldIndex
  let newLocalMask := oldLocalMask + (oldLocalMask + 1)
  let newLocalHash := oldIndex &&& newLocalMask
  let dirSize := dir.size
  let dir1 := loopN dirSize (fun i dd =>
    if i &&& newLocalMask = newLocalHash then dd.incrLocalDepth i else dd) dir
  if localDepth < dir1.globalDepth then
    loopN dirSize (fun i dd =>
      if dd.bucketPageIds i = oldPid ∧ i &&& newLocalMask ≠ newLocalHash then
        (dd.setBucketPageId i newPid).incrLocalDepth i
      else dd) dir1
  else
    loopFrom dirSize dirSize (fun i dd =>
      let upperPid := dd.bucketPageIds (i - dirSize)
      let upperLocalDepth := dd.localDepths (i - dirSize)
      (if upperPid = oldPid then dd.setBucketPageId i newPid
        else dd.setBucketPageId i upperPid).setLocalDepth i upperLocalDepth)
      dir1.incrGlobalDepth

/-- The redistribution loop of the full-bucket branch: walk the old bucket,
moving every slot whose key rehashes (under the new directory `D2`) to the new
page id. -/
def splitRd [DecidableEq K] [DecidableEq V] [Inhabited K] [Inhabited V] (hashFn : K → Nat)
    (sz : Nat) (D2 : Directory) (newPid : Nat) (oldB : Bucket K V) :
    Bucket K V × Bucket K V :=
  loopN sz (fun i p =>
    let bucketKey := p.1.keyAt i
    let bucketValue := p.1.valueAt i
    let bpid := D2.bucketPageIds (hash32 hashFn bucketKey &&& D2.globalDepthMask)
    if bpid = newPid then (p.1.removeAt i, (p.2.insert sz bucketKey bucketValue).1)
    else p) (oldB, Bucket.empty K V sz)

/-- The pair of bucket pages written back by the full-bucket branch, and the
retry insertion's flag. -/
def splitResult [DecidableEq K] [DecidableEq V] [Inhabited K] [Inhabited V]
    (hashFn : K → Nat) (sz : Nat) (t : TableState K V) (key : K) (value : V) :
    (Bucket K V × Bucket K V) × Bool :=
  let D2 := splitDir2 hashFn t key
  let rd := splitRd hashFn sz D2 t.buckets.length (fetchBucket sz t (keyToPageId hashFn t key))
  if D2.bucketPageIds (hash32 hashFn key &&& D2.globalDepthMask) = keyToPageId hashFn t key then
    let p := rd.1.insert sz key value
    ((p.1, rd.2), p.2)
  else
    let p := rd.2.insert sz key value
    ((rd.1, p.1), p.2)

/-! ### Concrete bucket states used by witnesses and counterexamples -/

/-- Slot 0 is readable but not occupied (a state outside the page's own
discipline): the probe then runs past the claimed scan end. -/
def bucketC3ce : Bucket Nat Nat :=
  { occupied := [2], readable := [1], array := [(1, 1), (9, 9), (7, 7)] }

/-- Slot 0 is a tombstone, slot 1 holds a live entry, slot 2 is never used. -/
def bucketC3w : Bucket Nat Nat :=
  { occupied := [3], readable := [2], array := [(1, 1), (9, 9), (7, 7)] }

/-- Eight readable slots: the readable bitmap is the single byte `0xFF`. -/
def bucketC9 : Bucket Nat Nat :=
  { occupied := [255], readable := [255], array := List.replicate 8 (0, 0) }

/-- A full four-slot bucket (trailing byte `0b1111`). -/
def bucketC8w : Bucket Nat Nat :=
  { occupied := [15], readable := [15], array := [(0, 0), (1, 1), (2, 2), (3, 3)] }

/-- The identity hash used for concrete table scenarios. -/
def hashId : Nat → Nat := fun k => k

/-- A four-slot bucket holding exactly one live entry (0, 0) at slot 0. -/
def bucketOneEntry : Bucket Nat Nat :=
  { occupied := [1], readable := [1], array := [(0, 0), (0, 0), (0, 0), (0, 0)] }

/-- A depth-1 table whose bucket 1 (directory slot 1) is empty: removing the
routing key 1 triggers a merge with slot 0's bucket. -/
def tableC6w : TableState Nat Nat :=
  { dir := { globalDepth := 1, localDepths := fun _ => 1, bucketPageIds := fun i => i % 2 }
    buckets := [bucketOneEntry, Bucket.empty Nat Nat 4]
    freed := [] }

/-- A fresh table (capacity 4) holding the single pair (5, 7). -/
def tableC10a : TableState Nat Nat := (insertOp hashId 4 (initTable Nat Nat 4) 5 7).1

/-- The state on which `Remove(5, 7)` invokes `Merge` (the routed bucket after
the removal, which emptied it). -/
def tableC10b : TableState Nat Nat :=
  { tableC10a with
      buckets := tableC10a.buckets.set (keyToPageId hashId tableC10a 5)
        ((fetchBucket 4 tableC10a (keyToPageId hashId tableC10a 5)).remove 4 5 7).1 }

-- ===================================================================
-- THEOREMS
-- ===================================================================

/-! ## Generic list/bit lemmas -/

theorem getD_modify (f : Nat → Nat) (n : Nat) (l : List Nat) (i : Nat) :
    (l.modify f n).getD i 0 = if n = i ∧ i < l.length then f (l.getD i 0) else l.getD i 0 := by
  rw [List.getD_eq_getElem?_getD, List.getD_eq_getElem?_getD, List.getElem?_modify]
  rcases Nat.lt_or_ge i l.length with h2 | h2
  · rw [List.getElem?_eq_getElem h2]
    by_cases h1 : n = i <;> simp [h1, h2]
  · rw [List.getElem?_eq_none h2]
    have : ¬(n = i ∧ i < l.length) := by omega
    simp [this]

theorem getD_set {α : Type} (l : List α) (n i : Nat) (a d : α) :
    (l.set n a).getD i d = if n = i ∧ i < l.length then a else l.getD i d := by
  rw [List.getD_eq_getElem?_getD, List.getD_eq_getElem?_getD, List.getElem?_set]
  by_cases h1 : n = i
  · subst h1
    by_cases h2 : n < l.length
    · simp [h2]
    · rw [List.getElem?_eq_none (Nat.ge_of_not_lt h2)]
      simp [h2]
  · simp [h1]

theorem and_shl_ne (c o : Nat) : decide (c &&& (1 <<< o) ≠ 0) = c.testBit o := by
  rw [Nat.shiftLeft_eq, one_mul, Nat.and_two_pow]
  cases h : c.testBit o <;> simp

theorem isReadable_testBit (b : Bucket K V) (i : Nat) :
    b.isReadable i = (b.readable.getD (i / 8) 0).testBit (i % 8) :=
  and_shl_ne _ _

theorem isOccupied_testBit (b : Bucket K V) (i : Nat) :
    b.isOccupied i = (b.occupied.getD (i / 8) 0).testBit (i % 8) :=
  and_shl_ne _ _

/-! ## Pointwise effect of the bit setters -/

theorem isReadable_setReadable (b : Bucket K V) (i j : Nat) (hj : j / 8 < b.readable.length) :
    (b.setReadable j).isReadable i = if i = j then true else b.isReadable i := by
  rw [isReadable_testBit, isReadable_testBit]
  show ((b.readable.modify _ (j / 8)).getD (i / 8) 0).testBit (i % 8) = _
  rw [getD_modify]
  by_cases hb : j / 8 = i / 8 ∧ i / 8 < b.readable.length
  · rw [if_pos hb]
    rw [Nat.testBit_lor, Nat.shiftLeft_eq, one_mul, Nat.testBit_two_pow]
    by_cases hij : i = j
    · subst hij; simp
    · have hne : ¬(j % 8 = i % 8) := by omega
      simp [hij, hne]
  · rw [if_neg hb]
    by_cases hij : i = j
    · subst hij; exact absurd ⟨rfl, hj⟩ hb
    · simp [hij]

theorem isReadable_setUnreadable (b : Bucket K V) (i j : Nat) :
    (b.setUnreadable j).isReadable i = if i = j then false else b.isReadable i := by
  rw [isReadable_testBit, isReadable_testBit]
  show ((b.readable.modify _ (j / 8)).getD (i / 8) 0).testBit (i % 8) = _
  rw [getD_modify]
  by_cases hb : j / 8 = i / 8 ∧ i / 8 < b.readable.length
  · rw [if_pos hb]
    rw [Nat.testBit_land, Nat.testBit_xor, Nat.shiftLeft_eq, one_mul, Nat.testBit_two_pow]
    have h255 : (255 : Nat) = 2 ^ 8 - 1 := by norm_num
    rw [h255, Nat.testBit_two_pow_sub_one]
    have h8 : i % 8 < 8 := Nat.mod_lt _ (by norm_num)
    by_cases hij : i = j
    · subst hij; simp [h8]
    · have hne : ¬(j % 8 = i % 8) := by omega
      simp [hij, hne, h8]
  · rw [if_neg hb]
    by_cases hij : i = j
    · subst hij
      rw [if_pos rfl]
      rcases Nat.lt_or_ge (i / 8) b.readable.length with h | h
      · exact absurd ⟨rfl, h⟩ hb
      · have h0 : b.readable.getD (i / 8) 0 = 0 := by
          rw [List.getD_eq_getElem?_getD, List.getElem?_eq_none h]; rfl
        rw [h0]
        simp
    · simp [hij]

theorem isOccupied_setOccupied (b : Bucket K V) (i j : Nat) (hj : j / 8 < b.occupied.length) :
    (b.setOccupied j).isOccupied i = if i = j then true else b.isOccupied i := by
  rw [isOccupied_testBit, isOccupied_testBit]
  show ((b.occupied.modify _ (j / 8)).getD (i / 8) 0).testBit (i % 8) = _
  rw [getD_modify]
  by_cases hb : j / 8 = i / 8 ∧ i / 8 < b.occupied.length
  · rw [if_pos hb]
    rw [Nat.testBit_lor, Nat.shiftLeft_eq, one_mul, Nat.testBit_two_pow]
    by_cases hij : i = j
    · subst hij; simp
    · have hne : ¬(j % 8 = i % 8) := by omega
      simp [hij, hne]
  · rw [if_neg hb]
    by_cases hij : i = j
    · subst hij; exact absurd ⟨rfl, hj⟩ hb
    · simp [hij]

theorem isOccupied_setReadable (b : Bucket K V) (i j : Nat) :
    (b.setReadable j).isOccupied i = b.isOccupied i := rfl

theorem isOccupied_setUnreadable (b : Bucket K V) (i j : Nat) :
    (b.setUnreadable j).isOccupied i = b.isOccupied i := rfl

theorem isReadable_setOccupied (b : Bucket K V) (i j : Nat) :
    (b.setOccupied j).isReadable i = b.isReadable i := rfl

theorem array_setReadable (b : Bucket K V) (j : Nat) : (b.setReadable j).array = b.array := rfl

theorem array_setUnreadable (b : Bucket K V) (j : Nat) :
    (b.setUnreadable j).array = b.array := rfl

theorem array_setOccupied (b : Bucket K V) (j : Nat) : (b.setOccupied j).array = b.array := rfl

/-! ## Byte-level facts about well-formed pages -/

theorem readable_byte_lt {b : Bucket K V} (h : b.bytesWF = true) (j : Nat) :
    b.readable.getD j 0 < 256 := by
  unfold Bucket.bytesWF at h
  rw [Bool.and_eq_true] at h
  rcases Nat.lt_or_ge j b.readable.length with hj | hj
  · rw [List.getD_eq_getElem?_getD, List.getElem?_eq_getElem hj]
    have := List.all_eq_true.1 h.2 _ (List.getElem_mem hj)
    simpa using this
  · rw [List.getD_eq_getElem?_getD, List.getElem?_eq_none hj]
    norm_num

theorem occupied_byte_lt {b : Bucket K V} (h : b.bytesWF = true) (j : Nat) :
    b.occupied.getD j 0 < 256 := by
  unfold Bucket.bytesWF at h
  rw [Bool.and_eq_true] at h
  rcases Nat.lt_or_ge j b.occupied.length with hj | hj
  · rw [List.getD_eq_getElem?_getD, List.getElem?_eq_getElem hj]
    have := List.all_eq_true.1 h.1 _ (List.getElem_mem hj)
    simpa using this
  · rw [List.getD_eq_getElem?_getD, List.getElem?_eq_none hj]
    norm_num

theorem isReadable_of_junkFree {sz : Nat} {b : Bucket K V} (h : b.junkFree sz = true)
    {i : Nat} (hi : sz ≤ i) : b.isReadable i = false := by
  unfold Bucket.junkFree at h
  rw [Bool.and_eq_true] at h
  rcases Nat.lt_or_ge i (8 * b.readable.length) with hlt | hge
  · have := List.all_eq_true.1 h.1 i (List.mem_range.2 hlt)
    simpa [Nat.not_lt.2 hi] using this
  · rw [isReadable_testBit]
    have h0 : b.readable.getD (i / 8) 0 = 0 := by
      rw [List.getD_eq_getElem?_getD,
        List.getElem?_eq_none (by omega : b.readable.length ≤ i / 8)]
      rfl
    rw [h0]
    simp

theorem isOccupied_of_junkFree {sz : Nat} {b : Bucket K V} (h : b.junkFree sz = true)
    {i : Nat} (hi : sz ≤ i) : b.isOccupied i = false := by
  unfold Bucket.junkFree at h
  rw [Bool.and_eq_true] at h
  rcases Nat.lt_or_ge i (8 * b.occupied.length) with hlt | hge
  · have := List.all_eq_true.1 h.2 i (List.mem_range.2 hlt)
    simpa [Nat.not_lt.2 hi] using this
  · rw [isOccupied_testBit]
    have h0 : b.occupied.getD (i / 8) 0 = 0 := by
      rw [List.getD_eq_getElem?_getD,
        List.getElem?_eq_none (by omega : b.occupied.length ≤ i / 8)]
      rfl
    rw [h0]
    simp

theorem isReadable_byte (b : Bucket K V) (j o : Nat) (ho : o < 8) :
    b.isReadable (8 * j + o) = (b.readable.getD j 0).testBit o := by
  rw [isReadable_testBit]
  have h1 : (8 * j + o) / 8 = j := by omega
  have h2 : (8 * j + o) % 8 = o := by omega
  rw [h1, h2]

theorem byte_eq_two_pow_sub_one {c : Nat} (k : Nat) (hc : c < 256) (hk : k ≤ 8)
    (hbits : ∀ o < 8, c.testBit o = decide (o < k)) : c = 2 ^ k - 1 := by
  apply Nat.eq_of_testBit_eq
  intro o
  rcases Nat.lt_or_ge o 8 with ho | ho
  · rw [hbits o ho, Nat.testBit_two_pow_sub_one]
  · have hco : c < 2 ^ o :=
      lt_of_lt_of_le hc (by calc (256 : Nat) = 2 ^ 8 := by norm_num
                              _ ≤ 2 ^ o := Nat.pow_le_pow_right (by norm_num) ho)
    rw [Nat.testBit_lt_two_pow hco, Nat.testBit_two_pow_sub_one]
    have : ¬(o < k) := by omega
    simp [this]

/-- Claim C8: on any bucket page whose readable bits beyond
`BUCKET_ARRAY_SIZE - 1` are all zero, `IsFull` returns true exactly when
every readable bit in `[0, BUCKET_ARRAY_SIZE)` is set.  (The byte-wise
computation with the `(1 << rest) - 1` trailing byte is the definition
`Bucket.isFull`, taken from the source.) -/
theorem C8_isFull_iff (sz : Nat) (b : Bucket K V) (hsz : 0 < sz)
    (hlen : b.lenWF sz = true) (hbytes : b.bytesWF = true) (hjunk : b.junkFree sz = true) :
    b.isFull sz = true ↔ ∀ i < sz, b.isReadable i = true := by
  unfold Bucket.isFull
  rw [Bool.and_eq_true]
  constructor
  · rintro ⟨hA, hB⟩ i hi
    have hbyte : ∀ j < sz / 8, b.readable.getD j 0 = 255 := by
      intro j hj
      have := List.all_eq_true.1 hA j (List.mem_range.2 hj)
      simpa using this
    rcases Nat.lt_or_ge (i / 8) (sz / 8) with hj | hj
    · rw [isReadable_testBit, hbyte _ hj]
      have h255 : (255 : Nat) = 2 ^ 8 - 1 := by norm_num
      rw [h255, Nat.testBit_two_pow_sub_one]
      simp [Nat.mod_lt i (by norm_num : 0 < 8)]
    · have hj' : i / 8 = sz / 8 := by omega
      have hrest0 : sz - sz / 8 * 8 ≠ 0 := by omega
      have htrail : b.readable.getD ((sz - 1) / 8) 0 = (1 <<< (sz - sz / 8 * 8)) - 1 := by
        by_contra hne
        simp [hrest0, hne] at hB
        rw [List.getD_eq_getElem?_getD] at hne
        exact hne hB
      have hidx : (sz - 1) / 8 = sz / 8 := by omega
      rw [isReadable_testBit, hj', ← hidx, htrail, Nat.shiftLeft_eq, one_mul,
        Nat.testBit_two_pow_sub_one]
      have : i % 8 < sz - sz / 8 * 8 := by omega
      simp [this]
  · intro hr
    constructor
    · rw [List.all_eq_true]
      intro j hj
      rw [List.mem_range] at hj
      have hbyte : b.readable.getD j 0 = 255 := by
        have h255 : (255 : Nat) = 2 ^ 8 - 1 := by norm_num
        rw [h255]
        apply byte_eq_two_pow_sub_one 8 (readable_byte_lt hbytes j) (le_refl 8)
        intro o ho
        rw [← isReadable_byte b j o ho, hr _ (by omega)]
        simp [ho]
      simp only [beq_iff_eq]
      exact hbyte
    · by_cases hrest : sz - sz / 8 * 8 = 0
      · simp [hrest]
      · have htrail : b.readable.getD ((sz - 1) / 8) 0 = 2 ^ (sz - sz / 8 * 8) - 1 := by
          apply byte_eq_two_pow_sub_one (sz - sz / 8 * 8) (readable_byte_lt hbytes _) (by omega)
          intro o ho
          have hidx : 8 * ((sz - 1) / 8) + o = 8 * (sz / 8) + o := by omega
          rw [← isReadable_byte b _ o ho, hidx]
          by_cases hor : o < sz - sz / 8 * 8
          · rw [hr _ (by omega)]
            simp [hor]
          · rw [isReadable_of_junkFree hjunk (by omega)]
            simp [hor]
        rw [Nat.shiftLeft_eq, one_mul]
        simp only [Bool.not_eq_true', Bool.and_eq_false_iff, decide_eq_false_iff_not, not_not]
        right
        exact htrail

/-- Witness for C8 at a concrete full four-slot page. -/
theorem C8_isFull_iff_witness :
    (0 < 4 ∧ bucketC8w.lenWF 4 = true ∧ bucketC8w.bytesWF = true ∧
      bucketC8w.junkFree 4 = true) ∧
      (bucketC8w.isFull 4 = true ↔ ∀ i < 4, bucketC8w.isReadable i = true) :=
  ⟨by decide, C8_isFull_iff 4 bucketC8w (by decide) (by decide) (by decide) (by decide)⟩

/-! ## C9: NumReadable -/

/-- Each Brian-Kernighan step clears the lowest set bit, so any fuel of at
least `n` computes the unbounded `while (n != 0)` loop of `NumReadable`. -/
theorem bkAux_fuel : ∀ n f1 f2 : Nat, n ≤ f1 → n ≤ f2 → bkAux f1 n = bkAux f2 n := by
  intro n
  induction n using Nat.strong_induction_on with
  | _ n ih =>
    intro f1 f2 h1 h2
    by_cases hn : n = 0
    · subst hn
      cases f1 <;> cases f2 <;> simp [bkAux]
    · obtain ⟨g1, rfl⟩ : ∃ g, f1 = g + 1 := ⟨f1 - 1, by omega⟩
      obtain ⟨g2, rfl⟩ : ∃ g, f2 = g + 1 := ⟨f2 - 1, by omega⟩
      simp only [bkAux, if_neg hn]
      have hlt : n &&& (n - 1) < n := lt_of_le_of_lt Nat.and_le_right (by omega)
      rw [ih _ hlt g1 g2 (by omega) (by omega)]

/-- Claim C9 fails on the code (code bug): with slots 0–7 all readable the
readable byte is `0xFF`; `static_cast<int>` sign-extends it (char is signed
on the target), and the loop counts the 32 set bits of the two's-complement
int encoding `2^32 - 1` instead of the byte's 8.  The second conjunct is the
true number of readable slots. -/
theorem C9_numReadable_bug :
    Bucket.numReadable 8 bucketC9 = 32 ∧
      ((List.range 8).filter fun i => bucketC9.isReadable i).length = 8 := by
  constructor
  · decide
  · decide

/-! ## C3: bucket-page Insert -/

theorem specScanned_iff {sz : Nat} {b : Bucket K V} {i : Nat} :
    b.specScanned sz i = true ↔ i < sz ∧ ∀ l < i, b.isOccupied l = true := by
  unfold Bucket.specScanned
  simp [List.all_eq_true, List.mem_range]

theorem find?_range'_eq_some {P : Nat → Bool} (m : Nat) :
    ∀ len s : Nat, s ≤ m → m < s + len → P m = true →
      (∀ l, s ≤ l → l < m → P l = false) → (List.range' s len).find? P = some m := by
  intro len
  induction len with
  | zero => intro s h1 h2 _ _; omega
  | succ n ih =>
    intro s h1 h2 hP hmin
    rw [List.range'_succ, List.find?_cons]
    by_cases hs : s = m
    · subst hs
      simp [hP]
    · have hPs : P s = false := hmin s (le_refl s) (by omega)
      simp only [hPs]
      exact ih (s + 1) (by omega) (by omega) hP (fun l hl1 hl2 => hmin l (by omega) hl2)

theorem find?_range_eq_some {P : Nat → Bool} (m n : Nat) (hmn : m < n) (hP : P m = true)
    (hmin : ∀ l < m, P l = false) : (List.range n).find? P = some m := by
  rw [List.range_eq_range']
  exact find?_range'_eq_some m n 0 (Nat.zero_le m) (by omega) hP fun l _ hl => hmin l hl

theorem insertLoop_spec [DecidableEq K] [DecidableEq V] [Inhabited K] [Inhabited V]
    (sz : Nat) (b : Bucket K V) (key : K) (value : V)
    (h : ∀ i < sz, b.isReadable i = true → b.isOccupied i = true) :
    ∀ n a ii : Nat, a + n = sz →
      (∀ l < a, b.isOccupied l = true) →
      (∀ l < a, ¬(b.isReadable l = true ∧ b.array.getD l default = (key, value))) →
      ((ii = sz ∧ ∀ l < a, b.isReadable l = true) ∨
        (ii < a ∧ b.isReadable ii = false ∧ ∀ l < ii, b.isReadable l = true)) →
      b.insertFinish sz key value (b.insertLoop sz key value (List.range' a n) ii) =
        b.insertSpec sz key value := by
  intro n
  induction n with
  | zero =>
    intro a ii ha h1 h2 hinv
    have haz : a = sz := by omega
    rw [haz] at h1 h2 hinv ⊢
    have hany : ((List.range sz).any fun i =>
        b.specScanned sz i && b.isReadable i &&
          decide (b.array.getD i default = (key, value))) = false := by
      rw [← Bool.not_eq_true, List.any_eq_true]
      rintro ⟨x, hx, hP⟩
      rw [List.mem_range] at hx
      rw [Bool.and_eq_true, Bool.and_eq_true] at hP
      exact h2 x hx ⟨hP.1.2, of_decide_eq_true hP.2⟩
    unfold Bucket.insertSpec
    rw [hany]
    rcases hinv with ⟨hii, hall⟩ | ⟨hlt, hnr, hmin⟩
    · have hfind : ((List.range sz).find? fun i => b.specScanned sz i && !b.isReadable i)
          = none := by
        rw [List.find?_eq_none]
        intro x hx
        rw [List.mem_range] at hx
        simp [hall x hx]
      rw [hfind]
      simp [Bucket.insertLoop, Bucket.insertFinish, hii]
    · have hfind : ((List.range sz).find? fun i => b.specScanned sz i && !b.isReadable i)
          = some ii := by
        apply find?_range_eq_some ii sz hlt
        · rw [Bool.and_eq_true]
          exact ⟨specScanned_iff.2 ⟨hlt, fun l hl => h1 l (by omega)⟩, by simp [hnr]⟩
        · intro l hl
          simp [hmin l hl]
      rw [hfind]
      have hne : ¬(ii = sz) := by omega
      simp [Bucket.insertLoop, Bucket.insertFinish, hne]
  | succ n ih =>
    intro a ii ha h1 h2 hinv
    have hasz : a < sz := by omega
    rw [List.range'_succ]
    simp only [Bucket.insertLoop]
    by_cases hdup : b.isReadable a = true ∧ b.array.getD a default = (key, value)
    · rw [if_pos hdup]
      have hany : ((List.range sz).any fun i =>
          b.specScanned sz i && b.isReadable i &&
            decide (b.array.getD i default = (key, value))) = true := by
        rw [List.any_eq_true]
        refine ⟨a, List.mem_range.2 hasz, ?_⟩
        rw [Bool.and_eq_true, Bool.and_eq_true]
        exact ⟨⟨specScanned_iff.2 ⟨hasz, h1⟩, hdup.1⟩, decide_eq_true hdup.2⟩
      unfold Bucket.insertSpec
      rw [hany]
      simp [Bucket.insertFinish]
    · rw [if_neg hdup]
      by_cases hra : b.isReadable a = true
      · rw [if_neg (by simp [hra])]
        apply ih (a + 1) ii (by omega)
        · intro l hl
          rcases Nat.lt_or_ge l a with hla | hla
          · exact h1 l hla
          · have hla2 : l = a := by omega
            rw [hla2]
            exact h a hasz hra
        · intro l hl
          rcases Nat.lt_or_ge l a with hla | hla
          · exact h2 l hla
          · have hla2 : l = a := by omega
            rw [hla2]
            exact hdup
        · rcases hinv with ⟨hii, hall⟩ | ⟨hlt, hnr, hmin⟩
          · refine Or.inl ⟨hii, fun l hl => ?_⟩
            rcases Nat.lt_or_ge l a with hla | hla
            · exact hall l hla
            · have hla2 : l = a := by omega
              rw [hla2]
              exact hra
          · exact Or.inr ⟨by omega, hnr, hmin⟩
      · rw [if_pos (by simp [hra])]
        have hraf : b.isReadable a = false := by
          cases hx : b.isReadable a
          · rfl
          · exact absurd hx hra
        have hinv' :
            (((if ii = sz then a else ii) = sz ∧
              ∀ l < a + 1, b.isReadable l = true) ∨
              ((if ii = sz then a else ii) < a + 1 ∧
                b.isReadable (if ii = sz then a else ii) = false ∧
                ∀ l < (if ii = sz then a else ii), b.isReadable l = true)) := by
          rcases hinv with ⟨hii, hall⟩ | ⟨hlt, hnr, hmin⟩
          · rw [if_pos hii]
            exact Or.inr ⟨by omega, hraf, hall⟩
          · rw [if_neg (by omega)]
            exact Or.inr ⟨by omega, hnr, hmin⟩
        by_cases hoc : b.isOccupied a = true
        · rw [if_neg (by simp [hoc])]
          apply ih (a + 1) (if ii = sz then a else ii) (by omega)
          · intro l hl
            rcases Nat.lt_or_ge l a with hla | hla
            · exact h1 l hla
            · have hla2 : l = a := by omega
              rw [hla2]
              exact hoc
          · intro l hl
            rcases Nat.lt_or_ge l a with hla | hla
            · exact h2 l hla
            · have : l = a := by omega
              subst this
              rintro ⟨hc, _⟩
              exact hra hc
          · exact hinv'
        · rw [if_pos (by simp [hoc])]
          have hocf : b.isOccupied a = false := by
            cases hx : b.isOccupied a
            · rfl
            · exact absurd hx hoc
          have hscan : ∀ x, b.specScanned sz x = true → x ≤ a := by
            intro x hx
            rcases specScanned_iff.1 hx with ⟨_, hocc⟩
            by_contra hgt
            have := hocc a (by omega)
            rw [hocf] at this
            exact Bool.false_ne_true this
          have hany : ((List.range sz).any fun i =>
              b.specScanned sz i && b.isReadable i &&
                decide (b.array.getD i default = (key, value))) = false := by
            rw [← Bool.not_eq_true, List.any_eq_true]
            rintro ⟨x, hx, hP⟩
            rw [Bool.and_eq_true, Bool.and_eq_true] at hP
            have hxa : x ≤ a := hscan x hP.1.1
            rcases Nat.lt_or_ge x a with hxa' | hxa'
            · exact h2 x hxa' ⟨hP.1.2, of_decide_eq_true hP.2⟩
            · have : x = a := by omega
              subst this
              exact hdup ⟨hP.1.2, of_decide_eq_true hP.2⟩
          have hfind : ((List.range sz).find? fun i => b.specScanned sz i && !b.isReadable i)
              = some (if ii = sz then a else ii) := by
            rcases hinv with ⟨hii, hall⟩ | ⟨hlt, hnr, hmin⟩
            · rw [if_pos hii]
              apply find?_range_eq_some a sz hasz
              · rw [Bool.and_eq_true]
                exact ⟨specScanned_iff.2 ⟨hasz, h1⟩, by simp [hraf]⟩
              · intro l hl
                simp [hall l hl]
            · rw [if_neg (by omega)]
              apply find?_range_eq_some ii sz (by omega)
              · rw [Bool.and_eq_true]
                refine ⟨specScanned_iff.2 ⟨by omega, fun l hl => h1 l (by omega)⟩, by simp [hnr]⟩
              · intro l hl
                simp [hmin l hl]
          have hiine : ¬((if ii = sz then a else ii) = sz) := by
            rcases hinv with ⟨hii, _⟩ | ⟨hlt, _, _⟩
            · rw [if_pos hii]; omega
            · rw [if_neg (by omega)]; omega
          unfold Bucket.insertSpec
          rw [hany, hfind]
          simp [Bucket.insertFinish, hiine]

/-- Claim C3 as stated (quantifying over arbitrary bucket-page states) fails:
on `bucketC3ce` slot 0 is readable but not occupied, the code's probe runs
past it and inserts at slot 1, while the claimed scan range ends at slot 0
and contains no free slot, so the claim prescribes returning false. -/
theorem C3_counterexample :
    (bucketC3ce.insert 3 5 5).2 = true ∧ (bucketC3ce.insertSpec 3 5 5).2 = false := by
  constructor
  · decide
  · decide

/-- Claim C3, amended with the page discipline `readable → occupied` (spec §3
lists it as an invariant of every reachable page): `Insert` behaves exactly
as the claim describes — reject a duplicate found in the scan range, else
write into the earliest `readable = 0` slot of the range setting both bits,
else report the page full. -/
theorem C3_insert_spec [DecidableEq K] [DecidableEq V] [Inhabited K] [Inhabited V]
    (sz : Nat) (b : Bucket K V) (key : K) (value : V)
    (h : ∀ i < sz, b.isReadable i = true → b.isOccupied i = true) :
    b.insert sz key value = b.insertSpec sz key value := by
  unfold Bucket.insert
  rw [List.range_eq_range']
  exact insertLoop_spec sz b key value h sz 0 sz (by omega)
    (fun l hl => absurd hl (Nat.not_lt_zero l))
    (fun l hl => absurd hl (Nat.not_lt_zero l))
    (Or.inl ⟨rfl, fun l hl => absurd hl (Nat.not_lt_zero l)⟩)

/-- Witness for the amended C3 at a concrete page (tombstone at slot 0, live
entry at slot 1): both the code and the specified behaviour insert at slot 0. -/
theorem C3_insert_spec_witness :
    (∀ i < 3, bucketC3w.isReadable i = true → bucketC3w.isOccupied i = true) ∧
      bucketC3w.insert 3 5 5 = bucketC3w.insertSpec 3 5 5 :=
  ⟨by decide, C3_insert_spec 3 bucketC3w 5 5 (by decide)⟩

/-! ## C10: the `local_depth - 1` shift in Merge -/

/-- Claim C10 fails on the code (code bug): `Remove` invokes `Merge` whenever
a removal empties the routed bucket, including at global depth 0, and `Merge`
computes `same_mask = local_mask ^ (1 << (local_depth - 1))` before its
`local_depth > 0` check.  Starting from a fresh table holding only (5, 7),
removing (5, 7) empties the bucket, so `Merge` is entered with local depth 0
and the unsigned shift amount wraps to `2^32 - 1`, which is not below 32
(a shift width overflow, undefined behaviour in C++). -/
theorem C10_merge_shift_bug :
    removeInvokesMerge hashId 4 tableC10a 5 7 = true ∧
      tableC10b.dir.localDepths (keyToDirectoryIndex hashId tableC10b 5) = 0 ∧
      mergeShiftAmount (tableC10b.dir.localDepths (keyToDirectoryIndex hashId tableC10b 5)) =
        2 ^ 32 - 1 ∧
      ¬ mergeShiftAmount (tableC10b.dir.localDepths (keyToDirectoryIndex hashId tableC10b 5))
          < 32 := by
  refine ⟨by decide, by decide, by decide, by decide⟩

/-! ## Loop characterizations for the directory-mutating for-loops -/

theorem loopN_succ {α : Type} (n : Nat) (f : Nat → α → α) (a : α) :
    loopN (n + 1) f a = f n (loopN n f a) := by
  simp [loopN, List.range_succ]

theorem loopFrom_succ {α : Type} (lo len : Nat) (f : Nat → α → α) (a : α) :
    loopFrom lo (len + 1) f a = f (lo + len) (loopFrom lo len f a) := by
  simp [loopFrom, List.range'_concat]

theorem setBucketPageId_localDepths (d : Directory) (i p : Nat) :
    (d.setBucketPageId i p).localDepths = d.localDepths := rfl

theorem setBucketPageId_globalDepth (d : Directory) (i p : Nat) :
    (d.setBucketPageId i p).globalDepth = d.globalDepth := rfl

theorem setBucketPageId_pids_self (d : Directory) (i p : Nat) :
    (d.setBucketPageId i p).bucketPageIds i = p := by
  unfold Directory.setBucketPageId
  exact Function.update_same i p d.bucketPageIds

theorem setBucketPageId_pids_ne (d : Directory) (i p j : Nat) (h : j ≠ i) :
    (d.setBucketPageId i p).bucketPageIds j = d.bucketPageIds j := by
  unfold Directory.setBucketPageId
  exact Function.update_noteq h p d.bucketPageIds

theorem setLocalDepth_pids (d : Directory) (i v : Nat) :
    (d.setLocalDepth i v).bucketPageIds = d.bucketPageIds := rfl

theorem setLocalDepth_globalDepth (d : Directory) (i v : Nat) :
    (d.setLocalDepth i v).globalDepth = d.globalDepth := rfl

theorem setLocalDepth_ld_self (d : Directory) (i v : Nat) :
    (d.setLocalDepth i v).localDepths i = v := by
  unfold Directory.setLocalDepth
  exact Function.update_same i v d.localDepths

theorem setLocalDepth_ld_ne (d : Directory) (i v j : Nat) (h : j ≠ i) :
    (d.setLocalDepth i v).localDepths j = d.localDepths j := by
  unfold Directory.setLocalDepth
  exact Function.update_noteq h v d.localDepths

theorem loopN_dir_globalDepth (n : Nat) (f : Nat → Directory → Directory) (d : Directory)
    (hg : ∀ i dd, (f i dd).globalDepth = dd.globalDepth) :
    (loopN n f d).globalDepth = d.globalDepth := by
  induction n with
  | zero => rfl
  | succ n ih => rw [loopN_succ, hg, ih]

theorem loopN_dir_slots (n : Nat) (f : Nat → Directory → Directory) (d : Directory)
    (hframe : ∀ i dd j, j ≠ i →
      (f i dd).localDepths j = dd.localDepths j ∧
        (f i dd).bucketPageIds j = dd.bucketPageIds j)
    (hval : ∀ i dd, dd.localDepths i = d.localDepths i → dd.bucketPageIds i = d.bucketPageIds i →
      (f i dd).localDepths i = (f i d).localDepths i ∧
        (f i dd).bucketPageIds i = (f i d).bucketPageIds i) :
    ∀ j, (j < n → (loopN n f d).localDepths j = (f j d).localDepths j ∧
        (loopN n f d).bucketPageIds j = (f j d).bucketPageIds j) ∧
      (n ≤ j → (loopN n f d).localDepths j = d.localDepths j ∧
        (loopN n f d).bucketPageIds j = d.bucketPageIds j) := by
  induction n with
  | zero =>
    intro j
    exact ⟨fun h => absurd h (by omega), fun _ => ⟨rfl, rfl⟩⟩
  | succ n ih =>
    intro j
    rw [loopN_succ]
    constructor
    · intro hj
      rcases Nat.lt_or_ge j n with hjn | hjn
      · rcases hframe n (loopN n f d) j (by omega) with ⟨he1, he2⟩
        rw [he1, he2]
        exact (ih j).1 hjn
      · have hj' : j = n := by omega
        rw [hj']
        rcases (ih n).2 (le_refl n) with ⟨hu1, hu2⟩
        exact hval n (loopN n f d) hu1 hu2
    · intro hj
      rcases hframe n (loopN n f d) j (by omega) with ⟨he1, he2⟩
      rw [he1, he2]
      exact (ih j).2 (by omega)

theorem loopFrom_dir_globalDepth (lo len : Nat) (f : Nat → Directory → Directory) (d : Directory)
    (hg : ∀ i dd, (f i dd).globalDepth = dd.globalDepth) :
    (loopFrom lo len f d).globalDepth = d.globalDepth := by
  induction len with
  | zero => rfl
  | succ n ih => rw [loopFrom_succ, hg, ih]

theorem loopFrom_dir_slots (lo len : Nat) (f : Nat → Directory → Directory) (d : Directory)
    (hframe : ∀ i dd j, j ≠ i →
      (f i dd).localDepths j = dd.localDepths j ∧
        (f i dd).bucketPageIds j = dd.bucketPageIds j)
    (hval : ∀ i dd, lo ≤ i → i < lo + len →
      (∀ l, l < lo → dd.localDepths l = d.localDepths l ∧
        dd.bucketPageIds l = d.bucketPageIds l) →
      (f i dd).localDepths i = (f i d).localDepths i ∧
        (f i dd).bucketPageIds i = (f i d).bucketPageIds i) :
    ∀ j, (lo ≤ j → j < lo + len →
        (loopFrom lo len f d).localDepths j = (f j d).localDepths j ∧
          (loopFrom lo len f d).bucketPageIds j = (f j d).bucketPageIds j) ∧
      (j < lo ∨ lo + len ≤ j →
        (loopFrom lo len f d).localDepths j = d.localDepths j ∧
          (loopFrom lo len f d).bucketPageIds j = d.bucketPageIds j) := by
  induction len with
  | zero =>
    intro j
    exact ⟨fun h1 h2 => absurd h2 (by omega), fun _ => ⟨rfl, rfl⟩⟩
  | succ n ih =>
    have ihv := ih (fun i dd h1 h2 hp => hval i dd h1 (by omega) hp)
    intro j
    rw [loopFrom_succ]
    constructor
    · intro hj1 hj2
      rcases Nat.lt_or_ge j (lo + n) with hjn | hjn
      · rcases hframe (lo + n) (loopFrom lo n f d) j (by omega) with ⟨he1, he2⟩
        rw [he1, he2]
        exact (ihv j).1 hj1 hjn
      · have hj' : j = lo + n := by omega
        rw [hj']
        exact hval (lo + n) (loopFrom lo n f d) (by omega) (by omega)
          (fun l hl => (ihv l).2 (Or.inl hl))
    · intro hj
      rcases hframe (lo + n) (loopFrom lo n f d) j (by omega) with ⟨he1, he2⟩
      rw [he1, he2]
      exact (ihv j).2 (by omega)

/-! ## Merge characterization (claim C6) -/

theorem mask_xor_top (d : Nat) (hd : 0 < d) :
    (2 ^ d - 1) ^^^ (1 <<< (d - 1)) = 2 ^ (d - 1) - 1 := by
  apply Nat.eq_of_testBit_eq
  intro k
  rw [Nat.testBit_xor, Nat.shiftLeft_eq, one_mul, Nat.testBit_two_pow,
    Nat.testBit_two_pow_sub_one, Nat.testBit_two_pow_sub_one]
  rcases Nat.lt_trichotomy k (d - 1) with h | h | h
  · have h1 : k < d := by omega
    have h2 : ¬(d - 1 = k) := by omega
    simp [h, h1, h2]
  · subst h
    have h1 : d - 1 < d := by omega
    simp [h1]
  · have h1 : ¬(k < d) := by omega
    have h2 : ¬(d - 1 = k) := by omega
    have h3 : ¬(k < d - 1) := by omega
    simp [h1, h2, h3]

theorem canShrink_eq_decide (d : Directory) :
    d.canShrink = decide (∀ i < d.size, d.localDepths i < d.globalDepth) := by
  unfold Directory.canShrink
  cases h : decide (∀ i < d.size, d.localDepths i < d.globalDepth)
  · rw [decide_eq_false_iff_not] at h
    rw [← Bool.not_eq_true, List.all_eq_true]
    intro hall
    exact h fun i hi => by simpa using hall i (List.mem_range.2 hi)
  · rw [decide_eq_true_eq] at h
    rw [List.all_eq_true]
    intro i hi
    simpa using h i (List.mem_range.1 hi)

/-- The directory effect of a `Merge` that passes all its guards: the result
is `dir2` (slots redirected under the local mask, local depths of the merged
prefix decremented), possibly with the global depth decremented when
`CanShrink` holds of `dir2`.  Bucket pages are untouched; the empty page is
deleted. -/
theorem mergeOp_occur [DecidableEq K] [DecidableEq V] [Inhabited K] [Inhabited V]
    (hashFn : K → Nat) (sz : Nat) (t : TableState K V) (key : K)
    (hd : 0 < t.dir.localDepths (keyToDirectoryIndex hashFn t key))
    (hemp : (fetchBucket sz t (keyToPageId hashFn t key)).isEmpty sz = true)
    (heq : t.dir.localDepths
        (t.dir.getSplitImageIndex (keyToDirectoryIndex hashFn t key)) =
      t.dir.localDepths (keyToDirectoryIndex hashFn t key)) :
    (mergeOp hashFn sz t key).freed = t.freed ++ [keyToPageId hashFn t key] ∧
    (mergeOp hashFn sz t key).buckets = t.buckets ∧
    ∃ dir2 : Directory,
      (mergeOp hashFn sz t key).dir =
        (if dir2.canShrink then dir2.decrGlobalDepth else dir2) ∧
      dir2.globalDepth = t.dir.globalDepth ∧
      (∀ j, dir2.bucketPageIds j =
        if j < t.dir.size ∧
            j &&& t.dir.localDepthMask (keyToDirectoryIndex hashFn t key) =
              keyToDirectoryIndex hashFn t key &&&
                t.dir.localDepthMask (keyToDirectoryIndex hashFn t key) then
          t.dir.bucketPageIds (t.dir.getSplitImageIndex (keyToDirectoryIndex hashFn t key))
        else t.dir.bucketPageIds j) ∧
      (∀ j, dir2.localDepths j =
        if j < t.dir.size ∧
            j &&& (2 ^ (t.dir.localDepths (keyToDirectoryIndex hashFn t key) - 1) - 1) =
              keyToDirectoryIndex hashFn t key &&&
                (2 ^ (t.dir.localDepths (keyToDirectoryIndex hashFn t key) - 1) - 1) then
          t.dir.localDepths j - 1
        else t.dir.localDepths j) := by
  simp only [mergeOp]
  rw [if_pos ⟨hd, hemp⟩, if_pos heq]
  refine ⟨rfl, rfl, ?_⟩
  set dir := t.dir with hdir
  set index := keyToDirectoryIndex hashFn t key with hindex
  set localMask := dir.localDepthMask index with hlocalMask
  set anotherPid := dir.bucketPageIds (dir.getSplitImageIndex index) with hanotherPid
  set sameMask := localMask ^^^ (1 <<< (dir.localDepths index - 1)) with hsameMask
  set dir1 := loopN dir.size (fun i dd =>
      if i &&& localMask = index &&& localMask then dd.setBucketPageId i anotherPid
      else dd) dir with hdir1
  set dir2 := loopN dir.size (fun i dd =>
      if i &&& sameMask = index &&& sameMask then dd.decrLocalDepth i else dd) dir1 with hdir2
  refine ⟨dir2, rfl, ?_, ?_, ?_⟩
  · rw [hdir2, hdir1]
    rw [loopN_dir_globalDepth, loopN_dir_globalDepth]
    · intro i dd
      by_cases hc : i &&& localMask = index &&& localMask <;> simp [hc, Directory.setBucketPageId]
    · intro i dd
      by_cases hc : i &&& sameMask = index &&& sameMask <;>
        simp [hc, Directory.decrLocalDepth, Directory.setLocalDepth]
  · -- bucketPageIds of dir2
    have hframe1 : ∀ i (dd : Directory) j, j ≠ i →
        ((fun i dd => if i &&& localMask = index &&& localMask
            then dd.setBucketPageId i anotherPid else dd) i dd).localDepths j =
          dd.localDepths j ∧
        ((fun i dd => if i &&& localMask = index &&& localMask
            then dd.setBucketPageId i anotherPid else dd) i dd).bucketPageIds j =
          dd.bucketPageIds j := by
      intro i dd j hj
      by_cases hc : i &&& localMask = index &&& localMask
      · simp only [hc, if_pos]
        exact ⟨rfl, setBucketPageId_pids_ne dd i anotherPid j hj⟩
      · simp [hc]
    have hval1 : ∀ i (dd : Directory),
        dd.localDepths i = dir.localDepths i → dd.bucketPageIds i = dir.bucketPageIds i →
        ((fun i dd => if i &&& localMask = index &&& localMask
            then dd.setBucketPageId i anotherPid else dd) i dd).localDepths i =
          ((fun i dd => if i &&& localMask = index &&& localMask
            then dd.setBucketPageId i anotherPid else dd) i dir).localDepths i ∧
        ((fun i dd => if i &&& localMask = index &&& localMask
            then dd.setBucketPageId i anotherPid else dd) i dd).bucketPageIds i =
          ((fun i dd => if i &&& localMask = index &&& localMask
            then dd.setBucketPageId i anotherPid else dd) i dir).bucketPageIds i := by
      intro i dd hl hp
      by_cases hc : i &&& localMask = index &&& localMask
      · simp only [hc, if_pos]
        rw [setBucketPageId_pids_self, setBucketPageId_pids_self]
        exact ⟨hl, rfl⟩
      · simp [hc, hl, hp]
    have h1 := loopN_dir_slots dir.size _ dir hframe1 hval1
    have hframe2 : ∀ i (dd : Directory) j, j ≠ i →
        ((fun i dd => if i &&& sameMask = index &&& sameMask
            then dd.decrLocalDepth i else dd) i dd).localDepths j = dd.localDepths j ∧
        ((fun i dd => if i &&& sameMask = index &&& sameMask
            then dd.decrLocalDepth i else dd) i dd).bucketPageIds j = dd.bucketPageIds j := by
      intro i dd j hj
      by_cases hc : i &&& sameMask = index &&& sameMask
      · simp only [hc, if_pos]
        exact ⟨setLocalDepth_ld_ne dd i _ j hj, rfl⟩
      · simp [hc]
    have hval2 : ∀ i (dd : Directory),
        dd.localDepths i = dir1.localDepths i → dd.bucketPageIds i = dir1.bucketPageIds i →
        ((fun i dd => if i &&& sameMask = index &&& sameMask
            then dd.decrLocalDepth i else dd) i dd).localDepths i =
          ((fun i dd => if i &&& sameMask = index &&& sameMask
            then dd.decrLocalDepth i else dd) i dir1).localDepths i ∧
        ((fun i dd => if i &&& sameMask = index &&& sameMask
            then dd.decrLocalDepth i else dd) i dd).bucketPageIds i =
          ((fun i dd => if i &&& sameMask = index &&& sameMask
            then dd.decrLocalDepth i else dd) i dir1).bucketPageIds i := by
      intro i dd hl hp
      by_cases hc : i &&& sameMask = index &&& sameMask
      · simp only [hc, if_pos]
        unfold Directory.decrLocalDepth
        rw [setLocalDepth_ld_self, setLocalDepth_ld_self, hl]
        exact ⟨rfl, hp⟩
      · simp [hc, hl, hp]
    have h2 := loopN_dir_slots dir.size _ dir1 hframe2 hval2
    intro j
    rcases Nat.lt_or_ge j dir.size with hj | hj
    · have e2 := ((h2 j).1 hj).2
      have e1 := ((h1 j).1 hj).2
      rw [hdir2, e2]
      have hpids1 : (if j &&& sameMask = index &&& sameMask
          then dir1.decrLocalDepth j else dir1).bucketPageIds j = dir1.bucketPageIds j := by
        by_cases hc2 : j &&& sameMask = index &&& sameMask
        · rw [if_pos hc2]
          rfl
        · rw [if_neg hc2]
      rw [hpids1, hdir1, e1]
      by_cases hc1 : j &&& localMask = index &&& localMask
      · rw [if_pos hc1, setBucketPageId_pids_self, if_pos ⟨hj, hc1⟩]
      · rw [if_neg hc1, if_neg (fun hcon => hc1 hcon.2)]
    · have e2 := ((h2 j).2 hj).2
      have e1 := ((h1 j).2 hj).2
      rw [hdir2]
      rw [e2, hdir1, e1]
      have hns : ¬(j < dir.size) := by omega
      rw [if_neg (fun hcon => hns hcon.1)]
  · -- localDepths of dir2 (same loop facts, depth component)
    have hsm : sameMask = 2 ^ (dir.localDepths index - 1) - 1 := by
      rw [hsameMask, hlocalMask]
      unfold Directory.localDepthMask
      exact mask_xor_top (dir.localDepths index) hd
    have hframe1 : ∀ i (dd : Directory) j, j ≠ i →
        ((fun i dd => if i &&& localMask = index &&& localMask
            then dd.setBucketPageId i anotherPid else dd) i dd).localDepths j =
          dd.localDepths j ∧
        ((fun i dd => if i &&& localMask = index &&& localMask
            then dd.setBucketPageId i anotherPid else dd) i dd).bucketPageIds j =
          dd.bucketPageIds j := by
      intro i dd j hj
      by_cases hc : i &&& localMask = index &&& localMask
      · simp only [hc, if_pos]
        exact ⟨rfl, setBucketPageId_pids_ne dd i anotherPid j hj⟩
      · simp [hc]
    have hval1 : ∀ i (dd : Directory),
        dd.localDepths i = dir.localDepths i → dd.bucketPageIds i = dir.bucketPageIds i →
        ((fun i dd => if i &&& localMask = index &&& localMask
            then dd.setBucketPageId i anotherPid else dd) i dd).localDepths i =
          ((fun i dd => if i &&& localMask = index &&& localMask
            then dd.setBucketPageId i anotherPid else dd) i dir).localDepths i ∧
        ((fun i dd => if i &&& localMask = index &&& localMask
            then dd.setBucketPageId i anotherPid else dd) i dd).bucketPageIds i =
          ((fun i dd => if i &&& localMask = index &&& localMask
            then dd.setBucketPageId i anotherPid else dd) i dir).bucketPageIds i := by
      intro i dd hl hp
      by_cases hc : i &&& localMask = index &&& localMask
      · simp only [hc, if_pos]
        rw [setBucketPageId_pids_self, setBucketPageId_pids_self]
        exact ⟨hl, rfl⟩
      · simp [hc, hl, hp]
    have h1 := loopN_dir_slots dir.size _ dir hframe1 hval1
    have hframe2 : ∀ i (dd : Directory) j, j ≠ i →
        ((fun i dd => if i &&& sameMask = index &&& sameMask
            then dd.decrLocalDepth i else dd) i dd).localDepths j = dd.localDepths j ∧
        ((fun i dd => if i &&& sameMask = index &&& sameMask
            then dd.decrLocalDepth i else dd) i dd).bucketPageIds j = dd.bucketPageIds j := by
      intro i dd j hj
      by_cases hc : i &&& sameMask = index &&& sameMask
      · simp only [hc, if_pos]
        exact ⟨setLocalDepth_ld_ne dd i _ j hj, rfl⟩
      · simp [hc]
    have hval2 : ∀ i (dd : Directory),
        dd.localDepths i = dir1.localDepths i → dd.bucketPageIds i = dir1.bucketPageIds i →
        ((fun i dd => if i &&& sameMask = index &&& sameMask
            then dd.decrLocalDepth i else dd) i dd).localDepths i =
          ((fun i dd => if i &&& sameMask = index &&& sameMask
            then dd.decrLocalDepth i else dd) i dir1).localDepths i ∧
        ((fun i dd => if i &&& sameMask = index &&& sameMask
            then dd.decrLocalDepth i else dd) i dd).bucketPageIds i =
          ((fun i dd => if i &&& sameMask = index &&& sameMask
            then dd.decrLocalDepth i else dd) i dir1).bucketPageIds i := by
      intro i dd hl hp
      by_cases hc : i &&& sameMask = index &&& sameMask
      · simp only [hc, if_pos]
        unfold Directory.decrLocalDepth
        rw [setLocalDepth_ld_self, setLocalDepth_ld_self, hl]
        exact ⟨rfl, hp⟩
      · simp [hc, hl, hp]
    have h2 := loopN_dir_slots dir.size _ dir1 hframe2 hval2
    intro j
    rcases Nat.lt_or_ge j dir.size with hj | hj
    · have e2 := ((h2 j).1 hj).1
      have e1 := ((h1 j).1 hj).1
      rw [hdir2, e2]
      have hld1 : dir1.localDepths j = dir.localDepths j := by
        rw [hdir1, e1]
        by_cases hc1 : j &&& localMask = index &&& localMask
        · rw [if_pos hc1]
          rfl
        · rw [if_neg hc1]
      by_cases hc2 : j &&& sameMask = index &&& sameMask
      · rw [if_pos hc2]
        show (dir1.decrLocalDepth j).localDepths j = _
        unfold Directory.decrLocalDepth
        rw [setLocalDepth_ld_self, hld1]
        rw [hsm] at hc2
        rw [if_pos ⟨hj, hc2⟩]
      · rw [if_neg hc2, hld1]
        rw [hsm] at hc2
        rw [if_neg (fun hcon => hc2 hcon.2)]
    · have e2 := ((h2 j).2 hj).1
      have e1 := ((h1 j).2 hj).1
      rw [hdir2]
      rw [e2, hdir1, e1]
      have hns : ¬(j < dir.size) := by omega
      rw [if_neg (fun hcon => hns hcon.1)]

/-- A `Merge` that fails any guard returns the state unchanged. -/
theorem mergeOp_abort [DecidableEq K] [DecidableEq V] [Inhabited K] [Inhabited V]
    (hashFn : K → Nat) (sz : Nat) (t : TableState K V) (key : K)
    (h : t.dir.localDepths (keyToDirectoryIndex hashFn t key) = 0 ∨
      ¬ (fetchBucket sz t (keyToPageId hashFn t key)).isEmpty sz = true ∨
      t.dir.localDepths (t.dir.getSplitImageIndex (keyToDirectoryIndex hashFn t key)) ≠
        t.dir.localDepths (keyToDirectoryIndex hashFn t key)) :
    mergeOp hashFn sz t key = t := by
  simp only [mergeOp]
  rcases h with h | h | h
  · rw [if_neg]
    intro hcon
    exact absurd hcon.1 (by omega)
  · rw [if_neg]
    intro hcon
    exact h hcon.2
  · by_cases hg : 0 < t.dir.localDepths (keyToDirectoryIndex hashFn t key) ∧
        (fetchBucket sz t (keyToPageId hashFn t key)).isEmpty sz = true
    · rw [if_pos hg, if_neg h]
    · rw [if_neg hg]

/-- Claim C6: `Merge` leaves the directory unchanged when the routed bucket's
local depth is 0, the bucket is not empty, or the split image's local depth
differs; otherwise it redirects every slot sharing the bucket's local-mask
prefix to the sibling's bucket id, deletes the empty bucket page, decrements
the local depth of every slot sharing the merged prefix, and decrements the
global depth exactly when `CanShrink` holds afterwards. -/
theorem C6_merge_behavior [DecidableEq K] [DecidableEq V] [Inhabited K] [Inhabited V]
    (hashFn : K → Nat) (sz : Nat) (t : TableState K V) (key : K) (index d : Nat)
    (hidx : index = keyToDirectoryIndex hashFn t key)
    (hld : d = t.dir.localDepths index) :
    ((d = 0 ∨ ¬ (fetchBucket sz t (keyToPageId hashFn t key)).isEmpty sz = true ∨
        t.dir.localDepths (t.dir.getSplitImageIndex index) ≠ d) →
      (mergeOp hashFn sz t key).dir = t.dir) ∧
    (0 < d →
      (fetchBucket sz t (keyToPageId hashFn t key)).isEmpty sz = true →
      t.dir.localDepths (t.dir.getSplitImageIndex index) = d →
      (mergeOp hashFn sz t key).freed = t.freed ++ [keyToPageId hashFn t key] ∧
      ∃ dir2 : Directory,
        (mergeOp hashFn sz t key).dir =
          (if dir2.canShrink then dir2.decrGlobalDepth else dir2) ∧
        dir2.globalDepth = t.dir.globalDepth ∧
        (∀ j, dir2.bucketPageIds j =
          if j < t.dir.size ∧ j &&& (2 ^ d - 1) = index &&& (2 ^ d - 1) then
            t.dir.bucketPageIds (t.dir.getSplitImageIndex index)
          else t.dir.bucketPageIds j) ∧
        (∀ j, dir2.localDepths j =
          if j < t.dir.size ∧ j &&& (2 ^ (d - 1) - 1) = index &&& (2 ^ (d - 1) - 1) then
            t.dir.localDepths j - 1
          else t.dir.localDepths j)) := by
  subst hidx
  subst hld
  constructor
  · intro h
    rw [mergeOp_abort hashFn sz t key h]
  · intro h1 h2 h3
    rcases mergeOp_occur hashFn sz t key h1 h2 h3 with ⟨hfreed, _, dir2, hdir, hg, hpids, hlds⟩
    exact ⟨hfreed, dir2, hdir, hg, hpids, hlds⟩

/-- Witness for C6 on `tableC6w` (depth-1 directory, empty routed bucket):
the merge really occurs and produces the described directory. -/
theorem C6_merge_behavior_witness :
    (0 < tableC6w.dir.localDepths 1 ∧
      (fetchBucket 4 tableC6w (keyToPageId hashId tableC6w 1)).isEmpty 4 = true ∧
      tableC6w.dir.localDepths (tableC6w.dir.getSplitImageIndex 1) =
        tableC6w.dir.localDepths 1) ∧
    ((mergeOp hashId 4 tableC6w 1).freed = tableC6w.freed ++ [keyToPageId hashId tableC6w 1] ∧
      ∃ dir2 : Directory,
        (mergeOp hashId 4 tableC6w 1).dir =
          (if dir2.canShrink then dir2.decrGlobalDepth else dir2) ∧
        dir2.globalDepth = tableC6w.dir.globalDepth ∧
        (∀ j, dir2.bucketPageIds j =
          if j < tableC6w.dir.size ∧
              j &&& (2 ^ tableC6w.dir.localDepths 1 - 1) =
                1 &&& (2 ^ tableC6w.dir.localDepths 1 - 1) then
            tableC6w.dir.bucketPageIds (tableC6w.dir.getSplitImageIndex 1)
          else tableC6w.dir.bucketPageIds j) ∧
        (∀ j, dir2.localDepths j =
          if j < tableC6w.dir.size ∧
              j &&& (2 ^ (tableC6w.dir.localDepths 1 - 1) - 1) =
                1 &&& (2 ^ (tableC6w.dir.localDepths 1 - 1) - 1) then
            tableC6w.dir.localDepths j - 1
          else tableC6w.dir.localDepths j)) :=
  ⟨⟨by decide, by decide, by decide⟩,
    (C6_merge_behavior hashId 4 tableC6w 1 1 (tableC6w.dir.localDepths 1)
        (by decide) rfl).2 (by decide) (by decide) (by decide)⟩

/-! ## ExtraMerge characterization (claim C7) -/

/-- The directory effect of an `ExtraMerge` that passes its guards. -/
theorem extraMergeOp_occur [DecidableEq K] [DecidableEq V] [Inhabited K] [Inhabited V]
    (hashFn : K → Nat) (sz : Nat) (t : TableState K V) (key : K)
    (h0 : 0 < t.dir.localDepths (keyToDirectoryIndex hashFn t key))
    (heq : t.dir.localDepths
        (t.dir.getSplitImageIndex (keyToDirectoryIndex hashFn t key)) =
      t.dir.localDepths (keyToDirectoryIndex hashFn t key))
    (hemp : (fetchBucket sz t (t.dir.bucketPageIds
        (t.dir.getSplitImageIndex (keyToDirectoryIndex hashFn t key)))).isEmpty sz = true) :
    (extraMergeOp hashFn sz t key).2 = true ∧
    (extraMergeOp hashFn sz t key).1.freed =
      t.freed ++ [t.dir.bucketPageIds
        (t.dir.getSplitImageIndex (keyToDirectoryIndex hashFn t key))] ∧
    (extraMergeOp hashFn sz t key).1.buckets = t.buckets ∧
    ∃ dir1 : Directory,
      (extraMergeOp hashFn sz t key).1.dir =
        (if dir1.canShrink then dir1.decrGlobalDepth else dir1) ∧
      dir1.globalDepth = t.dir.globalDepth ∧
      (∀ j, dir1.bucketPageIds j =
        if j < t.dir.size ∧
            t.dir.bucketPageIds j = t.dir.bucketPageIds
              (t.dir.getSplitImageIndex (keyToDirectoryIndex hashFn t key)) then
          keyToPageId hashFn t key
        else t.dir.bucketPageIds j) ∧
      (∀ j, dir1.localDepths j =
        if j < t.dir.size ∧
            (t.dir.bucketPageIds j = t.dir.bucketPageIds
                (t.dir.getSplitImageIndex (keyToDirectoryIndex hashFn t key)) ∨
              t.dir.bucketPageIds j = keyToPageId hashFn t key) then
          t.dir.localDepths j - 1
        else t.dir.localDepths j) := by
  simp only [extraMergeOp]
  rw [if_pos h0, if_pos ⟨heq, hemp⟩]
  set dir := t.dir with hdir
  set index := keyToDirectoryIndex hashFn t key with hindex
  set pid := keyToPageId hashFn t key with hpid
  set extraIdx := dir.getSplitImageIndex index with hextraIdx
  set extraPid := dir.bucketPageIds extraIdx with hextraPid
  refine ⟨rfl, rfl, rfl, ?_⟩
  set dir1 := loopN dir.size (fun i dd =>
      if dd.bucketPageIds i = extraPid then (dd.setBucketPageId i pid).decrLocalDepth i
      else if dd.bucketPageIds i = pid then dd.decrLocalDepth i
      else dd) dir with hdir1
  have hframe : ∀ i (dd : Directory) j, j ≠ i →
      ((fun i (dd : Directory) =>
        if dd.bucketPageIds i = extraPid then (dd.setBucketPageId i pid).decrLocalDepth i
        else if dd.bucketPageIds i = pid then dd.decrLocalDepth i
        else dd) i dd).localDepths j = dd.localDepths j ∧
      ((fun i (dd : Directory) =>
        if dd.bucketPageIds i = extraPid then (dd.setBucketPageId i pid).decrLocalDepth i
        else if dd.bucketPageIds i = pid then dd.decrLocalDepth i
        else dd) i dd).bucketPageIds j = dd.bucketPageIds j := by
    intro i dd j hj
    dsimp only
    by_cases hc1 : dd.bucketPageIds i = extraPid
    · rw [if_pos hc1]
      constructor
      · show ((dd.setBucketPageId i pid).setLocalDepth i _).localDepths j = _
        rw [setLocalDepth_ld_ne _ i _ j hj]
        rfl
      · show ((dd.setBucketPageId i pid).setLocalDepth i _).bucketPageIds j = _
        rw [setLocalDepth_pids]
        exact setBucketPageId_pids_ne dd i pid j hj
    · rw [if_neg hc1]
      by_cases hc2 : dd.bucketPageIds i = pid
      · rw [if_pos hc2]
        exact ⟨setLocalDepth_ld_ne dd i _ j hj, rfl⟩
      · rw [if_neg hc2]
        exact ⟨rfl, rfl⟩
  have hval : ∀ i (dd : Directory),
      dd.localDepths i = dir.localDepths i → dd.bucketPageIds i = dir.bucketPageIds i →
      ((fun i (dd : Directory) =>
        if dd.bucketPageIds i = extraPid then (dd.setBucketPageId i pid).decrLocalDepth i
        else if dd.bucketPageIds i = pid then dd.decrLocalDepth i
        else dd) i dd).localDepths i =
        ((fun i (dd : Directory) =>
          if dd.bucketPageIds i = extraPid then (dd.setBucketPageId i pid).decrLocalDepth i
          else if dd.bucketPageIds i = pid then dd.decrLocalDepth i
          else dd) i dir).localDepths i ∧
      ((fun i (dd : Directory) =>
        if dd.bucketPageIds i = extraPid then (dd.setBucketPageId i pid).decrLocalDepth i
        else if dd.bucketPageIds i = pid then dd.decrLocalDepth i
        else dd) i dd).bucketPageIds i =
        ((fun i (dd : Directory) =>
          if dd.bucketPageIds i = extraPid then (dd.setBucketPageId i pid).decrLocalDepth i
          else if dd.bucketPageIds i = pid then dd.decrLocalDepth i
          else dd) i dir).bucketPageIds i := by
    intro i dd hl hp
    dsimp only
    rw [hp]
    by_cases hc1 : dir.bucketPageIds i = extraPid
    · rw [if_pos hc1, if_pos hc1]
      unfold Directory.decrLocalDepth
      constructor
      · show ((dd.setBucketPageId i pid).setLocalDepth i _).localDepths i = _
        rw [setLocalDepth_ld_self, setLocalDepth_ld_self]
        show dd.localDepths i - 1 = dir.localDepths i - 1
        rw [hl]
      · show ((dd.setBucketPageId i pid).setLocalDepth i _).bucketPageIds i = _
        rw [setLocalDepth_pids, setLocalDepth_pids, setBucketPageId_pids_self,
          setBucketPageId_pids_self]
    · rw [if_neg hc1, if_neg hc1]
      by_cases hc2 : dir.bucketPageIds i = pid
      · rw [if_pos hc2, if_pos hc2]
        unfold Directory.decrLocalDepth
        constructor
        · show (dd.setLocalDepth i _).localDepths i = (dir.setLocalDepth i _).localDepths i
          rw [setLocalDepth_ld_self, setLocalDepth_ld_self, hl]
        · show (dd.setLocalDepth i _).bucketPageIds i = _
          rw [setLocalDepth_pids, setLocalDepth_pids, hp]
      · rw [if_neg hc2, if_neg hc2]
        exact ⟨hl, hp⟩
  have hch := loopN_dir_slots dir.size _ dir hframe hval
  have hgl : dir1.globalDepth = dir.globalDepth := by
    rw [hdir1, loopN_dir_globalDepth]
    intro i dd
    dsimp only
    by_cases hc1 : dd.bucketPageIds i = extraPid
    · rw [if_pos hc1]
      rfl
    · rw [if_neg hc1]
      by_cases hc2 : dd.bucketPageIds i = pid
      · rw [if_pos hc2]
        rfl
      · rw [if_neg hc2]
  refine ⟨dir1, rfl, hgl, ?_, ?_⟩
  · intro j
    rcases Nat.lt_or_ge j dir.size with hj | hj
    · have e1 := ((hch j).1 hj).2
      rw [hdir1, e1]
      by_cases hc1 : dir.bucketPageIds j = extraPid
      · rw [if_pos hc1]
        show ((dir.setBucketPageId j pid).setLocalDepth j _).bucketPageIds j = _
        rw [setLocalDepth_pids, setBucketPageId_pids_self, if_pos ⟨hj, hc1⟩]
      · rw [if_neg hc1]
        by_cases hc2 : dir.bucketPageIds j = pid
        · rw [if_pos hc2]
          show dir.bucketPageIds j = _
          rw [if_neg (fun hcon => hc1 hcon.2)]
        · rw [if_neg hc2, if_neg (fun hcon => hc1 hcon.2)]
    · have e1 := ((hch j).2 hj).2
      rw [hdir1, e1, if_neg (fun hcon => absurd hcon.1 (by omega))]
  · intro j
    rcases Nat.lt_or_ge j dir.size with hj | hj
    · have e1 := ((hch j).1 hj).1
      rw [hdir1, e1]
      by_cases hc1 : dir.bucketPageIds j = extraPid
      · rw [if_pos hc1]
        show ((dir.setBucketPageId j pid).setLocalDepth j _).localDepths j = _
        rw [setLocalDepth_ld_self]
        show dir.localDepths j - 1 = _
        rw [if_pos ⟨hj, Or.inl hc1⟩]
      · rw [if_neg hc1]
        by_cases hc2 : dir.bucketPageIds j = pid
        · rw [if_pos hc2]
          show (dir.setLocalDepth j _).localDepths j = _
          rw [setLocalDepth_ld_self, if_pos ⟨hj, Or.inr hc2⟩]
        · rw [if_neg hc2, if_neg (fun hcon => hcon.2.elim hc1 hc2)]
    · have e1 := ((hch j).2 hj).1
      rw [hdir1, e1, if_neg (fun hcon => absurd hcon.1 (by omega))]

/-- An `ExtraMerge` that fails a guard reports false and leaves the state
unchanged. -/
theorem extraMergeOp_abort [DecidableEq K] [DecidableEq V] [Inhabited K] [Inhabited V]
    (hashFn : K → Nat) (sz : Nat) (t : TableState K V) (key : K)
    (h : ¬ (0 < t.dir.localDepths (keyToDirectoryIndex hashFn t key) ∧
      t.dir.localDepths (t.dir.getSplitImageIndex (keyToDirectoryIndex hashFn t key)) =
        t.dir.localDepths (keyToDirectoryIndex hashFn t key) ∧
      (fetchBucket sz t (t.dir.bucketPageIds
        (t.dir.getSplitImageIndex (keyToDirectoryIndex hashFn t key)))).isEmpty sz = true)) :
    extraMergeOp hashFn sz t key = (t, false) := by
  simp only [extraMergeOp]
  by_cases h0 : 0 < t.dir.localDepths (keyToDirectoryIndex hashFn t key)
  · rw [if_pos h0, if_neg]
    intro hcon
    exact h ⟨h0, hcon.1, hcon.2⟩
  · rw [if_neg h0]

/-- Claim C7: `ExtraMerge` returns true exactly when a reverse merge occurs —
the routed bucket has positive local depth and its split image is an empty
bucket of equal local depth; in that case it redirects every slot pointing at
the empty sibling to the current bucket, decrements the local depths of both
parties' slots, deletes the empty page, and decrements the global depth
exactly when `CanShrink` holds afterwards; otherwise the state is unchanged. -/
theorem C7_extraMerge_behavior [DecidableEq K] [DecidableEq V] [Inhabited K] [Inhabited V]
    (hashFn : K → Nat) (sz : Nat) (t : TableState K V) (key : K) (index d : Nat)
    (hidx : index = keyToDirectoryIndex hashFn t key)
    (hld : d = t.dir.localDepths index) :
    ((extraMergeOp hashFn sz t key).2 = true ↔
      (0 < d ∧ t.dir.localDepths (t.dir.getSplitImageIndex index) = d ∧
        (fetchBucket sz t
          (t.dir.bucketPageIds (t.dir.getSplitImageIndex index))).isEmpty sz = true)) ∧
    (¬ (0 < d ∧ t.dir.localDepths (t.dir.getSplitImageIndex index) = d ∧
        (fetchBucket sz t
          (t.dir.bucketPageIds (t.dir.getSplitImageIndex index))).isEmpty sz = true) →
      (extraMergeOp hashFn sz t key).1 = t) ∧
    (0 < d →
      t.dir.localDepths (t.dir.getSplitImageIndex index) = d →
      (fetchBucket sz t
        (t.dir.bucketPageIds (t.dir.getSplitImageIndex index))).isEmpty sz = true →
      (extraMergeOp hashFn sz t key).1.freed =
        t.freed ++ [t.dir.bucketPageIds (t.dir.getSplitImageIndex index)] ∧
      (extraMergeOp hashFn sz t key).1.buckets = t.buckets ∧
      ∃ dir1 : Directory,
        (extraMergeOp hashFn sz t key).1.dir =
          (if dir1.canShrink then dir1.decrGlobalDepth else dir1) ∧
        dir1.globalDepth = t.dir.globalDepth ∧
        (∀ j, dir1.bucketPageIds j =
          if j < t.dir.size ∧
              t.dir.bucketPageIds j =
                t.dir.bucketPageIds (t.dir.getSplitImageIndex index) then
            keyToPageId hashFn t key
          else t.dir.bucketPageIds j) ∧
        (∀ j, dir1.localDepths j =
          if j < t.dir.size ∧
              (t.dir.bucketPageIds j =
                  t.dir.bucketPageIds (t.dir.getSplitImageIndex index) ∨
                t.dir.bucketPageIds j = keyToPageId hashFn t key) then
            t.dir.localDepths j - 1
          else t.dir.localDepths j)) := by
  subst hidx
  subst hld
  refine ⟨?_, ?_, ?_⟩
  · constructor
    · intro htrue
      by_contra hcon
      have := extraMergeOp_abort hashFn sz t key hcon
      rw [this] at htrue
      exact Bool.false_ne_true htrue
    · rintro ⟨h0, heq, hemp⟩
      exact (extraMergeOp_occur hashFn sz t key h0 heq hemp).1
  · intro hcon
    rw [extraMergeOp_abort hashFn sz t key hcon]
  · intro h0 heq hemp
    exact (extraMergeOp_occur hashFn sz t key h0 heq hemp).2

/-- Witness for C7 on `tableC6w` routed by key 0 (whose split image, slot 1's
bucket, is empty at equal depth 1): the reverse merge occurs. -/
theorem C7_extraMerge_behavior_witness :
    (0 < tableC6w.dir.localDepths 0 ∧
      tableC6w.dir.localDepths (tableC6w.dir.getSplitImageIndex 0) =
        tableC6w.dir.localDepths 0 ∧
      (fetchBucket 4 tableC6w (tableC6w.dir.bucketPageIds
        (tableC6w.dir.getSplitImageIndex 0))).isEmpty 4 = true) ∧
    ((extraMergeOp hashId 4 tableC6w 0).2 = true ↔
      (0 < tableC6w.dir.localDepths 0 ∧
        tableC6w.dir.localDepths (tableC6w.dir.getSplitImageIndex 0) =
          tableC6w.dir.localDepths 0 ∧
        (fetchBucket 4 tableC6w (tableC6w.dir.bucketPageIds
          (tableC6w.dir.getSplitImageIndex 0))).isEmpty 4 = true)) :=
  ⟨⟨by decide, by decide, by decide⟩,
    (C7_extraMerge_behavior hashId 4 tableC6w 0 0 (tableC6w.dir.localDepths 0)
      (by decide) rfl).1⟩

/-! ## Counterexample runs for C1, C4, C5 (single-slot buckets: the
instantiation-dependent capacity `BUCKET_ARRAY_SIZE` is 1) -/

/-- Claim C4 fails on the code: inserting (0, 0) twice into a fresh
single-slot table returns false the second time, but the second insert does
not leave the index unchanged — the bucket holding (0, 0) is full, so
`Insert` falls into `SplitInsert` (the duplicate-rejection `false` together
with a full bucket triggers a split), and the global depth grows from 0
to 1. -/
theorem C4_counterexample :
    (insertOp hashId 1 (insertOp hashId 1 (initTable Nat Nat 1) 0 0).1 0 0).2 = false ∧
      (insertOp hashId 1 (initTable Nat Nat 1) 0 0).1.dir.globalDepth = 0 ∧
      (insertOp hashId 1 (insertOp hashId 1 (initTable Nat Nat 1) 0 0).1 0 0).1.dir.globalDepth
        = 1 := by
  refine ⟨by decide, by decide, by decide⟩

/-- Claim C5 fails on the code: with a full single-slot bucket holding (0, 0),
inserting the absent pair (2, 0) (key 2 collides with key 0 on every low bit
that one split can expose, since 2 ≡ 0 mod 2) returns false: `SplitInsert`
splits exactly once and retries once; it does not split repeatedly. -/
theorem C5_counterexample :
    (insertOp hashId 1 (initTable Nat Nat 1) 0 0).2 = true ∧
      (getValueOp hashId 1 (insertOp hashId 1 (initTable Nat Nat 1) 0 0).1 2).2 = false ∧
      (insertOp hashId 1 (insertOp hashId 1 (initTable Nat Nat 1) 0 0).1 2 0).2 = false := by
  refine ⟨by decide, by decide, by decide⟩

/-- Claim C1 fails on the code as stated: `Insert(2, 0)` is executed (it
returns false, the bucket being full of colliding keys even after one split),
no `Remove(2, 0)` follows, and `GetValue(2)` then returns the empty list and
false. -/
theorem C1_counterexample :
    (getValueOp hashId 1
        (insertOp hashId 1 (insertOp hashId 1 (initTable Nat Nat 1) 0 0).1 2 0).1 2).1 = [] ∧
      (getValueOp hashId 1
        (insertOp hashId 1 (insertOp hashId 1 (initTable Nat Nat 1) 0 0).1 2 0).1 2).2 =
        false := by
  refine ⟨by decide, by decide⟩

/-! ## Low-bit arithmetic helpers -/

theorem and_mask_mod (x n : Nat) : x &&& (2 ^ n - 1) = x % 2 ^ n := by
  apply Nat.eq_of_testBit_eq
  intro i
  rw [Nat.testBit_land, Nat.testBit_two_pow_sub_one, Nat.testBit_mod_two_pow, Bool.and_comm]

theorem lowEq_iff_testBit (n a b : Nat) :
    a % 2 ^ n = b % 2 ^ n ↔ ∀ i < n, a.testBit i = b.testBit i := by
  constructor
  · intro h i hi
    have := congrArg (fun x => x.testBit i) h
    simpa [Nat.testBit_mod_two_pow, hi] using this
  · intro h
    apply Nat.eq_of_testBit_eq
    intro i
    rw [Nat.testBit_mod_two_pow, Nat.testBit_mod_two_pow]
    by_cases hi : i < n
    · simp [hi, h i hi]
    · simp [hi]

theorem lowEq_mono {m n : Nat} (a b : Nat) (hmn : m ≤ n) (h : a % 2 ^ n = b % 2 ^ n) :
    a % 2 ^ m = b % 2 ^ m := by
  rw [lowEq_iff_testBit] at h ⊢
  exact fun i hi => h i (by omega)

theorem lowEq_succ_iff (d a b : Nat) :
    a % 2 ^ (d + 1) = b % 2 ^ (d + 1) ↔
      a % 2 ^ d = b % 2 ^ d ∧ a.testBit d = b.testBit d := by
  rw [lowEq_iff_testBit, lowEq_iff_testBit]
  constructor
  · intro h
    exact ⟨fun i hi => h i (by omega), h d (by omega)⟩
  · rintro ⟨h1, h2⟩ i hi
    rcases Nat.lt_or_ge i d with h' | h'
    · exact h1 i h'
    · have hi' : i = d := by omega
      rw [hi']
      exact h2

theorem xor_pow_testBit (a k i : Nat) :
    (a ^^^ 2 ^ k).testBit i = if i = k then !a.testBit i else a.testBit i := by
  rw [Nat.testBit_xor, Nat.testBit_two_pow]
  by_cases h : i = k
  · subst h
    simp
  · have h' : ¬(k = i) := fun hh => h hh.symm
    simp [h, h']

theorem testBit_lt_two_pow_iff (a n : Nat) :
    a < 2 ^ n ↔ ∀ i, n ≤ i → a.testBit i = false := by
  constructor
  · intro h i hi
    exact Nat.testBit_lt_two_pow (lt_of_lt_of_le h (Nat.pow_le_pow_right (by norm_num) hi))
  · intro h
    by_contra hcon
    have h1 : a % 2 ^ n = a := by
      apply Nat.eq_of_testBit_eq
      intro i
      rw [Nat.testBit_mod_two_pow]
      by_cases hi : i < n
      · simp [hi]
      · simp [hi, h i (by omega)]
    have := Nat.mod_lt a (Nat.two_pow_pos n)
    omega

theorem set_getD_self {α : Type} (l : List α) (n : Nat) (dflt : α) (h : n < l.length) :
    l.set n (l.getD n dflt) = l := by
  induction l generalizing n with
  | nil => simp at h
  | cons x xs ih =>
    cases n with
    | zero => rfl
    | succ m =>
      show x :: xs.set m (xs.getD m dflt) = x :: xs
      rw [ih m (by simpa using h)]

/-! ## SplitInsert directory characterization -/

theorem newMask_eq (d : Nat) : (2 ^ d - 1) + ((2 ^ d - 1) + 1) = 2 ^ (d + 1) - 1 := by
  have h := Nat.pow_succ 2 d
  have h2 := Nat.two_pow_pos d
  omega

/-- The directory effect of a `SplitInsert` on a still-full bucket when the
local depth is below the global depth: no doubling; slots still agreeing with
the old bucket under the extended mask keep its page and gain one depth; the
other half of the old bucket's slots are redirected to the new page (id =
next allocation) and gain one depth. -/
theorem splitInsert_spec_noGrow [DecidableEq K] [DecidableEq V] [Inhabited K] [Inhabited V]
    (hashFn : K → Nat) (sz : Nat) (t : TableState K V) (key : K) (value : V)
    (hfull : (fetchBucket sz t (keyToPageId hashFn t key)).isFull sz = true)
    (hdD : t.dir.localDepths (keyToDirectoryIndex hashFn t key) < t.dir.globalDepth) :
    (splitInsert hashFn sz t key value).1.freed = t.freed ∧
    (splitInsert hashFn sz t key value).1.buckets.length = t.buckets.length + 1 ∧
    (splitInsert hashFn sz t key value).1.dir.globalDepth = t.dir.globalDepth ∧
    (∀ j, (splitInsert hashFn sz t key value).1.dir.bucketPageIds j =
      if j < t.dir.size ∧ t.dir.bucketPageIds j = keyToPageId hashFn t key ∧
          ¬(j % 2 ^ (t.dir.localDepths (keyToDirectoryIndex hashFn t key) + 1) =
            keyToDirectoryIndex hashFn t key %
              2 ^ (t.dir.localDepths (keyToDirectoryIndex hashFn t key) + 1)) then
        t.buckets.length
      else t.dir.bucketPageIds j) ∧
    (∀ j, (splitInsert hashFn sz t key value).1.dir.localDepths j =
      if j < t.dir.size ∧
          (j % 2 ^ (t.dir.localDepths (keyToDirectoryIndex hashFn t key) + 1) =
            keyToDirectoryIndex hashFn t key %
              2 ^ (t.dir.localDepths (keyToDirectoryIndex hashFn t key) + 1) ∨
          (t.dir.bucketPageIds j = keyToPageId hashFn t key ∧
            ¬(j % 2 ^ (t.dir.localDepths (keyToDirectoryIndex hashFn t key) + 1) =
              keyToDirectoryIndex hashFn t key %
                2 ^ (t.dir.localDepths (keyToDirectoryIndex hashFn t key) + 1)))) then
        t.dir.localDepths j + 1
      else t.dir.localDepths j) := by
  simp only [splitInsert]
  rw [if_neg (not_not_intro hfull)]
  set dir := t.dir with hdir
  set I := keyToDirectoryIndex hashFn t key with hI
  set oldPid := keyToPageId hashFn t key with holdPid
  set newPid := t.buckets.length with hnewPid
  set d := dir.localDepths I with hd
  set newMask := dir.localDepthMask I + (dir.localDepthMask I + 1) with hnewMask
  set newHash := I &&& newMask with hnewHash
  have hmaskEq : newMask = 2 ^ (d + 1) - 1 := by
    rw [hnewMask]
    unfold Directory.localDepthMask
    rw [← hd]
    exact newMask_eq d
  have hcond : ∀ j : Nat, (j &&& newMask = newHash) ↔
      (j % 2 ^ (d + 1) = I % 2 ^ (d + 1)) := by
    intro j
    rw [hnewHash, hmaskEq, and_mask_mod, and_mask_mod]
  set dir1 := loopN dir.size (fun i dd =>
      if i &&& newMask = newHash then dd.incrLocalDepth i else dd) dir with hdir1
  have hgd1 : dir1.globalDepth = dir.globalDepth := by
    rw [hdir1, loopN_dir_globalDepth]
    intro i dd
    dsimp only
    by_cases hc : i &&& newMask = newHash
    · rw [if_pos hc]
      rfl
    · rw [if_neg hc]
  rw [hgd1, if_pos hdD]
  set dir2 := loopN dir.size (fun i dd =>
      if dd.bucketPageIds i = oldPid ∧ i &&& newMask ≠ newHash then
        (dd.setBucketPageId i newPid).incrLocalDepth i
      else dd) dir1 with hdir2
  have hgd2 : dir2.globalDepth = dir.globalDepth := by
    rw [hdir2, loopN_dir_globalDepth, hgd1]
    intro i dd
    dsimp only
    by_cases hc : dd.bucketPageIds i = oldPid ∧ i &&& newMask ≠ newHash
    · rw [if_pos hc]
      rfl
    · rw [if_neg hc]
  refine ⟨rfl, by simp, hgd2, ?_, ?_⟩
  all_goals
    have hframe1 : ∀ i (dd : Directory) j, j ≠ i →
        ((fun i (dd : Directory) =>
          if i &&& newMask = newHash then dd.incrLocalDepth i else dd) i dd).localDepths j =
          dd.localDepths j ∧
        ((fun i (dd : Directory) =>
          if i &&& newMask = newHash then dd.incrLocalDepth i else dd) i dd).bucketPageIds j =
          dd.bucketPageIds j := by
      intro i dd j hj
      dsimp only
      by_cases hc : i &&& newMask = newHash
      · rw [if_pos hc]
        exact ⟨setLocalDepth_ld_ne dd i _ j hj, rfl⟩
      · rw [if_neg hc]
        exact ⟨rfl, rfl⟩
    have hval1 : ∀ i (dd : Directory),
        dd.localDepths i = dir.localDepths i → dd.bucketPageIds i = dir.bucketPageIds i →
        ((fun i (dd : Directory) =>
          if i &&& newMask = newHash then dd.incrLocalDepth i else dd) i dd).localDepths i =
          ((fun i (dd : Directory) =>
            if i &&& newMask = newHash then dd.incrLocalDepth i else dd) i dir).localDepths i ∧
        ((fun i (dd : Directory) =>
          if i &&& newMask = newHash then dd.incrLocalDepth i else dd) i dd).bucketPageIds i =
          ((fun i (dd : Directory) =>
            if i &&& newMask = newHash then dd.incrLocalDepth i else dd) i dir).bucketPageIds i := by
      intro i dd hl hp
      dsimp only
      by_cases hc : i &&& newMask = newHash
      · rw [if_pos hc, if_pos hc]
        unfold Directory.incrLocalDepth
        constructor
        · rw [setLocalDepth_ld_self, setLocalDepth_ld_self, hl]
        · rw [setLocalDepth_pids, setLocalDepth_pids, hp]
      · rw [if_neg hc, if_neg hc]
        exact ⟨hl, hp⟩
    have hch1 := loopN_dir_slots dir.size _ dir hframe1 hval1
    have hframe2 : ∀ i (dd : Directory) j, j ≠ i →
        ((fun i (dd : Directory) =>
          if dd.bucketPageIds i = oldPid ∧ i &&& newMask ≠ newHash then
            (dd.setBucketPageId i newPid).incrLocalDepth i
          else dd) i dd).localDepths j = dd.localDepths j ∧
        ((fun i (dd : Directory) =>
          if dd.bucketPageIds i = oldPid ∧ i &&& newMask ≠ newHash then
            (dd.setBucketPageId i newPid).incrLocalDepth i
          else dd) i dd).bucketPageIds j = dd.bucketPageIds j := by
      intro i dd j hj
      dsimp only
      by_cases hc : dd.bucketPageIds i = oldPid ∧ i &&& newMask ≠ newHash
      · rw [if_pos hc]
        constructor
        · show ((dd.setBucketPageId i newPid).setLocalDepth i _).localDepths j = _
          rw [setLocalDepth_ld_ne _ i _ j hj]
          rfl
        · show ((dd.setBucketPageId i newPid).setLocalDepth i _).bucketPageIds j = _
          rw [setLocalDepth_pids]
          exact setBucketPageId_pids_ne dd i newPid j hj
      · rw [if_neg hc]
        exact ⟨rfl, rfl⟩
    have hval2 : ∀ i (dd : Directory),
        dd.localDepths i = dir1.localDepths i → dd.bucketPageIds i = dir1.bucketPageIds i →
        ((fun i (dd : Directory) =>
          if dd.bucketPageIds i = oldPid ∧ i &&& newMask ≠ newHash then
            (dd.setBucketPageId i newPid).incrLocalDepth i
          else dd) i dd).localDepths i =
          ((fun i (dd : Directory) =>
            if dd.bucketPageIds i = oldPid ∧ i &&& newMask ≠ newHash then
              (dd.setBucketPageId i newPid).incrLocalDepth i
            else dd) i dir1).localDepths i ∧
        ((fun i (dd : Directory) =>
          if dd.bucketPageIds i = oldPid ∧ i &&& newMask ≠ newHash then
            (dd.setBucketPageId i newPid).incrLocalDepth i
          else dd) i dd).bucketPageIds i =
          ((fun i (dd : Directory) =>
            if dd.bucketPageIds i = oldPid ∧ i &&& newMask ≠ newHash then
              (dd.setBucketPageId i newPid).incrLocalDepth i
            else dd) i dir1).bucketPageIds i := by
      intro i dd hl hp
      dsimp only
      rw [hp]
      by_cases hc : dir1.bucketPageIds i = oldPid ∧ i &&& newMask ≠ newHash
      · rw [if_pos hc, if_pos hc]
        unfold Directory.incrLocalDepth
        constructor
        · rw [setLocalDepth_ld_self, setLocalDepth_ld_self]
          show (dd.setBucketPageId i newPid).localDepths i + 1 = _
          show dd.localDepths i + 1 = (dir1.setBucketPageId i newPid).localDepths i + 1
          rw [hl]
          rfl
        · rw [setLocalDepth_pids, setLocalDepth_pids, setBucketPageId_pids_self,
            setBucketPageId_pids_self]
      · rw [if_neg hc, if_neg hc]
        exact ⟨hl, hp⟩
    have hch2 := loopN_dir_slots dir.size _ dir1 hframe2 hval2
  · -- bucketPageIds
    intro j
    rcases Nat.lt_or_ge j dir.size with hj | hj
    · have e2 := ((hch2 j).1 hj).2
      rw [hdir2, e2]
      have hpid1 : dir1.bucketPageIds j = dir.bucketPageIds j := by
        have e1 := ((hch1 j).1 hj).2
        rw [hdir1, e1]
        by_cases hc : j &&& newMask = newHash
        · rw [if_pos hc]
          rfl
        · rw [if_neg hc]
      by_cases hc : dir1.bucketPageIds j = oldPid ∧ j &&& newMask ≠ newHash
      · rw [if_pos hc]
        show ((dir1.setBucketPageId j newPid).setLocalDepth j _).bucketPageIds j = _
        rw [setLocalDepth_pids, setBucketPageId_pids_self]
        rw [hpid1] at hc
        rw [if_pos ⟨hj, hc.1, fun hcon => hc.2 ((hcond j).2 hcon)⟩]
      · rw [if_neg hc, hpid1]
        rw [hpid1] at hc
        rw [if_neg]
        rintro ⟨hj', hp', hcnd⟩
        exact hc ⟨hp', fun hcon => hcnd ((hcond j).1 hcon)⟩
    · have e2 := ((hch2 j).2 hj).2
      have e1 := ((hch1 j).2 hj).2
      rw [hdir2, e2, hdir1, e1, if_neg (fun hcon => absurd hcon.1 (by omega))]
  · -- localDepths
    intro j
    rcases Nat.lt_or_ge j dir.size with hj | hj
    · have e2 := ((hch2 j).1 hj).1
      rw [hdir2, e2]
      have e1 := ((hch1 j).1 hj).1
      have hpid1 : dir1.bucketPageIds j = dir.bucketPageIds j := by
        have e1' := ((hch1 j).1 hj).2
        rw [hdir1, e1']
        by_cases hc : j &&& newMask = newHash
        · rw [if_pos hc]
          rfl
        · rw [if_neg hc]
      by_cases hc : dir1.bucketPageIds j = oldPid ∧ j &&& newMask ≠ newHash
      · rw [if_pos hc]
        show ((dir1.setBucketPageId j newPid).setLocalDepth j _).localDepths j = _
        rw [setLocalDepth_ld_self]
        show (dir1.setBucketPageId j newPid).localDepths j + 1 = _
        show dir1.localDepths j + 1 = _
        have hld1 : dir1.localDepths j = dir.localDepths j := by
          rw [hdir1, e1]
          rw [if_neg (fun hcon => hc.2 hcon)]
        rw [hld1, hpid1] at *
        rw [if_pos ⟨hj, Or.inr ⟨hc.1, fun hcon => hc.2 ((hcond j).2 hcon)⟩⟩]
      · rw [if_neg hc]
        have hld1 : dir1.localDepths j =
            if j &&& newMask = newHash then dir.localDepths j + 1 else dir.localDepths j := by
          rw [hdir1, e1]
          by_cases hcc : j &&& newMask = newHash
          · rw [if_pos hcc, if_pos hcc]
            unfold Directory.incrLocalDepth
            rw [setLocalDepth_ld_self]
          · rw [if_neg hcc, if_neg hcc]
        rw [hld1]
        by_cases hcc : j &&& newMask = newHash
        · rw [if_pos hcc, if_pos ⟨hj, Or.inl ((hcond j).1 hcc)⟩]
        · rw [if_neg hcc, if_neg]
          rw [hpid1] at hc
          rintro ⟨hj', hor⟩
          rcases hor with hor | hor
          · exact hcc ((hcond j).2 hor)
          · exact hc ⟨hor.1, fun hcon => hor.2 ((hcond j).1 hcon)⟩
    · have e2 := ((hch2 j).2 hj).1
      have e1 := ((hch1 j).2 hj).1
      rw [hdir2, e2, hdir1, e1, if_neg (fun hcon => absurd hcon.1 (by omega))]

/-- The directory effect of a `SplitInsert` on a still-full bucket when the
local depth equals the global depth: the directory doubles; the lower half
keeps its pages (the routed slot gaining one depth via the extended-mask
loop), and each upper slot mirrors its lower twin — same depth, same page —
except that twins of the old bucket point at the new page. -/
theorem splitInsert_spec_grow [DecidableEq K] [DecidableEq V] [Inhabited K] [Inhabited V]
    (hashFn : K → Nat) (sz : Nat) (t : TableState K V) (key : K) (value : V)
    (hfull : (fetchBucket sz t (keyToPageId hashFn t key)).isFull sz = true)
    (hdD : ¬ (t.dir.localDepths (keyToDirectoryIndex hashFn t key) < t.dir.globalDepth)) :
    (splitInsert hashFn sz t key value).1.freed = t.freed ∧
    (splitInsert hashFn sz t key value).1.buckets.length = t.buckets.length + 1 ∧
    (splitInsert hashFn sz t key value).1.dir.globalDepth = t.dir.globalDepth + 1 ∧
    (∀ j, j < t.dir.size →
      (splitInsert hashFn sz t key value).1.dir.bucketPageIds j = t.dir.bucketPageIds j ∧
      (splitInsert hashFn sz t key value).1.dir.localDepths j =
        (if j % 2 ^ (t.dir.localDepths (keyToDirectoryIndex hashFn t key) + 1) =
            keyToDirectoryIndex hashFn t key %
              2 ^ (t.dir.localDepths (keyToDirectoryIndex hashFn t key) + 1) then
          t.dir.localDepths j + 1
        else t.dir.localDepths j)) ∧
    (∀ j, t.dir.size ≤ j → j < t.dir.size + t.dir.size →
      (splitInsert hashFn sz t key value).1.dir.bucketPageIds j =
        (if t.dir.bucketPageIds (j - t.dir.size) = keyToPageId hashFn t key then
          t.buckets.length
        else t.dir.bucketPageIds (j - t.dir.size)) ∧
      (splitInsert hashFn sz t key value).1.dir.localDepths j =
        (if (j - t.dir.size) % 2 ^ (t.dir.localDepths (keyToDirectoryIndex hashFn t key) + 1) =
            keyToDirectoryIndex hashFn t key %
              2 ^ (t.dir.localDepths (keyToDirectoryIndex hashFn t key) + 1) then
          t.dir.localDepths (j - t.dir.size) + 1
        else t.dir.localDepths (j - t.dir.size))) := by
  simp only [splitInsert]
  rw [if_neg (not_not_intro hfull)]
  set dir := t.dir with hdir
  set I := keyToDirectoryIndex hashFn t key with hI
  set oldPid := keyToPageId hashFn t key with holdPid
  set newPid := t.buckets.length with hnewPid
  set d := dir.localDepths I with hd
  set newMask := dir.localDepthMask I + (dir.localDepthMask I + 1) with hnewMask
  set newHash := I &&& newMask with hnewHash
  have hmaskEq : newMask = 2 ^ (d + 1) - 1 := by
    rw [hnewMask]
    unfold Directory.localDepthMask
    rw [← hd]
    exact newMask_eq d
  have hcond : ∀ j : Nat, (j &&& newMask = newHash) ↔
      (j % 2 ^ (d + 1) = I % 2 ^ (d + 1)) := by
    intro j
    rw [hnewHash, hmaskEq, and_mask_mod, and_mask_mod]
  set dir1 := loopN dir.size (fun i dd =>
      if i &&& newMask = newHash then dd.incrLocalDepth i else dd) dir with hdir1
  have hgd1 : dir1.globalDepth = dir.globalDepth := by
    rw [hdir1, loopN_dir_globalDepth]
    intro i dd
    dsimp only
    by_cases hc : i &&& newMask = newHash
    · rw [if_pos hc]
      rfl
    · rw [if_neg hc]
  rw [hgd1, if_neg hdD]
  have hframe1 : ∀ i (dd : Directory) j, j ≠ i →
      ((fun i (dd : Directory) =>
        if i &&& newMask = newHash then dd.incrLocalDepth i else dd) i dd).localDepths j =
        dd.localDepths j ∧
      ((fun i (dd : Directory) =>
        if i &&& newMask = newHash then dd.incrLocalDepth i else dd) i dd).bucketPageIds j =
        dd.bucketPageIds j := by
    intro i dd j hj
    dsimp only
    by_cases hc : i &&& newMask = newHash
    · rw [if_pos hc]
      exact ⟨setLocalDepth_ld_ne dd i _ j hj, rfl⟩
    · rw [if_neg hc]
      exact ⟨rfl, rfl⟩
  have hval1 : ∀ i (dd : Directory),
      dd.localDepths i = dir.localDepths i → dd.bucketPageIds i = dir.bucketPageIds i →
      ((fun i (dd : Directory) =>
        if i &&& newMask = newHash then dd.incrLocalDepth i else dd) i dd).localDepths i =
        ((fun i (dd : Directory) =>
          if i &&& newMask = newHash then dd.incrLocalDepth i else dd) i dir).localDepths i ∧
      ((fun i (dd : Directory) =>
        if i &&& newMask = newHash then dd.incrLocalDepth i else dd) i dd).bucketPageIds i =
        ((fun i (dd : Directory) =>
          if i &&& newMask = newHash then dd.incrLocalDepth i else dd) i dir).bucketPageIds i := by
    intro i dd hl hp
    dsimp only
    by_cases hc : i &&& newMask = newHash
    · rw [if_pos hc, if_pos hc]
      unfold Directory.incrLocalDepth
      constructor
      · rw [setLocalDepth_ld_self, setLocalDepth_ld_self, hl]
      · rw [setLocalDepth_pids, setLocalDepth_pids, hp]
    · rw [if_neg hc, if_neg hc]
      exact ⟨hl, hp⟩
  have hch1 := loopN_dir_slots dir.size _ dir hframe1 hval1
  have hld1 : ∀ j, j < dir.size → dir1.localDepths j =
      (if j % 2 ^ (d + 1) = I % 2 ^ (d + 1) then dir.localDepths j + 1
       else dir.localDepths j) := by
    intro j hj
    have e1 := ((hch1 j).1 hj).1
    rw [hdir1, e1]
    by_cases hc : j &&& newMask = newHash
    · rw [if_pos hc, if_pos ((hcond j).1 hc)]
      unfold Directory.incrLocalDepth
      rw [setLocalDepth_ld_self]
    · rw [if_neg hc, if_neg (fun hcon => hc ((hcond j).2 hcon))]
  have hpid1 : ∀ j, j < dir.size → dir1.bucketPageIds j = dir.bucketPageIds j := by
    intro j hj
    have e1 := ((hch1 j).1 hj).2
    rw [hdir1, e1]
    by_cases hc : j &&& newMask = newHash
    · rw [if_pos hc]
      rfl
    · rw [if_neg hc]
  have hld1u : ∀ j, dir.size ≤ j → dir1.localDepths j = dir.localDepths j :=
    fun j hj => ((hch1 j).2 hj).1
  have hpid1u : ∀ j, dir.size ≤ j → dir1.bucketPageIds j = dir.bucketPageIds j :=
    fun j hj => ((hch1 j).2 hj).2
  set base := dir1.incrGlobalDepth with hbase
  have hbld : ∀ j, base.localDepths j = dir1.localDepths j := fun _ => rfl
  have hbpid : ∀ j, base.bucketPageIds j = dir1.bucketPageIds j := fun _ => rfl
  set mbody := fun i (dd : Directory) =>
      (if dd.bucketPageIds (i - dir.size) = oldPid then dd.setBucketPageId i newPid
        else dd.setBucketPageId i (dd.bucketPageIds (i - dir.size))).setLocalDepth i
        (dd.localDepths (i - dir.size)) with hmbody
  have hframem : ∀ i (dd : Directory) j, j ≠ i →
      (mbody i dd).localDepths j = dd.localDepths j ∧
      (mbody i dd).bucketPageIds j = dd.bucketPageIds j := by
    intro i dd j hj
    rw [hmbody]
    dsimp only
    constructor
    · rw [setLocalDepth_ld_ne _ i _ j hj]
      by_cases hc : dd.bucketPageIds (i - dir.size) = oldPid
      · rw [if_pos hc]
        rfl
      · rw [if_neg hc]
        rfl
    · rw [setLocalDepth_pids]
      by_cases hc : dd.bucketPageIds (i - dir.size) = oldPid
      · rw [if_pos hc]
        exact setBucketPageId_pids_ne dd i newPid j hj
      · rw [if_neg hc]
        exact setBucketPageId_pids_ne dd i _ j hj
  have hvalm : ∀ i (dd : Directory), dir.size ≤ i → i < dir.size + dir.size →
      (∀ l, l < dir.size → dd.localDepths l = base.localDepths l ∧
        dd.bucketPageIds l = base.bucketPageIds l) →
      (mbody i dd).localDepths i = (mbody i base).localDepths i ∧
      (mbody i dd).bucketPageIds i = (mbody i base).bucketPageIds i := by
    intro i dd hlo hhi hlow
    have hsub : i - dir.size < dir.size := by omega
    have hl := (hlow (i - dir.size) hsub).1
    have hp := (hlow (i - dir.size) hsub).2
    rw [hmbody]
    dsimp only
    rw [hl, hp]
    constructor
    · rw [setLocalDepth_ld_self, setLocalDepth_ld_self]
    · rw [setLocalDepth_pids, setLocalDepth_pids]
      by_cases hc : base.bucketPageIds (i - dir.size) = oldPid
      · rw [if_pos hc, if_pos hc, setBucketPageId_pids_self, setBucketPageId_pids_self]
      · rw [if_neg hc, if_neg hc, setBucketPageId_pids_self, setBucketPageId_pids_self]
  have hchm := loopFrom_dir_slots dir.size dir.size mbody base hframem hvalm
  have hgdm : (loopFrom dir.size dir.size mbody base).globalDepth = dir.globalDepth + 1 := by
    rw [loopFrom_dir_globalDepth]
    · show dir1.globalDepth + 1 = dir.globalDepth + 1
      rw [hgd1]
    · intro i dd
      rw [hmbody]
      dsimp only
      by_cases hc : dd.bucketPageIds (i - dir.size) = oldPid
      · rw [if_pos hc]
        rfl
      · rw [if_neg hc]
        rfl
  refine ⟨rfl, by simp, hgdm, ?_, ?_⟩
  · intro j hj
    have hu := (hchm j).2 (Or.inl hj)
    constructor
    · rw [hu.2, hbpid, hpid1 j hj]
    · rw [hu.1, hbld, hld1 j hj]
  · intro j hlo hhi
    have hm := (hchm j).1 hlo (by omega)
    have hsub : j - dir.size < dir.size := by omega
    constructor
    · rw [hm.2, hmbody]
      dsimp only
      rw [hbpid, hpid1 _ hsub]
      by_cases hc : dir.bucketPageIds (j - dir.size) = oldPid
      · rw [if_pos hc, if_pos hc, setLocalDepth_pids, setBucketPageId_pids_self]
      · rw [if_neg hc, if_neg hc, setLocalDepth_pids, setBucketPageId_pids_self]
    · rw [hm.1, hmbody]
      dsimp only
      rw [setLocalDepth_ld_self, hbld, hld1 _ hsub]


/-! ## Invariant preservation -/

theorem keyToDirectoryIndex_lt (hashFn : K → Nat) (t : TableState K V) (key : K) :
    keyToDirectoryIndex hashFn t key < t.dir.size := by
  unfold keyToDirectoryIndex Directory.globalDepthMask Directory.size
  rw [and_mask_mod]
  exact Nat.mod_lt _ (Nat.two_pow_pos _)

theorem dirInv_sameClass {dir : Directory} (h : DirInv dir) {i j : Nat}
    (hi : i < dir.size) (hj : j < dir.size)
    (hm : j % 2 ^ dir.localDepths i = i % 2 ^ dir.localDepths i) :
    dir.localDepths j = dir.localDepths i ∧ dir.bucketPageIds j = dir.bucketPageIds i :=
  h.2.1 i j hi hj hm

theorem dirInv_pid_eq {dir : Directory} (h : DirInv dir) {i j : Nat}
    (hi : i < dir.size) (hj : j < dir.size)
    (hp : dir.bucketPageIds j = dir.bucketPageIds i) :
    j % 2 ^ dir.localDepths i = i % 2 ^ dir.localDepths i :=
  (h.2.2 i j hi hj hp.symm).symm

theorem k1_mod_eq {d I j m : Nat} (hj : j % 2 ^ d = I % 2 ^ d) (hm : m % 2 ^ d = I % 2 ^ d)
    (hj1 : ¬ j % 2 ^ (d + 1) = I % 2 ^ (d + 1))
    (hm1 : ¬ m % 2 ^ (d + 1) = I % 2 ^ (d + 1)) :
    j % 2 ^ (d + 1) = m % 2 ^ (d + 1) := by
  rw [lowEq_succ_iff] at hj1 hm1 ⊢
  refine ⟨hj.trans hm.symm, ?_⟩
  have h1 : j.testBit d ≠ I.testBit d := fun hc => hj1 ⟨hj, hc⟩
  have h2 : m.testBit d ≠ I.testBit d := fun hc => hm1 ⟨hm, hc⟩
  cases hI : I.testBit d <;> cases hJ : j.testBit d <;> cases hM : m.testBit d <;> simp_all

theorem add_pow_mod (m a b : Nat) (h : a ≤ b) : (m + 2 ^ b) % 2 ^ a = m % 2 ^ a := by
  obtain ⟨c, hc⟩ : (2 : Nat) ^ a ∣ 2 ^ b := pow_dvd_pow 2 h
  rw [hc, Nat.add_mul_mod_self_left]

theorem stateInvD_init (K V : Type) [Inhabited K] [Inhabited V] (sz : Nat) :
    StateInvD (initTable K V sz) := by
  refine ⟨⟨fun i hi => Nat.le_refl 0, fun i j hi hj hm => ⟨rfl, rfl⟩, fun i j hi hj hp => ?_⟩,
    fun i hi => Nat.one_pos⟩
  have hi' : i < 1 := hi
  have hj' : j < 1 := hj
  have h1 : i = 0 := by omega
  have h2 : j = 0 := by omega
  rw [h1, h2]

/-- Decrementing the global depth under `CanShrink` preserves the directory
invariants. -/
theorem shrink_dirInv (d2 : Directory) (h : DirInv d2) :
    DirInv (if d2.canShrink then d2.decrGlobalDepth else d2) := by
  by_cases hsh : d2.canShrink = true
  · rw [if_pos hsh]
    have hcs : ∀ i < d2.size, d2.localDepths i < d2.globalDepth :=
      of_decide_eq_true ((canShrink_eq_decide d2).symm.trans hsh)
    have hsz : d2.decrGlobalDepth.size ≤ d2.size :=
      Nat.pow_le_pow_right (by norm_num) (Nat.sub_le _ _)
    refine ⟨?_, ?_, ?_⟩
    · intro i hi
      show d2.localDepths i ≤ d2.globalDepth - 1
      have := hcs i (lt_of_lt_of_le hi hsz)
      omega
    · intro i j hi hj hm
      exact h.2.1 i j (lt_of_lt_of_le hi hsz) (lt_of_lt_of_le hj hsz) hm
    · intro i j hi hj hp
      exact h.2.2 i j (lt_of_lt_of_le hi hsz) (lt_of_lt_of_le hj hsz) hp
  · rw [if_neg hsh]
    exact h

/-- Bit facts about the split image `I ^^^ 2^(d-1)`: it is in range, differs
from `I` under the `d`-bit mask, agrees under the `(d-1)`-bit mask, and every
slot agreeing with `I` on the low `d-1` bits agrees with `I` or its image on
the low `d` bits. -/
theorem mergeClass_facts (dir : Directory) (I e : Nat) (hinv : DirInv dir)
    (hI : I < dir.size) (hd : dir.localDepths I = e + 1) :
    dir.getSplitImageIndex I < dir.size ∧
    ¬ dir.getSplitImageIndex I % 2 ^ (e + 1) = I % 2 ^ (e + 1) ∧
    dir.getSplitImageIndex I % 2 ^ e = I % 2 ^ e ∧
    ∀ j, j % 2 ^ e = I % 2 ^ e →
      j % 2 ^ (e + 1) = I % 2 ^ (e + 1) ∨
      j % 2 ^ (e + 1) = dir.getSplitImageIndex I % 2 ^ (e + 1) := by
  have hA : dir.getSplitImageIndex I = I ^^^ 2 ^ e := by
    unfold Directory.getSplitImageIndex
    rw [hd]
    simp only [Nat.add_sub_cancel]
    rw [Nat.shiftLeft_eq, one_mul]
  have hbits : ∀ i, (I ^^^ 2 ^ e).testBit i =
      if i = e then !I.testBit i else I.testBit i := fun i => xor_pow_testBit I e i
  refine ⟨?_, ?_, ?_, ?_⟩
  · rw [hA]
    show I ^^^ 2 ^ e < 2 ^ dir.globalDepth
    have hI' : I < 2 ^ dir.globalDepth := hI
    have hle : dir.localDepths I ≤ dir.globalDepth := hinv.1 I hI
    have h2 : (2 : Nat) ^ e < 2 ^ dir.globalDepth :=
      Nat.pow_lt_pow_right (by norm_num) (by omega)
    exact Nat.xor_lt_two_pow hI' h2
  · rw [hA, lowEq_iff_testBit]
    intro hcon
    have h := hcon e (by omega)
    rw [hbits e, if_pos rfl] at h
    exact Bool.not_ne_self _ h
  · rw [hA, lowEq_iff_testBit]
    intro i hi
    rw [hbits i, if_neg (by omega)]
  · intro j hm
    by_cases hbit : j.testBit e = I.testBit e
    · left
      rw [lowEq_succ_iff]
      exact ⟨hm, hbit⟩
    · right
      rw [hA, lowEq_succ_iff]
      constructor
      · rw [lowEq_iff_testBit] at hm ⊢
        intro i hi
        rw [hbits i, if_neg (by omega)]
        exact hm i hi
      · rw [hbits e, if_pos rfl]
        cases h1 : I.testBit e <;> cases h2 : j.testBit e <;> simp_all

/-- Class structure around a mergeable pair: all slots agreeing with `I`
(resp. its split image) on the low `e+1` bits share its depth and page id, the
two page ids differ, and a slot carrying one of the two page ids lies in the
corresponding class. -/
theorem mergeClass_slots (dir : Directory) (I e : Nat) (hinv : DirInv dir)
    (hI : I < dir.size) (hd : dir.localDepths I = e + 1)
    (heqd : dir.localDepths (dir.getSplitImageIndex I) = dir.localDepths I) :
    (∀ j, j < dir.size → j % 2 ^ (e + 1) = I % 2 ^ (e + 1) →
      dir.localDepths j = e + 1 ∧ dir.bucketPageIds j = dir.bucketPageIds I) ∧
    (∀ j, j < dir.size → j % 2 ^ (e + 1) = dir.getSplitImageIndex I % 2 ^ (e + 1) →
      dir.localDepths j = e + 1 ∧
      dir.bucketPageIds j = dir.bucketPageIds (dir.getSplitImageIndex I)) ∧
    dir.bucketPageIds (dir.getSplitImageIndex I) ≠ dir.bucketPageIds I ∧
    (∀ j, j < dir.size → dir.bucketPageIds j = dir.bucketPageIds (dir.getSplitImageIndex I) →
      j % 2 ^ e = I % 2 ^ e) ∧
    (∀ j, j < dir.size → dir.bucketPageIds j = dir.bucketPageIds I →
      j % 2 ^ (e + 1) = I % 2 ^ (e + 1)) := by
  obtain ⟨hAlt, hAd, hAlow, hsplit⟩ := mergeClass_facts dir I e hinv hI hd
  have hdA : dir.localDepths (dir.getSplitImageIndex I) = e + 1 := heqd.trans hd
  refine ⟨?_, ?_, ?_, ?_, ?_⟩
  · intro j hj hm
    have := dirInv_sameClass hinv hI hj (by rw [hd]; exact hm)
    rw [hd] at this
    exact this
  · intro j hj hm
    have := dirInv_sameClass hinv hAlt hj (by rw [hdA]; exact hm)
    rw [hdA] at this
    exact this
  · intro hc
    have := dirInv_pid_eq hinv hI hAlt hc
    rw [hd] at this
    exact hAd this
  · intro j hj hpj
    have := dirInv_pid_eq hinv hAlt hj hpj
    rw [hdA] at this
    exact (lowEq_mono j _ (Nat.le_succ e) this).trans hAlow
  · intro j hj hpj
    have := dirInv_pid_eq hinv hI hj hpj
    rw [hd] at this
    exact this

/-- Abstract preservation lemma for both merge directions: if a directory
update sends the whole low-`e` class of `I` to depth `e` and a single page id
`P`, leaves other slots untouched, `P` occurs only inside the class, and the
class previously sat at depth `e+1`, the invariants are preserved. -/
theorem merge_class_dirInv (dir dir2 : Directory) (I P e : Nat) (hinv : DirInv dir)
    (hI : I < dir.size) (hd : dir.localDepths I = e + 1)
    (hgd : dir2.globalDepth = dir.globalDepth)
    (hM : ∀ j, j < dir.size → j % 2 ^ e = I % 2 ^ e →
      dir2.localDepths j = e ∧ dir2.bucketPageIds j = P)
    (hNM : ∀ j, j < dir.size → ¬ j % 2 ^ e = I % 2 ^ e →
      dir2.localDepths j = dir.localDepths j ∧ dir2.bucketPageIds j = dir.bucketPageIds j)
    (hPM : ∀ j, j < dir.size → dir.bucketPageIds j = P → j % 2 ^ e = I % 2 ^ e)
    (hMld : ∀ j, j < dir.size → j % 2 ^ e = I % 2 ^ e → dir.localDepths j = e + 1) :
    DirInv dir2 := by
  have hsize : dir2.size = dir.size := by
    unfold Directory.size
    rw [hgd]
  refine ⟨?_, ?_, ?_⟩
  · intro i hi
    rw [hsize] at hi
    rw [hgd]
    have hle := hinv.1 i hi
    by_cases hc : i % 2 ^ e = I % 2 ^ e
    · have h1 := (hM i hi hc).1
      have h2 := hinv.1 I hI
      omega
    · rw [(hNM i hi hc).1]
      exact hle
  · intro i j hi hj hm
    rw [hsize] at hi hj
    by_cases hc : i % 2 ^ e = I % 2 ^ e
    · obtain ⟨hl, hp⟩ := hM i hi hc
      rw [hl] at hm
      have hcj : j % 2 ^ e = I % 2 ^ e := hm.trans hc
      obtain ⟨hl2, hp2⟩ := hM j hj hcj
      rw [hl, hl2, hp, hp2]
      exact ⟨rfl, rfl⟩
    · obtain ⟨hl, hp⟩ := hNM i hi hc
      rw [hl] at hm
      have hold := dirInv_sameClass hinv hi hj hm
      have hcj : ¬ j % 2 ^ e = I % 2 ^ e := by
        intro hcon
        have hldj := hMld j hj hcon
        have hldi : dir.localDepths i = e + 1 := by
          rw [← hold.1]
          exact hldj
        rw [hldi] at hm
        exact hc ((lowEq_mono j i (Nat.le_succ e) hm).symm.trans hcon)
      obtain ⟨hl2, hp2⟩ := hNM j hj hcj
      rw [hl, hl2, hp, hp2]
      exact hold
  · intro i j hi hj hp
    rw [hsize] at hi hj
    by_cases hci : i % 2 ^ e = I % 2 ^ e
    · obtain ⟨hl, hpi⟩ := hM i hi hci
      rw [hl]
      by_cases hcj : j % 2 ^ e = I % 2 ^ e
      · exact hci.trans hcj.symm
      · obtain ⟨hl2, hpj⟩ := hNM j hj hcj
        rw [hpi, hpj] at hp
        exact absurd (hPM j hj hp.symm) hcj
    · obtain ⟨hl, hpi⟩ := hNM i hi hci
      rw [hl]
      by_cases hcj : j % 2 ^ e = I % 2 ^ e
      · obtain ⟨hl2, hpj⟩ := hM j hj hcj
        rw [hpi, hpj] at hp
        exact absurd (hPM i hi hp) hci
      · obtain ⟨hl2, hpj⟩ := hNM j hj hcj
        rw [hpi, hpj] at hp
        exact hinv.2.2 i j hi hj hp

/-- `Merge` preserves the directory invariants and page-id freshness. -/
theorem mergeOp_StateInvD [DecidableEq K] [DecidableEq V] [Inhabited K] [Inhabited V]
    (hashFn : K → Nat) (sz : Nat) (t : TableState K V) (key : K)
    (hinv : StateInvD t) : StateInvD (mergeOp hashFn sz t key) := by
  by_cases hg : t.dir.localDepths (keyToDirectoryIndex hashFn t key) = 0 ∨
      ¬ (fetchBucket sz t (keyToPageId hashFn t key)).isEmpty sz = true ∨
      t.dir.localDepths (t.dir.getSplitImageIndex (keyToDirectoryIndex hashFn t key)) ≠
        t.dir.localDepths (keyToDirectoryIndex hashFn t key)
  · rw [mergeOp_abort hashFn sz t key hg]
    exact hinv
  · push_neg at hg
    obtain ⟨hd0, hemp, heqd⟩ := hg
    obtain ⟨hfreed, hbk, dir2, hdir, hgd, hpids, hlds⟩ :=
      mergeOp_occur hashFn sz t key (by omega) hemp heqd
    obtain ⟨e, he⟩ : ∃ e, t.dir.localDepths (keyToDirectoryIndex hashFn t key) = e + 1 :=
      ⟨t.dir.localDepths (keyToDirectoryIndex hashFn t key) - 1, by omega⟩
    simp only [Directory.localDepthMask, he, Nat.add_sub_cancel, and_mask_mod] at hpids hlds
    have hIlt : keyToDirectoryIndex hashFn t key < t.dir.size :=
      keyToDirectoryIndex_lt hashFn t key
    obtain ⟨hAlt, hAd, hAlow, hsplit⟩ :=
      mergeClass_facts t.dir (keyToDirectoryIndex hashFn t key) e hinv.1 hIlt he
    obtain ⟨hKI, hKA, hPANE, hPMA, hPMI⟩ :=
      mergeClass_slots t.dir (keyToDirectoryIndex hashFn t key) e hinv.1 hIlt he heqd
    set I := keyToDirectoryIndex hashFn t key with hIdef
    set A := t.dir.getSplitImageIndex I with hAdef
    have hM : ∀ j, j < t.dir.size → j % 2 ^ e = I % 2 ^ e →
        dir2.localDepths j = e ∧ dir2.bucketPageIds j = t.dir.bucketPageIds A := by
      intro j hj hm
      rcases hsplit j hm with hk | hk
      · constructor
        · rw [hlds j, if_pos ⟨hj, hm⟩, (hKI j hj hk).1]
          omega
        · rw [hpids j, if_pos ⟨hj, hk⟩]
      · constructor
        · rw [hlds j, if_pos ⟨hj, hm⟩, (hKA j hj hk).1]
          omega
        · rw [hpids j, if_neg (fun hcon => hAd (hk.symm.trans hcon.2))]
          exact (hKA j hj hk).2
    have hNM : ∀ j, j < t.dir.size → ¬ j % 2 ^ e = I % 2 ^ e →
        dir2.localDepths j = t.dir.localDepths j ∧
        dir2.bucketPageIds j = t.dir.bucketPageIds j := by
      intro j hj hm
      constructor
      · rw [hlds j, if_neg (fun hcon => hm hcon.2)]
      · rw [hpids j,
          if_neg (fun hcon => hm (lowEq_mono j I (Nat.le_succ e) hcon.2))]
    have hPM : ∀ j, j < t.dir.size → t.dir.bucketPageIds j = t.dir.bucketPageIds A →
        j % 2 ^ e = I % 2 ^ e := fun j hj hpj => hPMA j hj hpj
    have hMld : ∀ j, j < t.dir.size → j % 2 ^ e = I % 2 ^ e →
        t.dir.localDepths j = e + 1 := by
      intro j hj hm
      rcases hsplit j hm with hk | hk
      · exact (hKI j hj hk).1
      · exact (hKA j hj hk).1
    have hdirinv2 : DirInv dir2 :=
      merge_class_dirInv t.dir dir2 I (t.dir.bucketPageIds A) e hinv.1 hIlt he hgd hM hNM hPM hMld
    refine ⟨?_, ?_⟩
    · rw [hdir]
      exact shrink_dirInv dir2 hdirinv2
    · intro i hi
      rw [hbk]
      rw [hdir] at hi ⊢
      have hpid_eq : (if dir2.canShrink then dir2.decrGlobalDepth else dir2).bucketPageIds i =
          dir2.bucketPageIds i := by
        by_cases hsh : dir2.canShrink = true
        · rw [if_pos hsh]
          rfl
        · rw [if_neg hsh]
      have hsz : (if dir2.canShrink then dir2.decrGlobalDepth else dir2).size ≤ t.dir.size := by
        by_cases hsh : dir2.canShrink = true
        · rw [if_pos hsh]
          show 2 ^ (dir2.globalDepth - 1) ≤ t.dir.size
          unfold Directory.size
          rw [← hgd]
          exact Nat.pow_le_pow_right (by norm_num) (by omega)
        · rw [if_neg hsh]
          unfold Directory.size
          rw [hgd]
      have hi' : i < t.dir.size := lt_of_lt_of_le hi hsz
      rw [hpid_eq, hpids i]
      by_cases hc : i < t.dir.size ∧ i % 2 ^ (e + 1) = I % 2 ^ (e + 1)
      · rw [if_pos hc]
        exact hinv.2 A hAlt
      · rw [if_neg hc]
        exact hinv.2 i hi'

/-- `ExtraMerge` preserves the directory invariants and page-id freshness. -/
theorem extraMergeOp_StateInvD [DecidableEq K] [DecidableEq V] [Inhabited K] [Inhabited V]
    (hashFn : K → Nat) (sz : Nat) (t : TableState K V) (key : K)
    (hinv : StateInvD t) : StateInvD (extraMergeOp hashFn sz t key).1 := by
  by_cases hg : 0 < t.dir.localDepths (keyToDirectoryIndex hashFn t key) ∧
      t.dir.localDepths (t.dir.getSplitImageIndex (keyToDirectoryIndex hashFn t key)) =
        t.dir.localDepths (keyToDirectoryIndex hashFn t key) ∧
      (fetchBucket sz t (t.dir.bucketPageIds
        (t.dir.getSplitImageIndex (keyToDirectoryIndex hashFn t key)))).isEmpty sz = true
  · obtain ⟨hd0, heqd, hemp⟩ := hg
    obtain ⟨hret, hfreed, hbk, dir1, hdir, hgd, hpids, hlds⟩ :=
      extraMergeOp_occur hashFn sz t key hd0 heqd hemp
    obtain ⟨e, he⟩ : ∃ e, t.dir.localDepths (keyToDirectoryIndex hashFn t key) = e + 1 :=
      ⟨t.dir.localDepths (keyToDirectoryIndex hashFn t key) - 1, by omega⟩
    simp only [keyToPageId] at hpids hlds
    have hIlt : keyToDirectoryIndex hashFn t key < t.dir.size :=
      keyToDirectoryIndex_lt hashFn t key
    obtain ⟨hAlt, hAd, hAlow, hsplit⟩ :=
      mergeClass_facts t.dir (keyToDirectoryIndex hashFn t key) e hinv.1 hIlt he
    obtain ⟨hKI, hKA, hPANE, hPMA, hPMI⟩ :=
      mergeClass_slots t.dir (keyToDirectoryIndex hashFn t key) e hinv.1 hIlt he heqd
    set I := keyToDirectoryIndex hashFn t key with hIdef
    set A := t.dir.getSplitImageIndex I with hAdef
    have hM : ∀ j, j < t.dir.size → j % 2 ^ e = I % 2 ^ e →
        dir1.localDepths j = e ∧ dir1.bucketPageIds j = t.dir.bucketPageIds I := by
      intro j hj hm
      rcases hsplit j hm with hk | hk
      · obtain ⟨hlj, hpj⟩ := hKI j hj hk
        constructor
        · rw [hlds j, if_pos ⟨hj, Or.inr hpj⟩, hlj]
          omega
        · rw [hpids j, if_neg (fun hcon => hPANE (hcon.2.symm.trans hpj))]
          exact hpj
      · obtain ⟨hlj, hpj⟩ := hKA j hj hk
        constructor
        · rw [hlds j, if_pos ⟨hj, Or.inl hpj⟩, hlj]
          omega
        · rw [hpids j, if_pos ⟨hj, hpj⟩]
    have hNM : ∀ j, j < t.dir.size → ¬ j % 2 ^ e = I % 2 ^ e →
        dir1.localDepths j = t.dir.localDepths j ∧
        dir1.bucketPageIds j = t.dir.bucketPageIds j := by
      intro j hj hm
      constructor
      · rw [hlds j, if_neg]
        rintro ⟨-, hco | hco⟩
        · exact hm (hPMA j hj hco)
        · exact hm (lowEq_mono j I (Nat.le_succ e) (hPMI j hj hco))
      · rw [hpids j, if_neg (fun hcon => hm (hPMA j hj hcon.2))]
    have hPM : ∀ j, j < t.dir.size → t.dir.bucketPageIds j = t.dir.bucketPageIds I →
        j % 2 ^ e = I % 2 ^ e :=
      fun j hj hpj => lowEq_mono j I (Nat.le_succ e) (hPMI j hj hpj)
    have hMld : ∀ j, j < t.dir.size → j % 2 ^ e = I % 2 ^ e →
        t.dir.localDepths j = e + 1 := by
      intro j hj hm
      rcases hsplit j hm with hk | hk
      · exact (hKI j hj hk).1
      · exact (hKA j hj hk).1
    have hdirinv1 : DirInv dir1 :=
      merge_class_dirInv t.dir dir1 I (t.dir.bucketPageIds I) e hinv.1 hIlt he hgd hM hNM hPM hMld
    refine ⟨?_, ?_⟩
    · rw [hdir]
      exact shrink_dirInv dir1 hdirinv1
    · intro i hi
      rw [hbk]
      rw [hdir] at hi ⊢
      have hpid_eq : (if dir1.canShrink then dir1.decrGlobalDepth else dir1).bucketPageIds i =
          dir1.bucketPageIds i := by
        by_cases hsh : dir1.canShrink = true
        · rw [if_pos hsh]
          rfl
        · rw [if_neg hsh]
      have hsz : (if dir1.canShrink then dir1.decrGlobalDepth else dir1).size ≤ t.dir.size := by
        by_cases hsh : dir1.canShrink = true
        · rw [if_pos hsh]
          show 2 ^ (dir1.globalDepth - 1) ≤ t.dir.size
          unfold Directory.size
          rw [← hgd]
          exact Nat.pow_le_pow_right (by norm_num) (by omega)
        · rw [if_neg hsh]
          unfold Directory.size
          rw [hgd]
      have hi' : i < t.dir.size := lt_of_lt_of_le hi hsz
      rw [hpid_eq, hpids i]
      by_cases hc : i < t.dir.size ∧ t.dir.bucketPageIds i = t.dir.bucketPageIds A
      · rw [if_pos hc]
        exact hinv.2 I hIlt
      · rw [if_neg hc]
        exact hinv.2 i hi'
  · rw [extraMergeOp_abort hashFn sz t key hg]
    exact hinv

/-- The `ExtraMerge` loop preserves the directory invariants for any fuel. -/
theorem extraMergeLoop_StateInvD [DecidableEq K] [DecidableEq V] [Inhabited K] [Inhabited V]
    (hashFn : K → Nat) (sz : Nat) (key : K) :
    ∀ (fuel : Nat) (t : TableState K V), StateInvD t →
      StateInvD (extraMergeLoop hashFn sz fuel t key) := by
  intro fuel
  induction fuel with
  | zero => exact fun t hinv => hinv
  | succ n ih =>
    intro t hinv
    show StateInvD (if (extraMergeOp hashFn sz t key).2 = true then
        extraMergeLoop hashFn sz n (extraMergeOp hashFn sz t key).1 key
      else (extraMergeOp hashFn sz t key).1)
    by_cases h : (extraMergeOp hashFn sz t key).2 = true
    · rw [if_pos h]
      exact ih _ (extraMergeOp_StateInvD hashFn sz t key hinv)
    · rw [if_neg h]
      exact extraMergeOp_StateInvD hashFn sz t key hinv


/-- Directory invariants through a non-doubling `SplitInsert`: the old
bucket's class splits by bit `d`; the half away from `I` moves to the fresh
page id, both halves gain one depth. -/
theorem split_dirInv_noGrow (dir dirp : Directory) (I newPid : Nat) (hinv : DirInv dir)
    (hI : I < dir.size) (hdD : dir.localDepths I < dir.globalDepth)
    (hfresh : ∀ j, j < dir.size → dir.bucketPageIds j ≠ newPid)
    (hgd : dirp.globalDepth = dir.globalDepth)
    (hpids : ∀ j, dirp.bucketPageIds j =
      if j < dir.size ∧ dir.bucketPageIds j = dir.bucketPageIds I ∧
          ¬ j % 2 ^ (dir.localDepths I + 1) = I % 2 ^ (dir.localDepths I + 1) then newPid
      else dir.bucketPageIds j)
    (hlds : ∀ j, dirp.localDepths j =
      if j < dir.size ∧ (j % 2 ^ (dir.localDepths I + 1) = I % 2 ^ (dir.localDepths I + 1) ∨
          (dir.bucketPageIds j = dir.bucketPageIds I ∧
            ¬ j % 2 ^ (dir.localDepths I + 1) = I % 2 ^ (dir.localDepths I + 1))) then
        dir.localDepths j + 1
      else dir.localDepths j) :
    DirInv dirp := by
  have hsize : dirp.size = dir.size := by
    unfold Directory.size
    rw [hgd]
  have fact1 : ∀ j, j < dir.size → (dir.bucketPageIds j = dir.bucketPageIds I ↔
      j % 2 ^ dir.localDepths I = I % 2 ^ dir.localDepths I) := by
    intro j hj
    exact ⟨fun hp => dirInv_pid_eq hinv hI hj hp, fun hm => (dirInv_sameClass hinv hI hj hm).2⟩
  have factld : ∀ j, j < dir.size → j % 2 ^ dir.localDepths I = I % 2 ^ dir.localDepths I →
      dir.localDepths j = dir.localDepths I := fun j hj hm => (dirInv_sameClass hinv hI hj hm).1
  have hfI : dir.bucketPageIds I ≠ newPid := hfresh I hI
  have hK : ∀ j, j < dir.size → j % 2 ^ dir.localDepths I = I % 2 ^ dir.localDepths I →
      dirp.localDepths j = dir.localDepths I + 1 ∧
      dirp.bucketPageIds j =
        (if j % 2 ^ (dir.localDepths I + 1) = I % 2 ^ (dir.localDepths I + 1) then
          dir.bucketPageIds I else newPid) := by
    intro j hj hm
    by_cases hc : j % 2 ^ (dir.localDepths I + 1) = I % 2 ^ (dir.localDepths I + 1)
    · constructor
      · rw [hlds j, if_pos ⟨hj, Or.inl hc⟩, factld j hj hm]
      · rw [hpids j, if_neg (fun hcon => hcon.2.2 hc), if_pos hc]
        exact (fact1 j hj).2 hm
    · constructor
      · rw [hlds j, if_pos ⟨hj, Or.inr ⟨(fact1 j hj).2 hm, hc⟩⟩, factld j hj hm]
      · rw [hpids j, if_pos ⟨hj, (fact1 j hj).2 hm, hc⟩, if_neg hc]
  have hNK : ∀ j, j < dir.size → ¬ j % 2 ^ dir.localDepths I = I % 2 ^ dir.localDepths I →
      dirp.localDepths j = dir.localDepths j ∧ dirp.bucketPageIds j = dir.bucketPageIds j := by
    intro j hj hm
    constructor
    · rw [hlds j, if_neg]
      rintro ⟨-, hco | hco⟩
      · exact hm (lowEq_mono j I (Nat.le_succ _) hco)
      · exact hm ((fact1 j hj).1 hco.1)
    · rw [hpids j, if_neg (fun hcon => hm ((fact1 j hj).1 hcon.2.1))]
  refine ⟨?_, ?_, ?_⟩
  · intro x hx
    rw [hsize] at hx
    rw [hgd]
    by_cases hc : x % 2 ^ dir.localDepths I = I % 2 ^ dir.localDepths I
    · rw [(hK x hx hc).1]
      omega
    · rw [(hNK x hx hc).1]
      exact hinv.1 x hx
  · intro i j hi hj hm
    rw [hsize] at hi hj
    by_cases hci : i % 2 ^ dir.localDepths I = I % 2 ^ dir.localDepths I
    · obtain ⟨hli, hpi⟩ := hK i hi hci
      rw [hli] at hm
      have hcj : j % 2 ^ dir.localDepths I = I % 2 ^ dir.localDepths I :=
        (lowEq_mono j i (Nat.le_succ _) hm).trans hci
      obtain ⟨hlj, hpj⟩ := hK j hj hcj
      constructor
      · rw [hlj, hli]
      · rw [hpj, hpi]
        by_cases hc1 : i % 2 ^ (dir.localDepths I + 1) = I % 2 ^ (dir.localDepths I + 1)
        · rw [if_pos hc1, if_pos (hm.trans hc1)]
        · rw [if_neg hc1, if_neg (fun hcon => hc1 (hm.symm.trans hcon))]
    · obtain ⟨hli, hpi⟩ := hNK i hi hci
      rw [hli] at hm
      have hold := dirInv_sameClass hinv hi hj hm
      have hcj : ¬ j % 2 ^ dir.localDepths I = I % 2 ^ dir.localDepths I := by
        intro hcon
        apply hci
        apply (fact1 i hi).1
        rw [← hold.2]
        exact (fact1 j hj).2 hcon
      obtain ⟨hlj, hpj⟩ := hNK j hj hcj
      constructor
      · rw [hlj, hli]
        exact hold.1
      · rw [hpj, hpi]
        exact hold.2
  · intro i j hi hj hp
    rw [hsize] at hi hj
    by_cases hci : i % 2 ^ dir.localDepths I = I % 2 ^ dir.localDepths I
    · obtain ⟨hli, hpi⟩ := hK i hi hci
      rw [hli]
      by_cases hc1 : i % 2 ^ (dir.localDepths I + 1) = I % 2 ^ (dir.localDepths I + 1)
      · rw [hpi, if_pos hc1] at hp
        by_cases hcj : j % 2 ^ dir.localDepths I = I % 2 ^ dir.localDepths I
        · obtain ⟨hlj, hpj⟩ := hK j hj hcj
          rw [hpj] at hp
          by_cases hc2 : j % 2 ^ (dir.localDepths I + 1) = I % 2 ^ (dir.localDepths I + 1)
          · exact hc1.trans hc2.symm
          · rw [if_neg hc2] at hp
            exact absurd hp hfI
        · rw [(hNK j hj hcj).2] at hp
          exact absurd ((fact1 j hj).1 hp.symm) hcj
      · rw [hpi, if_neg hc1] at hp
        by_cases hcj : j % 2 ^ dir.localDepths I = I % 2 ^ dir.localDepths I
        · obtain ⟨hlj, hpj⟩ := hK j hj hcj
          rw [hpj] at hp
          by_cases hc2 : j % 2 ^ (dir.localDepths I + 1) = I % 2 ^ (dir.localDepths I + 1)
          · rw [if_pos hc2] at hp
            exact absurd hp.symm hfI
          · exact k1_mod_eq hci hcj hc1 hc2
        · rw [(hNK j hj hcj).2] at hp
          exact absurd hp.symm (hfresh j hj)
    · obtain ⟨hli, hpi⟩ := hNK i hi hci
      rw [hli]
      rw [hpi] at hp
      by_cases hcj : j % 2 ^ dir.localDepths I = I % 2 ^ dir.localDepths I
      · obtain ⟨hlj, hpj⟩ := hK j hj hcj
        rw [hpj] at hp
        by_cases hc2 : j % 2 ^ (dir.localDepths I + 1) = I % 2 ^ (dir.localDepths I + 1)
        · rw [if_pos hc2] at hp
          exact absurd ((fact1 i hi).1 hp) hci
        · rw [if_neg hc2] at hp
          exact absurd hp (hfresh i hi)
      · rw [(hNK j hj hcj).2] at hp
        exact hinv.2.2 i j hi hj hp

/-- Directory invariants through a doubling `SplitInsert`: at full local
depth the old class is the single slot `I`; the doubled directory mirrors the
lower half, with `I`'s twin redirected to the fresh page. -/
theorem split_dirInv_grow (dir dirp : Directory) (I newPid : Nat) (hinv : DirInv dir)
    (hI : I < dir.size) (hdD : ¬ dir.localDepths I < dir.globalDepth)
    (hfresh : ∀ j, j < dir.size → dir.bucketPageIds j ≠ newPid)
    (hgd : dirp.globalDepth = dir.globalDepth + 1)
    (hlow : ∀ j, j < dir.size → dirp.bucketPageIds j = dir.bucketPageIds j ∧
      dirp.localDepths j =
        (if j % 2 ^ (dir.localDepths I + 1) = I % 2 ^ (dir.localDepths I + 1) then
          dir.localDepths j + 1 else dir.localDepths j))
    (hhigh : ∀ j, dir.size ≤ j → j < dir.size + dir.size →
      dirp.bucketPageIds j =
        (if dir.bucketPageIds (j - dir.size) = dir.bucketPageIds I then newPid
        else dir.bucketPageIds (j - dir.size)) ∧
      dirp.localDepths j =
        (if (j - dir.size) % 2 ^ (dir.localDepths I + 1) =
            I % 2 ^ (dir.localDepths I + 1) then
          dir.localDepths (j - dir.size) + 1 else dir.localDepths (j - dir.size))) :
    DirInv dirp := by
  have hd : dir.localDepths I = dir.globalDepth :=
    Nat.le_antisymm (hinv.1 I hI) (Nat.le_of_not_lt hdD)
  have hSdef : dir.size = 2 ^ dir.globalDepth := rfl
  have h2S : dir.size + dir.size = 2 ^ (dir.globalDepth + 1) := by
    rw [hSdef, Nat.pow_succ]
    omega
  have hsize : dirp.size = dir.size + dir.size := by
    unfold Directory.size
    rw [hgd, Nat.pow_succ, Nat.mul_two]
  have fact1 : ∀ m, m < dir.size → (dir.bucketPageIds m = dir.bucketPageIds I ↔ m = I) := by
    intro m hm
    constructor
    · intro hp
      have hmod := dirInv_pid_eq hinv hI hm hp
      rw [hd, Nat.mod_eq_of_lt (hSdef ▸ hm), Nat.mod_eq_of_lt (hSdef ▸ hI)] at hmod
      exact hmod
    · intro h
      rw [h]
  have hcond : ∀ x, x < dir.size →
      (x % 2 ^ (dir.localDepths I + 1) = I % 2 ^ (dir.localDepths I + 1) ↔ x = I) := by
    intro x hx
    constructor
    · intro h
      rw [hd, Nat.mod_eq_of_lt (by omega), Nat.mod_eq_of_lt (by omega)] at h
      exact h
    · intro h
      rw [h]
  have hdesc : ∀ x, x < dir.size + dir.size →
      ∃ m, m < dir.size ∧
        (∀ a, a ≤ dir.globalDepth → x % 2 ^ a = m % 2 ^ a) ∧
        dirp.localDepths x = (if m = I then dir.localDepths I + 1 else dir.localDepths m) ∧
        dirp.bucketPageIds x =
          (if dir.size ≤ x ∧ m = I then newPid else dir.bucketPageIds m) ∧
        (x < dir.size → m = x) ∧ (dir.size ≤ x → x = m + dir.size) := by
    intro x hx
    rcases Nat.lt_or_ge x dir.size with hlo | hhi
    · refine ⟨x, hlo, fun a ha => rfl, ?_, ?_, fun _ => rfl, fun hcon => absurd hcon (by omega)⟩
      · by_cases hxI : x = I
        · subst hxI
          rw [(hlow x hlo).2, if_pos rfl, if_pos rfl]
        · rw [(hlow x hlo).2, if_neg (fun hcon => hxI ((hcond x hlo).1 hcon)), if_neg hxI]
      · rw [(hlow x hlo).1, if_neg (fun hcon => absurd hcon.1 (by omega))]
    · refine ⟨x - dir.size, by omega, ?_, ?_, ?_,
        fun hcon => absurd hcon (by omega), fun _ => by omega⟩
      · intro a ha
        have hx2 : x = (x - dir.size) + 2 ^ dir.globalDepth := by omega
        conv_lhs => rw [hx2]
        exact add_pow_mod _ a _ ha
      · by_cases hmi : x - dir.size = I
        · rw [(hhigh x hhi hx).2, if_pos ((hcond _ (by omega)).2 hmi), if_pos hmi, hmi]
        · rw [(hhigh x hhi hx).2, if_neg (fun hcon => hmi ((hcond _ (by omega)).1 hcon)),
            if_neg hmi]
      · by_cases hmi : x - dir.size = I
        · rw [(hhigh x hhi hx).1, if_pos (by rw [hmi]), if_pos ⟨hhi, hmi⟩]
        · rw [(hhigh x hhi hx).1, if_neg (fun hcon => hmi ((fact1 _ (by omega)).1 hcon)),
            if_neg (fun hcon => hmi hcon.2)]
  refine ⟨?_, ?_, ?_⟩
  · intro x hx
    rw [hsize] at hx
    rw [hgd]
    obtain ⟨m, hm_lt, hmod, hld, hpid, hlo, hhi⟩ := hdesc x hx
    rw [hld]
    by_cases hmI : m = I
    · rw [if_pos hmI, hd]
    · rw [if_neg hmI]
      have := hinv.1 m hm_lt
      omega
  · intro i j hi hj hm
    rw [hsize] at hi hj
    obtain ⟨mi, hmi_lt, hmodi, hldi, hpidi, hloi, hhii⟩ := hdesc i hi
    obtain ⟨mj, hmj_lt, hmodj, hldj, hpidj, hloj, hhij⟩ := hdesc j hj
    rw [hldi] at hm
    by_cases hmI : mi = I
    · rw [if_pos hmI, hd] at hm
      rw [Nat.mod_eq_of_lt (by omega), Nat.mod_eq_of_lt (by omega)] at hm
      rw [hm]
      exact ⟨rfl, rfl⟩
    · rw [if_neg hmI] at hm
      have ha : dir.localDepths mi ≤ dir.globalDepth := hinv.1 mi hmi_lt
      have hmm : mj % 2 ^ dir.localDepths mi = mi % 2 ^ dir.localDepths mi := by
        rw [← hmodj _ ha, ← hmodi _ ha]
        exact hm
      have hold := dirInv_sameClass hinv hmi_lt hmj_lt hmm
      have hcj : mj ≠ I := by
        intro hcon
        apply hmI
        apply (fact1 mi hmi_lt).1
        rw [← hold.2, hcon]
      constructor
      · rw [hldj, if_neg hcj, hldi, if_neg hmI]
        exact hold.1
      · rw [hpidj, if_neg (fun hcon => hcj hcon.2), hpidi, if_neg (fun hcon => hmI hcon.2)]
        exact hold.2
  · intro i j hi hj hp
    rw [hsize] at hi hj
    obtain ⟨mi, hmi_lt, hmodi, hldi, hpidi, hloi, hhii⟩ := hdesc i hi
    obtain ⟨mj, hmj_lt, hmodj, hldj, hpidj, hloj, hhij⟩ := hdesc j hj
    rw [hpidi, hpidj] at hp
    rw [hldi]
    by_cases hmI : mi = I
    · rw [if_pos hmI, hd]
      by_cases hui : dir.size ≤ i ∧ mi = I
      · rw [if_pos hui] at hp
        by_cases huj : dir.size ≤ j ∧ mj = I
        · have hij : i = j := by
            have h1 := hhii hui.1
            have h2 := hhij huj.1
            rw [h1, h2, hui.2, huj.2]
          rw [hij]
        · rw [if_neg huj] at hp
          exact absurd hp.symm (hfresh mj hmj_lt)
      · have hilow : i < dir.size := by
          by_contra hcon
          exact hui ⟨by omega, hmI⟩
        have hieq : mi = i := hloi hilow
        rw [if_neg hui] at hp
        by_cases huj : dir.size ≤ j ∧ mj = I
        · rw [if_pos huj] at hp
          refine absurd hp ?_
          rw [hmI]
          exact hfresh I hI
        · rw [if_neg huj] at hp
          have hmjI : mj = I := by
            apply (fact1 mj hmj_lt).1
            rw [← hp, hmI]
          have hjlow : j < dir.size := by
            by_contra hcon
            exact huj ⟨by omega, hmjI⟩
          have hjeq : mj = j := hloj hjlow
          have hij : i = j := by rw [← hieq, ← hjeq, hmI, hmjI]
          rw [hij]
    · rw [if_neg hmI]
      rw [if_neg (fun hcon => hmI hcon.2)] at hp
      by_cases huj : dir.size ≤ j ∧ mj = I
      · rw [if_pos huj] at hp
        exact absurd hp (hfresh mi hmi_lt)
      · rw [if_neg huj] at hp
        have hold := hinv.2.2 mi mj hmi_lt hmj_lt hp
        have ha : dir.localDepths mi ≤ dir.globalDepth := hinv.1 mi hmi_lt
        rw [hmodi _ ha, hmodj _ ha]
        exact hold

/-- `SplitInsert` preserves the directory invariants and page-id freshness. -/
theorem splitInsert_StateInvD [DecidableEq K] [DecidableEq V] [Inhabited K] [Inhabited V]
    (hashFn : K → Nat) (sz : Nat) (t : TableState K V) (key : K) (value : V)
    (hinv : StateInvD t) : StateInvD (splitInsert hashFn sz t key value).1 := by
  by_cases hfull : (fetchBucket sz t (keyToPageId hashFn t key)).isFull sz = true
  · by_cases hdD : t.dir.localDepths (keyToDirectoryIndex hashFn t key) < t.dir.globalDepth
    · obtain ⟨hfreed, hlen, hgd, hpids, hlds⟩ :=
        splitInsert_spec_noGrow hashFn sz t key value hfull hdD
      have hIlt := keyToDirectoryIndex_lt hashFn t key
      simp only [keyToPageId] at hpids
      refine ⟨?_, ?_⟩
      · exact split_dirInv_noGrow t.dir _ (keyToDirectoryIndex hashFn t key)
          t.buckets.length hinv.1 hIlt hdD (fun j hj => Nat.ne_of_lt (hinv.2 j hj))
          hgd hpids hlds
      · intro i hi
        rw [hlen]
        have hsz : (splitInsert hashFn sz t key value).1.dir.size = t.dir.size := by
          unfold Directory.size
          rw [hgd]
        rw [hsz] at hi
        rw [hpids i]
        by_cases hc : i < t.dir.size ∧
            t.dir.bucketPageIds i =
              t.dir.bucketPageIds (keyToDirectoryIndex hashFn t key) ∧
            ¬ i % 2 ^ (t.dir.localDepths (keyToDirectoryIndex hashFn t key) + 1) =
              keyToDirectoryIndex hashFn t key %
                2 ^ (t.dir.localDepths (keyToDirectoryIndex hashFn t key) + 1)
        · rw [if_pos hc]
          omega
        · rw [if_neg hc]
          have := hinv.2 i hi
          omega
    · obtain ⟨hfreed, hlen, hgd, hlow, hhigh⟩ :=
        splitInsert_spec_grow hashFn sz t key value hfull hdD
      have hIlt := keyToDirectoryIndex_lt hashFn t key
      simp only [keyToPageId] at hhigh
      refine ⟨?_, ?_⟩
      · exact split_dirInv_grow t.dir _ (keyToDirectoryIndex hashFn t key)
          t.buckets.length hinv.1 hIlt hdD (fun j hj => Nat.ne_of_lt (hinv.2 j hj))
          hgd hlow hhigh
      · intro i hi
        rw [hlen]
        have hsz : (splitInsert hashFn sz t key value).1.dir.size =
            t.dir.size + t.dir.size := by
          unfold Directory.size
          rw [hgd, Nat.pow_succ, Nat.mul_two]
        rw [hsz] at hi
        rcases Nat.lt_or_ge i t.dir.size with hlo | hhi2
        · rw [(hlow i hlo).1]
          have := hinv.2 i hlo
          omega
        · rw [(hhigh i hhi2 hi).1]
          by_cases hc : t.dir.bucketPageIds (i - t.dir.size) =
              t.dir.bucketPageIds (keyToDirectoryIndex hashFn t key)
          · rw [if_pos hc]
            omega
          · rw [if_neg hc]
            have := hinv.2 (i - t.dir.size) (by omega)
            omega
  · have heq : (splitInsert hashFn sz t key value).1 =
        { t with buckets :=
          (t.buckets.set (keyToPageId hashFn t key)
            ((fetchBucket sz t (keyToPageId hashFn t key)).insert sz key value).1) } := by
      simp only [splitInsert]
      rw [if_pos hfull]
    rw [heq]
    refine ⟨hinv.1, ?_⟩
    intro i hi
    show t.dir.bucketPageIds i < (t.buckets.set _ _).length
    rw [List.length_set]
    exact hinv.2 i hi


theorem setBucket_StateInvD [Inhabited K] [Inhabited V] (t : TableState K V) (p : Nat)
    (b : Bucket K V) (hinv : StateInvD t) :
    StateInvD { t with buckets := t.buckets.set p b } := by
  refine ⟨hinv.1, ?_⟩
  intro i hi
  show t.dir.bucketPageIds i < (t.buckets.set p b).length
  rw [List.length_set]
  exact hinv.2 i hi

/-- `Insert` preserves the directory invariants and page-id freshness. -/
theorem insertOp_StateInvD [DecidableEq K] [DecidableEq V] [Inhabited K] [Inhabited V]
    (hashFn : K → Nat) (sz : Nat) (t : TableState K V) (key : K) (value : V)
    (hinv : StateInvD t) : StateInvD (insertOp hashFn sz t key value).1 := by
  simp only [insertOp]
  by_cases hc : ¬ ((fetchBucket sz t (keyToPageId hashFn t key)).insert sz key value).2 = true ∧
      ((fetchBucket sz t (keyToPageId hashFn t key)).insert sz key value).1.isFull sz = true
  · rw [if_pos hc]
    exact splitInsert_StateInvD hashFn sz _ key value (setBucket_StateInvD t _ _ hinv)
  · rw [if_neg hc]
    exact setBucket_StateInvD t _ _ hinv

/-- `Remove` preserves the directory invariants and page-id freshness. -/
theorem removeOp_StateInvD [DecidableEq K] [DecidableEq V] [Inhabited K] [Inhabited V]
    (hashFn : K → Nat) (sz : Nat) (t : TableState K V) (key : K) (value : V)
    (hinv : StateInvD t) : StateInvD (removeOp hashFn sz t key value).1 := by
  simp only [removeOp]
  by_cases hc : ((fetchBucket sz t (keyToPageId hashFn t key)).remove sz key value).2 = true ∧
      ((fetchBucket sz t (keyToPageId hashFn t key)).remove sz key value).1.isEmpty sz = true
  · rw [if_pos hc]
    exact extraMergeLoop_StateInvD hashFn sz key _ _
      (mergeOp_StateInvD hashFn sz _ key (setBucket_StateInvD t _ _ hinv))
  · rw [if_neg hc]
    exact setBucket_StateInvD t _ _ hinv

theorem applyOp_StateInvD [DecidableEq K] [DecidableEq V] [Inhabited K] [Inhabited V]
    (hashFn : K → Nat) (sz : Nat) (t : TableState K V) (op : Op K V)
    (hinv : StateInvD t) : StateInvD (applyOp hashFn sz t op) := by
  cases op with
  | insert k v => exact insertOp_StateInvD hashFn sz t k v hinv
  | remove k v => exact removeOp_StateInvD hashFn sz t k v hinv
  | getValue k => exact hinv

/-- Every operation sequence preserves the directory invariants. -/
theorem runOps_StateInvD [DecidableEq K] [DecidableEq V] [Inhabited K] [Inhabited V]
    (hashFn : K → Nat) (sz : Nat) (ops : List (Op K V)) :
    ∀ t : TableState K V, StateInvD t → StateInvD (runOps hashFn sz t ops) := by
  induction ops with
  | nil => exact fun t hinv => hinv
  | cons op rest ih => exact fun t hinv => ih _ (applyOp_StateInvD hashFn sz t op hinv)

theorem countP_eq_single (c : Nat) : ∀ n : Nat,
    (List.range n).countP (fun j => decide (j = c)) = if c < n then 1 else 0 := by
  intro n
  induction n with
  | zero => simp
  | succ m ih =>
    rw [List.range_succ, List.countP_append, ih]
    have hone : List.countP (fun j => decide (j = c)) [m] = if m = c then 1 else 0 := by
      rw [show ([m] : List Nat) = m :: [] from rfl, List.countP_cons, List.countP_nil]
      by_cases h : m = c <;> simp [h]
    rw [hone]
    rcases Nat.lt_trichotomy c m with h | h | h
    · rw [if_pos h, if_neg (by omega), if_pos (by omega)]
    · rw [if_neg (by omega), if_pos h.symm, if_pos (by omega)]
    · rw [if_neg (by omega), if_neg (by omega), if_neg (by omega)]

/-- Counting slots congruent to `r` modulo `2^m` inside `[0, 2^D)`. -/
theorem countP_mod_range (m r : Nat) : ∀ D, m ≤ D →
    (List.range (2 ^ D)).countP (fun j => decide (j % 2 ^ m = r % 2 ^ m)) = 2 ^ (D - m) := by
  intro D
  induction D with
  | zero =>
    intro h
    have hm : m = 0 := by omega
    subst hm
    have hcg : (List.range (2 ^ 0)).countP (fun j => decide (j % 2 ^ 0 = r % 2 ^ 0)) =
        (List.range (2 ^ 0)).countP (fun _ => true) :=
      List.countP_congr (fun x hx => by simp [Nat.mod_one])
    rw [hcg, List.countP_true, List.length_range]
  | succ D ih =>
    intro h
    by_cases hm : m ≤ D
    · have hsplit : List.range (2 ^ (D + 1)) =
          List.range (2 ^ D) ++ (List.range (2 ^ D)).map (fun x => 2 ^ D + x) := by
        rw [show (2 : Nat) ^ (D + 1) = 2 ^ D + 2 ^ D by rw [Nat.pow_succ]; omega]
        exact List.range_add _ _
      rw [hsplit, List.countP_append, List.countP_map, ih hm]
      have hcg : (List.range (2 ^ D)).countP
          ((fun j => decide (j % 2 ^ m = r % 2 ^ m)) ∘ (fun x => 2 ^ D + x)) =
          (List.range (2 ^ D)).countP (fun j => decide (j % 2 ^ m = r % 2 ^ m)) := by
        apply List.countP_congr
        intro x hx
        simp only [Function.comp_apply, decide_eq_true_eq]
        rw [Nat.add_comm, add_pow_mod x m D hm]
      rw [hcg, ih hm]
      have hsub : D + 1 - m = (D - m) + 1 := by omega
      rw [hsub, Nat.pow_succ]
      omega
    · have hm2 : m = D + 1 := by omega
      subst hm2
      have hcg : (List.range (2 ^ (D + 1))).countP
          (fun j => decide (j % 2 ^ (D + 1) = r % 2 ^ (D + 1))) =
          (List.range (2 ^ (D + 1))).countP (fun j => decide (j = r % 2 ^ (D + 1))) := by
        apply List.countP_congr
        intro x hx
        simp only [decide_eq_true_eq]
        rw [Nat.mod_eq_of_lt (List.mem_range.1 hx)]
      rw [hcg, countP_eq_single, if_pos (Nat.mod_lt _ (Nat.two_pow_pos _)), Nat.sub_self,
        pow_zero]

/-- Under the invariants, each slot's page id occupies exactly
`2^(global_depth - local_depth)` directory slots. -/
theorem dirInv_count (dir : Directory) (hinv : DirInv dir) (i : Nat) (hi : i < dir.size) :
    (List.range dir.size).countP
      (fun j => decide (dir.bucketPageIds j = dir.bucketPageIds i)) =
    2 ^ (dir.globalDepth - dir.localDepths i) := by
  have h1 : (List.range dir.size).countP
      (fun j => decide (dir.bucketPageIds j = dir.bucketPageIds i)) =
      (List.range dir.size).countP
        (fun j => decide (j % 2 ^ dir.localDepths i = i % 2 ^ dir.localDepths i)) := by
    apply List.countP_congr
    intro x hx
    simp only [decide_eq_true_eq]
    have hx2 : x < dir.size := List.mem_range.1 hx
    exact ⟨fun hp => dirInv_pid_eq hinv hi hx2 hp, fun hm => (dirInv_sameClass hinv hi hx2 hm).2⟩
  rw [h1]
  exact countP_mod_range (dir.localDepths i) i dir.globalDepth (hinv.1 i hi)


/-- Claim C2: after any sequence of `Insert`/`Remove` operations from
construction, the directory satisfies the spec section-3 invariants — its
size is `2^global_depth`, every local depth is at most the global depth,
slots agreeing under their (equal) local-depth masks share a bucket page id
(split-image consistency), and every bucket page id held by a slot occupies
exactly `2^(global_depth - local_depth)` directory slots. -/
theorem C2_directory_invariants [DecidableEq K] [DecidableEq V] [Inhabited K] [Inhabited V]
    (hashFn : K → Nat) (sz : Nat) (ops : List (Op K V)) (t : TableState K V)
    (ht : t = runOps hashFn sz (initTable K V sz) ops) :
    t.dir.size = 2 ^ t.dir.globalDepth ∧
    (∀ i, i < t.dir.size → t.dir.localDepths i ≤ t.dir.globalDepth) ∧
    (∀ i j, i < t.dir.size → j < t.dir.size →
      i &&& (2 ^ t.dir.localDepths i - 1) = j &&& (2 ^ t.dir.localDepths j - 1) →
      t.dir.localDepths i = t.dir.localDepths j →
      t.dir.bucketPageIds i = t.dir.bucketPageIds j) ∧
    ∀ i, i < t.dir.size →
      (List.range t.dir.size).countP
        (fun j => decide (t.dir.bucketPageIds j = t.dir.bucketPageIds i)) =
      2 ^ (t.dir.globalDepth - t.dir.localDepths i) := by
  have hinv : StateInvD t := by
    rw [ht]
    exact runOps_StateInvD hashFn sz ops _ (stateInvD_init K V sz)
  refine ⟨rfl, hinv.1.1, ?_, ?_⟩
  · intro i j hi hj hmask heq
    rw [and_mask_mod, and_mask_mod, ← heq] at hmask
    exact (dirInv_sameClass hinv.1 hi hj hmask.symm).2.symm
  · intro i hi
    exact dirInv_count t.dir hinv.1 i hi

theorem C2_directory_invariants_witness :
    (runOps hashId 1 (initTable Nat Nat 1) [Op.insert 5 7]).dir.size =
      2 ^ (runOps hashId 1 (initTable Nat Nat 1) [Op.insert 5 7]).dir.globalDepth ∧
    (∀ i, i < (runOps hashId 1 (initTable Nat Nat 1) [Op.insert 5 7]).dir.size →
      (runOps hashId 1 (initTable Nat Nat 1) [Op.insert 5 7]).dir.localDepths i ≤
        (runOps hashId 1 (initTable Nat Nat 1) [Op.insert 5 7]).dir.globalDepth) ∧
    (∀ i j, i < (runOps hashId 1 (initTable Nat Nat 1) [Op.insert 5 7]).dir.size →
      j < (runOps hashId 1 (initTable Nat Nat 1) [Op.insert 5 7]).dir.size →
      i &&& (2 ^ (runOps hashId 1 (initTable Nat Nat 1) [Op.insert 5 7]).dir.localDepths i - 1) =
        j &&& (2 ^ (runOps hashId 1 (initTable Nat Nat 1) [Op.insert 5 7]).dir.localDepths j - 1) →
      (runOps hashId 1 (initTable Nat Nat 1) [Op.insert 5 7]).dir.localDepths i =
        (runOps hashId 1 (initTable Nat Nat 1) [Op.insert 5 7]).dir.localDepths j →
      (runOps hashId 1 (initTable Nat Nat 1) [Op.insert 5 7]).dir.bucketPageIds i =
        (runOps hashId 1 (initTable Nat Nat 1) [Op.insert 5 7]).dir.bucketPageIds j) ∧
    ∀ i, i < (runOps hashId 1 (initTable Nat Nat 1) [Op.insert 5 7]).dir.size →
      (List.range (runOps hashId 1 (initTable Nat Nat 1) [Op.insert 5 7]).dir.size).countP
        (fun j => decide ((runOps hashId 1 (initTable Nat Nat 1) [Op.insert 5 7]).dir.bucketPageIds j =
          (runOps hashId 1 (initTable Nat Nat 1) [Op.insert 5 7]).dir.bucketPageIds i)) =
      2 ^ ((runOps hashId 1 (initTable Nat Nat 1) [Op.insert 5 7]).dir.globalDepth -
        (runOps hashId 1 (initTable Nat Nat 1) [Op.insert 5 7]).dir.localDepths i) :=
  C2_directory_invariants hashId 1 [Op.insert 5 7]
    (runOps hashId 1 (initTable Nat Nat 1) [Op.insert 5 7]) rfl


/-! ## Bucket-level consequences of the insert scan -/

theorem insert_eq_insertSpec [DecidableEq K] [DecidableEq V] [Inhabited K] [Inhabited V]
    (sz : Nat) (b : Bucket K V) (key : K) (value : V)
    (h : ∀ i < sz, b.isReadable i = true → b.isOccupied i = true) :
    b.insert sz key value = b.insertSpec sz key value := by
  unfold Bucket.insert
  rw [List.range_eq_range']
  exact insertLoop_spec sz b key value h sz 0 sz (by omega)
    (fun l hl => absurd hl (Nat.not_lt_zero l))
    (fun l hl => absurd hl (Nat.not_lt_zero l))
    (Or.inl ⟨rfl, fun l hl => absurd hl (Nat.not_lt_zero l)⟩)

theorem rdImpOcc_pointwise {sz : Nat} {b : Bucket K V} (h : b.rdImpOcc sz = true) :
    ∀ i < sz, b.isReadable i = true → b.isOccupied i = true := by
  intro i hi hr
  unfold Bucket.rdImpOcc at h
  have := List.all_eq_true.1 h i (List.mem_range.2 hi)
  simpa [hr] using this

theorem noGap_pointwise {sz : Nat} {b : Bucket K V} (h : b.noGap sz = true) :
    ∀ j < sz, b.isOccupied j = true → ∀ i < j, b.isOccupied i = true := by
  intro j hj hocc i hij
  unfold Bucket.noGap at h
  have h1 := List.all_eq_true.1 h j (List.mem_range.2 hj)
  rw [Bool.or_eq_true] at h1
  rcases h1 with h1 | h1
  · rw [hocc] at h1
    exact absurd h1 (by simp)
  · exact List.all_eq_true.1 h1 i (List.mem_range.2 hij)

/-- A duplicate in the scanned range makes the specified insert reject. -/
theorem insertSpec_duplicate [DecidableEq K] [DecidableEq V] [Inhabited K] [Inhabited V]
    (sz : Nat) (b : Bucket K V) (key : K) (value : V) (i : Nat) (hi : i < sz)
    (hr : b.isReadable i = true) (ha : b.array.getD i default = (key, value))
    (hro : ∀ l < sz, b.isReadable l = true → b.isOccupied l = true)
    (hng : ∀ j < sz, b.isOccupied j = true → ∀ l < j, b.isOccupied l = true) :
    b.insertSpec sz key value = (b, false) := by
  have hany : ((List.range sz).any fun l => b.specScanned sz l && b.isReadable l &&
      decide (b.array.getD l default = (key, value))) = true := by
    rw [List.any_eq_true]
    refine ⟨i, List.mem_range.2 hi, ?_⟩
    rw [Bool.and_eq_true, Bool.and_eq_true]
    exact ⟨⟨specScanned_iff.2 ⟨hi, hng i hi (hro i hi hr)⟩, hr⟩, decide_eq_true ha⟩
  unfold Bucket.insertSpec
  rw [if_pos hany]

/-- With no duplicate and a least free slot `i0`, the specified insert
writes into `i0` and reports success. -/
theorem insertSpec_inserts [DecidableEq K] [DecidableEq V] [Inhabited K] [Inhabited V]
    (sz : Nat) (b : Bucket K V) (key : K) (value : V) (i0 : Nat) (hi0 : i0 < sz)
    (hnr : b.isReadable i0 = false)
    (hmin : ∀ l < i0, b.isReadable l = true)
    (hro : ∀ l < sz, b.isReadable l = true → b.isOccupied l = true)
    (hnp : ∀ l < sz, ¬(b.isReadable l = true ∧ b.array.getD l default = (key, value))) :
    b.insertSpec sz key value =
      ((({ b with array := b.array.set i0 (key, value) }).setOccupied i0).setReadable i0,
        true) := by
  have hany : ((List.range sz).any fun l => b.specScanned sz l && b.isReadable l &&
      decide (b.array.getD l default = (key, value))) = false := by
    rw [← Bool.not_eq_true, List.any_eq_true]
    rintro ⟨x, hx, hP⟩
    rw [List.mem_range] at hx
    rw [Bool.and_eq_true, Bool.and_eq_true] at hP
    exact hnp x hx ⟨hP.1.2, of_decide_eq_true hP.2⟩
  have hfind : ((List.range sz).find? fun l => b.specScanned sz l && !b.isReadable l) =
      some i0 := by
    apply find?_range_eq_some i0 sz hi0
    · rw [Bool.and_eq_true]
      exact ⟨specScanned_iff.2 ⟨hi0, fun l hl => hro l (by omega) (hmin l hl)⟩, by simp [hnr]⟩
    · intro l hl
      simp [hmin l hl]
  have hneg : ¬(((List.range sz).any fun l => b.specScanned sz l && b.isReadable l &&
      decide (b.array.getD l default = (key, value))) = true) := by
    rw [hany]
    simp
  unfold Bucket.insertSpec
  rw [if_neg hneg, hfind]

/-- `Insert` on a page holding a free slot and no duplicate writes the pair
into the least free slot and returns true. -/
theorem insert_returns_true [DecidableEq K] [DecidableEq V] [Inhabited K] [Inhabited V]
    (sz : Nat) (b : Bucket K V) (key : K) (value : V)
    (hro : ∀ l < sz, b.isReadable l = true → b.isOccupied l = true)
    (hnp : ∀ l < sz, ¬(b.isReadable l = true ∧ b.array.getD l default = (key, value)))
    (hfree : ∃ i, i < sz ∧ b.isReadable i = false) :
    ∃ i0, i0 < sz ∧ b.isReadable i0 = false ∧ (∀ l < i0, b.isReadable l = true) ∧
      b.insert sz key value =
        ((({ b with array := b.array.set i0 (key, value) }).setOccupied i0).setReadable i0,
          true) := by
  obtain ⟨iw, hiw, hiwr⟩ := hfree
  have hex : ∃ i, b.isReadable i = false := ⟨iw, hiwr⟩
  have hP0 : b.isReadable (Nat.find hex) = false := Nat.find_spec hex
  have hlt : Nat.find hex < sz := lt_of_le_of_lt (Nat.find_min' hex hiwr) hiw
  have hmin : ∀ l < Nat.find hex, b.isReadable l = true := by
    intro l hl
    have := Nat.find_min hex hl
    cases hx : b.isReadable l
    · exact absurd hx this
    · rfl
  refine ⟨Nat.find hex, hlt, hP0, hmin, ?_⟩
  rw [insert_eq_insertSpec sz b key value hro]
  exact insertSpec_inserts sz b key value (Nat.find hex) hlt hP0 hmin hro hnp

theorem insertWrite_isReadable [Inhabited K] [Inhabited V] (b : Bucket K V)
    (i0 l : Nat) (key : K) (value : V) (hj : i0 / 8 < b.readable.length) :
    ((({ b with array := b.array.set i0 (key, value) }).setOccupied i0).setReadable
        i0).isReadable l = if l = i0 then true else b.isReadable l := by
  have hj2 : i0 / 8 <
      (({ b with array := b.array.set i0 (key, value) }).setOccupied i0).readable.length := hj
  have h1 := isReadable_setReadable
    (({ b with array := b.array.set i0 (key, value) }).setOccupied i0) l i0 hj2
  rw [h1]
  by_cases h : l = i0
  · rw [if_pos h, if_pos h]
  · rw [if_neg h, if_neg h]
    rfl

theorem insertWrite_isOccupied [Inhabited K] [Inhabited V] (b : Bucket K V)
    (i0 l : Nat) (key : K) (value : V) (hj : i0 / 8 < b.occupied.length) :
    ((({ b with array := b.array.set i0 (key, value) }).setOccupied i0).setReadable
        i0).isOccupied l = if l = i0 then true else b.isOccupied l := by
  have hj2 : i0 / 8 <
      ({ b with array := b.array.set i0 (key, value) } : Bucket K V).occupied.length := hj
  have h1 := isOccupied_setOccupied
    ({ b with array := b.array.set i0 (key, value) } : Bucket K V) l i0 hj2
  rw [isOccupied_setReadable, h1]
  by_cases h : l = i0
  · rw [if_pos h, if_pos h]
  · rw [if_neg h, if_neg h]
    rfl

/-- The scan of `GetValue` reaches and collects any readable matching slot
whose predecessors are all occupied. -/
theorem getValueLoop_mem [DecidableEq K] [Inhabited K] [Inhabited V]
    (b : Bucket K V) (key : K) (i0 : Nat)
    (hr : b.isReadable i0 = true) (hk : (b.array.getD i0 default).1 = key)
    (hocc : ∀ l < i0, b.isOccupied l = true) :
    ∀ n a, a ≤ i0 → i0 < a + n →
      (b.array.getD i0 default).2 ∈ b.getValueLoop key (List.range' a n) := by
  intro n
  induction n with
  | zero =>
    intro a h1 h2
    omega
  | succ n ih =>
    intro a h1 h2
    rw [List.range'_succ]
    simp only [Bucket.getValueLoop]
    by_cases hC : b.isReadable a = true ∧ (b.array.getD a default).1 = key
    · rw [if_pos hC]
      by_cases ha : a = i0
      · subst ha
        exact List.mem_cons_self _ _
      · exact List.mem_cons_of_mem _ (ih (a + 1) (by omega) (by omega))
    · rw [if_neg hC]
      have ha : a ≠ i0 := by
        intro hcon
        subst hcon
        exact hC ⟨hr, hk⟩
      have hocca : b.isOccupied a = true := hocc a (by omega)
      rw [if_neg (by simp [hocca])]
      exact ih (a + 1) (by omega) (by omega)

/-- The state and flag of a fast-path `Insert` whose bucket insert succeeds. -/
theorem insertOp_fast_state [DecidableEq K] [DecidableEq V] [Inhabited K] [Inhabited V]
    (hashFn : K → Nat) (sz : Nat) (t : TableState K V) (key : K) (value : V)
    (b2 : Bucket K V)
    (hins : (fetchBucket sz t (keyToPageId hashFn t key)).insert sz key value = (b2, true)) :
    (insertOp hashFn sz t key value).1 =
      { t with buckets := t.buckets.set (keyToPageId hashFn t key) b2 } ∧
    (insertOp hashFn sz t key value).2 = true := by
  simp only [insertOp]
  rw [hins]
  rw [if_neg (fun hcon => hcon.1 rfl)]
  exact ⟨rfl, rfl⟩


/-- Claim C4, amended with the page invariants and a non-full routed bucket:
inserting a pair the routed bucket already holds returns false and leaves the
entire state unchanged.  (When that bucket is full the code instead enters
`SplitInsert` and mutates the directory — the counterexample.) -/
theorem C4_duplicate_insert [DecidableEq K] [DecidableEq V] [Inhabited K] [Inhabited V]
    (hashFn : K → Nat) (sz : Nat) (t : TableState K V) (key : K) (value : V)
    (hpid : keyToPageId hashFn t key < t.buckets.length)
    (hro : (fetchBucket sz t (keyToPageId hashFn t key)).rdImpOcc sz = true)
    (hng : (fetchBucket sz t (keyToPageId hashFn t key)).noGap sz = true)
    (hfull : ¬ (fetchBucket sz t (keyToPageId hashFn t key)).isFull sz = true)
    (hpres : ∃ i, i < sz ∧ (fetchBucket sz t (keyToPageId hashFn t key)).isReadable i = true ∧
      (fetchBucket sz t (keyToPageId hashFn t key)).array.getD i default = (key, value)) :
    insertOp hashFn sz t key value = (t, false) := by
  obtain ⟨i, hi, hir, hia⟩ := hpres
  have hins : (fetchBucket sz t (keyToPageId hashFn t key)).insert sz key value =
      (fetchBucket sz t (keyToPageId hashFn t key), false) := by
    rw [insert_eq_insertSpec sz _ key value (rdImpOcc_pointwise hro)]
    exact insertSpec_duplicate sz _ key value i hi hir hia (rdImpOcc_pointwise hro)
      (noGap_pointwise hng)
  simp only [insertOp]
  rw [hins]
  rw [if_neg (fun hcon => hfull hcon.2)]
  show ({ t with buckets :=
    (t.buckets.set (keyToPageId hashFn t key)
      (t.buckets.getD (keyToPageId hashFn t key) (Bucket.empty K V sz))) }, false) = (t, false)
  rw [set_getD_self t.buckets (keyToPageId hashFn t key) (Bucket.empty K V sz) hpid]

/-- Witness for the amended C4 on a concrete table holding (5, 7). -/
theorem C4_duplicate_insert_witness :
    keyToPageId hashId tableC10a 5 < tableC10a.buckets.length ∧
    (fetchBucket 4 tableC10a (keyToPageId hashId tableC10a 5)).rdImpOcc 4 = true ∧
    (fetchBucket 4 tableC10a (keyToPageId hashId tableC10a 5)).noGap 4 = true ∧
    ¬ (fetchBucket 4 tableC10a (keyToPageId hashId tableC10a 5)).isFull 4 = true ∧
    insertOp hashId 4 tableC10a 5 7 = (tableC10a, false) :=
  ⟨by decide, by decide, by decide, by decide,
    C4_duplicate_insert hashId 4 tableC10a 5 7 (by decide) (by decide) (by decide) (by decide)
      ⟨0, by decide, by decide, by decide⟩⟩

/-- Claim C5, amended: `Insert` of an absent pair returns true when the
routed bucket has a free slot.  (The claim's repeated splitting until
separation does not exist in the code — the counterexample shows a single
split after which the insert simply fails.) -/
theorem C5_insert_absent [DecidableEq K] [DecidableEq V] [Inhabited K] [Inhabited V]
    (hashFn : K → Nat) (sz : Nat) (t : TableState K V) (key : K) (value : V)
    (hro : (fetchBucket sz t (keyToPageId hashFn t key)).rdImpOcc sz = true)
    (hnp : ∀ i, i < sz →
      ¬((fetchBucket sz t (keyToPageId hashFn t key)).isReadable i = true ∧
        (fetchBucket sz t (keyToPageId hashFn t key)).array.getD i default = (key, value)))
    (hfree : ∃ i, i < sz ∧
      (fetchBucket sz t (keyToPageId hashFn t key)).isReadable i = false) :
    (insertOp hashFn sz t key value).2 = true := by
  obtain ⟨i0, hi0, hnr, hmin, hins⟩ := insert_returns_true sz
    (fetchBucket sz t (keyToPageId hashFn t key)) key value (rdImpOcc_pointwise hro) hnp hfree
  exact (insertOp_fast_state hashFn sz t key value _ hins).2

/-- Witness for the amended C5 on a fresh table. -/
theorem C5_insert_absent_witness :
    (fetchBucket 4 (initTable Nat Nat 4)
      (keyToPageId hashId (initTable Nat Nat 4) 5)).rdImpOcc 4 = true ∧
    (∀ i, i < 4 →
      ¬((fetchBucket 4 (initTable Nat Nat 4)
          (keyToPageId hashId (initTable Nat Nat 4) 5)).isReadable i = true ∧
        (fetchBucket 4 (initTable Nat Nat 4)
          (keyToPageId hashId (initTable Nat Nat 4) 5)).array.getD i default = (5, 7))) ∧
    (insertOp hashId 4 (initTable Nat Nat 4) 5 7).2 = true :=
  ⟨by decide, by decide,
    C5_insert_absent hashId 4 (initTable Nat Nat 4) 5 7 (by decide) (by decide)
      ⟨0, by decide, by decide⟩⟩


/-! ## Basic facts about pages and the write/remove primitives -/

theorem lenWF_iff {sz : Nat} {b : Bucket K V} : b.lenWF sz = true ↔
    b.occupied.length = (sz - 1) / 8 + 1 ∧ b.readable.length = (sz - 1) / 8 + 1 ∧
      b.array.length = sz := by
  unfold Bucket.lenWF
  rw [Bool.and_eq_true, Bool.and_eq_true]
  constructor
  · rintro ⟨⟨h1, h2⟩, h3⟩
    exact ⟨by simpa using h1, by simpa using h2, by simpa using h3⟩
  · rintro ⟨h1, h2, h3⟩
    exact ⟨⟨by simpa using h1, by simpa using h2⟩, by simpa using h3⟩

theorem lenWF_setUnreadable {sz : Nat} (b : Bucket K V) (i : Nat) :
    (b.setUnreadable i).lenWF sz = b.lenWF sz := by
  unfold Bucket.lenWF Bucket.setUnreadable
  rw [List.length_modify]

theorem lenWF_writeSlot {sz : Nat} (b : Bucket K V) (i : Nat) (key : K) (value : V) :
    (b.writeSlot i key value).lenWF sz = b.lenWF sz := by
  unfold Bucket.writeSlot Bucket.lenWF Bucket.setReadable Bucket.setOccupied
  rw [List.length_modify, List.length_modify, List.length_set]

theorem writeSlot_isReadable [Inhabited K] [Inhabited V] (b : Bucket K V) (i0 l : Nat)
    (key : K) (value : V) (hj : i0 / 8 < b.readable.length) :
    (b.writeSlot i0 key value).isReadable l = if l = i0 then true else b.isReadable l :=
  insertWrite_isReadable b i0 l key value hj

theorem writeSlot_isOccupied [Inhabited K] [Inhabited V] (b : Bucket K V) (i0 l : Nat)
    (key : K) (value : V) (hj : i0 / 8 < b.occupied.length) :
    (b.writeSlot i0 key value).isOccupied l = if l = i0 then true else b.isOccupied l :=
  insertWrite_isOccupied b i0 l key value hj

theorem writeSlot_array (b : Bucket K V) (i0 : Nat) (key : K) (value : V) :
    (b.writeSlot i0 key value).array = b.array.set i0 (key, value) := rfl

theorem rdImpOcc_of_pointwise {sz : Nat} {b : Bucket K V}
    (h : ∀ i < sz, b.isReadable i = true → b.isOccupied i = true) :
    b.rdImpOcc sz = true := by
  unfold Bucket.rdImpOcc
  rw [List.all_eq_true]
  intro i hi
  rw [List.mem_range] at hi
  show (!b.isReadable i || b.isOccupied i) = true
  cases hr : b.isReadable i
  · simp
  · simp [h i hi hr]

theorem rdImpOcc_writeSlot [Inhabited K] [Inhabited V] {sz : Nat} (b : Bucket K V)
    (j : Nat) (key : K) (value : V)
    (hro : ∀ i < sz, b.isReadable i = true → b.isOccupied i = true)
    (hjr : j / 8 < b.readable.length) (hjo : j / 8 < b.occupied.length) :
    ∀ i < sz, (b.writeSlot j key value).isReadable i = true →
      (b.writeSlot j key value).isOccupied i = true := by
  intro i hi hr
  rw [writeSlot_isReadable b j i key value hjr] at hr
  rw [writeSlot_isOccupied b j i key value hjo]
  by_cases h : i = j
  · rw [if_pos h]
  · rw [if_neg h] at hr
    rw [if_neg h]
    exact hro i hi hr

theorem empty_isReadable [Inhabited K] [Inhabited V] (sz l : Nat) :
    (Bucket.empty K V sz).isReadable l = false := by
  rw [isReadable_testBit]
  have h0 : (Bucket.empty K V sz).readable.getD (l / 8) 0 = 0 := by
    show (List.replicate ((sz - 1) / 8 + 1) 0).getD (l / 8) 0 = 0
    rcases Nat.lt_or_ge (l / 8) ((sz - 1) / 8 + 1) with h | h
    · rw [List.getD_eq_getElem?_getD, List.getElem?_eq_getElem (by simpa using h)]
      simp
    · rw [List.getD_eq_getElem?_getD, List.getElem?_eq_none (by simpa using h)]
      rfl
  rw [h0]
  simp

theorem empty_isOccupied [Inhabited K] [Inhabited V] (sz l : Nat) :
    (Bucket.empty K V sz).isOccupied l = false := by
  rw [isOccupied_testBit]
  have h0 : (Bucket.empty K V sz).occupied.getD (l / 8) 0 = 0 := by
    show (List.replicate ((sz - 1) / 8 + 1) 0).getD (l / 8) 0 = 0
    rcases Nat.lt_or_ge (l / 8) ((sz - 1) / 8 + 1) with h | h
    · rw [List.getD_eq_getElem?_getD, List.getElem?_eq_getElem (by simpa using h)]
      simp
    · rw [List.getD_eq_getElem?_getD, List.getElem?_eq_none (by simpa using h)]
      rfl
  rw [h0]
  simp

theorem empty_lenWF [Inhabited K] [Inhabited V] (sz : Nat) :
    (Bucket.empty K V sz).lenWF sz = true := by
  rw [lenWF_iff]
  refine ⟨?_, ?_, ?_⟩ <;> simp [Bucket.empty]

theorem prefixShaped_empty [Inhabited K] [Inhabited V] (sz : Nat) :
    prefixShaped sz 0 (Bucket.empty K V sz) := by
  refine ⟨empty_lenWF sz, Nat.zero_le sz, fun l => ?_, fun l => ?_⟩
  · rw [empty_isReadable]
    simp
  · rw [empty_isOccupied]
    simp

theorem getD_concat_length {α : Type} (l : List α) (x d : α) :
    (l ++ [x]).getD l.length d = x := by
  rw [List.getD_eq_getElem?_getD, List.getElem?_concat_length]
  rfl


theorem insertLoop_result [DecidableEq K] [DecidableEq V] [Inhabited K] [Inhabited V]
    (sz : Nat) (b : Bucket K V) (key : K) (value : V) :
    ∀ (l : List Nat) (ii : Nat), (∀ x ∈ l, x < sz) →
      (ii = sz ∨ (ii < sz ∧ b.isReadable ii = false)) →
      b.insertLoop sz key value l ii = none ∨
      ∃ r, b.insertLoop sz key value l ii = some r ∧
        (r = sz ∨ (r < sz ∧ b.isReadable r = false)) := by
  intro l
  induction l with
  | nil =>
    intro ii hmem hii
    exact Or.inr ⟨ii, rfl, hii⟩
  | cons a rest ih =>
    intro ii hmem hii
    simp only [Bucket.insertLoop]
    by_cases h1 : b.isReadable a = true ∧ b.array.getD a default = (key, value)
    · rw [if_pos h1]
      exact Or.inl rfl
    · rw [if_neg h1]
      by_cases h2 : ¬ b.isReadable a = true
      · rw [if_pos h2]
        have hinv2 : (if ii = sz then a else ii) = sz ∨
            ((if ii = sz then a else ii) < sz ∧
              b.isReadable (if ii = sz then a else ii) = false) := by
          by_cases hiisz : ii = sz
          · rw [if_pos hiisz]
            refine Or.inr ⟨hmem a (List.mem_cons_self a rest), ?_⟩
            cases hx : b.isReadable a
            · rfl
            · exact absurd hx h2
          · rw [if_neg hiisz]
            rcases hii with h | h
            · exact absurd h hiisz
            · exact Or.inr h
        by_cases h3 : ¬ b.isOccupied a = true
        · rw [if_pos h3]
          exact Or.inr ⟨_, rfl, hinv2⟩
        · rw [if_neg h3]
          exact ih _ (fun x hx => hmem x (List.mem_cons_of_mem a hx)) hinv2
      · rw [if_neg h2]
        exact ih _ (fun x hx => hmem x (List.mem_cons_of_mem a hx)) hii

theorem insert_shape [DecidableEq K] [DecidableEq V] [Inhabited K] [Inhabited V]
    (sz : Nat) (b : Bucket K V) (key : K) (value : V) :
    b.insert sz key value = (b, false) ∨
    ∃ j, j < sz ∧ b.isReadable j = false ∧
      b.insert sz key value = (b.writeSlot j key value, true) := by
  unfold Bucket.insert
  rcases insertLoop_result sz b key value (List.range sz) sz
      (fun x hx => List.mem_range.1 hx) (Or.inl rfl) with h | ⟨r, hr, hcase⟩
  · rw [h]
    exact Or.inl rfl
  · rw [hr]
    rcases hcase with h | ⟨h1, h2⟩
    · left
      simp only [Bucket.insertFinish]
      rw [if_pos h]
    · right
      refine ⟨r, h1, h2, ?_⟩
      simp only [Bucket.insertFinish]
      rw [if_neg (by omega)]
      rfl

theorem insert_false_unchanged [DecidableEq K] [DecidableEq V] [Inhabited K] [Inhabited V]
    (sz : Nat) (b : Bucket K V) (key : K) (value : V)
    (h : (b.insert sz key value).2 = false) : (b.insert sz key value).1 = b := by
  rcases insert_shape sz b key value with hcase | ⟨j, hj1, hj2, hcase⟩
  · rw [hcase]
  · rw [hcase] at h
    exact absurd h (by simp)

theorem removeLoop_some [DecidableEq K] [DecidableEq V] [Inhabited K] [Inhabited V]
    (b : Bucket K V) (key : K) (value : V) :
    ∀ (l : List Nat) (j : Nat), b.removeLoop key value l = some j →
      j ∈ l ∧ b.isReadable j = true ∧ b.array.getD j default = (key, value) := by
  intro l
  induction l with
  | nil =>
    intro j h
    exact absurd h (by simp [Bucket.removeLoop])
  | cons a rest ih =>
    intro j h
    simp only [Bucket.removeLoop] at h
    by_cases h1 : b.isReadable a = true ∧ b.array.getD a default = (key, value)
    · rw [if_pos h1] at h
      have haj := Option.some.inj h
      subst haj
      exact ⟨List.mem_cons_self a rest, h1.1, h1.2⟩
    · rw [if_neg h1] at h
      by_cases h2 : ¬ b.isOccupied a = true
      · rw [if_pos h2] at h
        exact absurd h (by simp)
      · rw [if_neg h2] at h
        obtain ⟨hm, hr, ha⟩ := ih j h
        exact ⟨List.mem_cons_of_mem a hm, hr, ha⟩

theorem remove_shape [DecidableEq K] [DecidableEq V] [Inhabited K] [Inhabited V]
    (sz : Nat) (b : Bucket K V) (key : K) (value : V) :
    b.remove sz key value = (b, false) ∨
    ∃ j, j < sz ∧ b.isReadable j = true ∧ b.array.getD j default = (key, value) ∧
      b.remove sz key value = (b.setUnreadable j, true) := by
  unfold Bucket.remove
  rcases hl : b.removeLoop key value (List.range sz) with _ | j
  · exact Or.inl rfl
  · obtain ⟨hm, hr, ha⟩ := removeLoop_some b key value _ j hl
    exact Or.inr ⟨j, List.mem_range.1 hm, hr, ha, rfl⟩

theorem isEmpty_no_readable {sz : Nat} {b : Bucket K V} (h : b.isEmpty sz = true) :
    ∀ l, l < sz → b.isReadable l = false := by
  intro l hl
  unfold Bucket.isEmpty at h
  rw [List.all_eq_true] at h
  have hb : (b.readable.getD (l / 8) 0 == 0) = true :=
    h (l / 8) (List.mem_range.2 (by omega))
  have h0 : b.readable.getD (l / 8) 0 = 0 := by simpa using hb
  rw [isReadable_testBit, h0]
  simp

theorem prefix_insert [DecidableEq K] [DecidableEq V] [Inhabited K] [Inhabited V]
    (sz m : Nat) (b : Bucket K V) (key : K) (value : V)
    (hsh : prefixShaped sz m b) (hm : m < sz) :
    (∃ l, l < m ∧ b.array.getD l default = (key, value) ∧
      b.insert sz key value = (b, false)) ∨
    (b.insert sz key value = (b.writeSlot m key value, true) ∧
      prefixShaped sz (m + 1) (b.writeSlot m key value)) := by
  obtain ⟨hwf, hmsz, hrd, hoc⟩ := hsh
  have hro : ∀ i < sz, b.isReadable i = true → b.isOccupied i = true := by
    intro i hi hr
    rw [hoc]
    rw [hrd] at hr
    exact hr
  rw [insert_eq_insertSpec sz b key value hro]
  unfold Bucket.insertSpec
  by_cases hdup : ∃ l, l < m ∧ b.array.getD l default = (key, value)
  · obtain ⟨l, hl, ha⟩ := hdup
    left
    refine ⟨l, hl, ha, ?_⟩
    have hany : ((List.range sz).any fun i => b.specScanned sz i && b.isReadable i &&
        decide (b.array.getD i default = (key, value))) = true := by
      rw [List.any_eq_true]
      refine ⟨l, List.mem_range.2 (by omega), ?_⟩
      rw [Bool.and_eq_true, Bool.and_eq_true]
      refine ⟨⟨specScanned_iff.2 ⟨by omega, fun l2 hl2 => ?_⟩, ?_⟩, decide_eq_true ha⟩
      · rw [hoc]
        exact decide_eq_true (by omega)
      · rw [hrd]
        exact decide_eq_true (by omega)
    rw [if_pos hany]
  · right
    have hany : ((List.range sz).any fun i => b.specScanned sz i && b.isReadable i &&
        decide (b.array.getD i default = (key, value))) = false := by
      rw [← Bool.not_eq_true, List.any_eq_true]
      rintro ⟨x, hx, hP⟩
      rw [Bool.and_eq_true, Bool.and_eq_true] at hP
      have hxm : x < m := by
        have hx2 := hP.1.2
        rw [hrd] at hx2
        exact of_decide_eq_true hx2
      exact hdup ⟨x, hxm, of_decide_eq_true hP.2⟩
    have hneg : ¬ (((List.range sz).any fun i => b.specScanned sz i && b.isReadable i &&
        decide (b.array.getD i default = (key, value))) = true) := by
      rw [hany]
      simp
    rw [if_neg hneg]
    have hfind : ((List.range sz).find? fun i => b.specScanned sz i && !b.isReadable i) =
        some m := by
      apply find?_range_eq_some m sz hm
      · rw [Bool.and_eq_true]
        refine ⟨specScanned_iff.2 ⟨hm, fun l2 hl2 => ?_⟩, ?_⟩
        · rw [hoc]
          exact decide_eq_true (by omega)
        · rw [hrd]
          simp
      · intro l2 hl2
        have hr2 : b.isReadable l2 = true := by
          rw [hrd]
          exact decide_eq_true hl2
        simp [hr2]
    rw [hfind]
    have hjr : m / 8 < b.readable.length := by
      rw [(lenWF_iff.1 hwf).2.1]
      omega
    have hjo : m / 8 < b.occupied.length := by
      rw [(lenWF_iff.1 hwf).1]
      omega
    refine ⟨rfl, ?_, by omega, fun l => ?_, fun l => ?_⟩
    · rw [lenWF_writeSlot]
      exact hwf
    · rw [writeSlot_isReadable b m l key value hjr]
      by_cases h : l = m
      · rw [if_pos h]
        exact (decide_eq_true (by omega)).symm
      · rw [if_neg h, hrd]
        exact decide_eq_decide.2 (by omega)
    · rw [writeSlot_isOccupied b m l key value hjo]
      by_cases h : l = m
      · rw [if_pos h]
        exact (decide_eq_true (by omega)).symm
      · rw [if_neg h, hoc]
        exact decide_eq_decide.2 (by omega)

theorem find?_range'_some_inv {P : Nat → Bool} :
    ∀ (len s m : Nat), (List.range' s len).find? P = some m →
      s ≤ m ∧ m < s + len ∧ P m = true ∧ ∀ l, s ≤ l → l < m → P l = false := by
  intro len
  induction len with
  | zero =>
    intro s m h
    exact absurd h (by simp)
  | succ n ih =>
    intro s m h
    rw [List.range'_succ, List.find?_cons] at h
    cases hs : P s
    · simp only [hs] at h
      obtain ⟨h1, h2, h3, h4⟩ := ih (s + 1) m h
      refine ⟨by omega, by omega, h3, ?_⟩
      intro l hl1 hl2
      rcases Nat.lt_or_ge l (s + 1) with h5 | h5
      · have hls : l = s := by omega
        rw [hls]
        exact hs
      · exact h4 l h5 hl2
    · simp only [hs] at h
      have hsm := Option.some.inj h
      subst hsm
      exact ⟨Nat.le_refl s, by omega, hs, fun l hl1 hl2 => absurd hl2 (by omega)⟩

theorem find?_range_some_inv {P : Nat → Bool} (n m : Nat)
    (h : (List.range n).find? P = some m) :
    m < n ∧ P m = true ∧ ∀ l, l < m → P l = false := by
  rw [List.range_eq_range'] at h
  obtain ⟨h1, h2, h3, h4⟩ := find?_range'_some_inv n 0 m h
  exact ⟨by omega, h3, fun l hl => h4 l (Nat.zero_le l) hl⟩

theorem insert_success_spec [DecidableEq K] [DecidableEq V] [Inhabited K] [Inhabited V]
    (sz : Nat) (b : Bucket K V) (key : K) (value : V)
    (hro : ∀ i < sz, b.isReadable i = true → b.isOccupied i = true)
    (hsucc : (b.insert sz key value).2 = true) :
    ∃ j, j < sz ∧ b.isReadable j = false ∧ (∀ l, l < j → b.isOccupied l = true) ∧
      b.insert sz key value = (b.writeSlot j key value, true) := by
  have heq := insert_eq_insertSpec sz b key value hro
  rw [heq] at hsucc
  unfold Bucket.insertSpec at hsucc
  by_cases hany : ((List.range sz).any fun i => b.specScanned sz i && b.isReadable i &&
      decide (b.array.getD i default = (key, value))) = true
  · rw [if_pos hany] at hsucc
    exact absurd hsucc (by simp)
  · rw [if_neg hany] at hsucc
    rcases hf : ((List.range sz).find? fun i => b.specScanned sz i && !b.isReadable i)
        with _ | j
    · rw [hf] at hsucc
      exact absurd hsucc (by simp)
    · rw [hf] at hsucc
      obtain ⟨hj1, hj2, hj3⟩ := find?_range_some_inv sz j hf
      rw [Bool.and_eq_true] at hj2
      refine ⟨j, hj1, ?_, fun l hl => (specScanned_iff.1 hj2.1).2 l hl, ?_⟩
      · have hnr := hj2.2
        cases hx : b.isReadable j
        · rfl
        · rw [hx] at hnr
          exact absurd hnr (by simp)
      · rw [heq]
        unfold Bucket.insertSpec
        rw [if_neg hany, hf]
        rfl


/-! ## The full-bucket branch of SplitInsert, exposed -/

/-- On the full-bucket branch, `SplitInsert` equals the explicit computation:
final directory `splitDir2`, redistribution `splitRd` started from the zeroed
new page, buckets written back at the old and new page ids. -/
theorem splitInsert_full_eq [DecidableEq K] [DecidableEq V] [Inhabited K] [Inhabited V]
    (hashFn : K → Nat) (sz : Nat) (t : TableState K V) (key : K) (value : V)
    (hfull : (fetchBucket sz t (keyToPageId hashFn t key)).isFull sz = true) :
    splitInsert hashFn sz t key value =
      ({ dir := splitDir2 hashFn t key
         buckets := ((t.buckets ++ [Bucket.empty K V sz]).set (keyToPageId hashFn t key)
             (splitResult hashFn sz t key value).1.1).set t.buckets.length
           (splitResult hashFn sz t key value).1.2
         freed := t.freed }, (splitResult hashFn sz t key value).2) := by
  simp only [splitInsert]
  rw [if_neg (not_not_intro hfull)]
  have hfe : fetchBucket sz { t with buckets := t.buckets ++ [Bucket.empty K V sz] }
      t.buckets.length = Bucket.empty K V sz := by
    show (t.buckets ++ [Bucket.empty K V sz]).getD t.buckets.length (Bucket.empty K V sz) =
      Bucket.empty K V sz
    exact getD_concat_length _ _ _
  rw [hfe]
  rfl

/-- The directory of the full-bucket branch is `splitDir2`. -/
theorem splitInsert_dir_eq [DecidableEq K] [DecidableEq V] [Inhabited K] [Inhabited V]
    (hashFn : K → Nat) (sz : Nat) (t : TableState K V) (key : K) (value : V)
    (hfull : (fetchBucket sz t (keyToPageId hashFn t key)).isFull sz = true) :
    (splitInsert hashFn sz t key value).1.dir = splitDir2 hashFn t key := by
  rw [splitInsert_full_eq hashFn sz t key value hfull]

/-- How `SplitInsert` reroutes a key `q`: a key routed to a different bucket
keeps its page id; a key routed to the split bucket ends on the old or the
new page. -/
theorem splitInsert_route [DecidableEq K] [DecidableEq V] [Inhabited K] [Inhabited V]
    (hashFn : K → Nat) (sz : Nat) (t : TableState K V) (key : K) (value : V) (q : K)
    (hfull : (fetchBucket sz t (keyToPageId hashFn t key)).isFull sz = true) :
    (keyToPageId hashFn t q ≠ keyToPageId hashFn t key →
      keyToPageId hashFn (splitInsert hashFn sz t key value).1 q =
        keyToPageId hashFn t q) ∧
    (keyToPageId hashFn t q = keyToPageId hashFn t key →
      keyToPageId hashFn (splitInsert hashFn sz t key value).1 q =
        keyToPageId hashFn t key ∨
      keyToPageId hashFn (splitInsert hashFn sz t key value).1 q = t.buckets.length) := by
  by_cases hdD : t.dir.localDepths (keyToDirectoryIndex hashFn t key) < t.dir.globalDepth
  · obtain ⟨hfreed, hlen, hgd, hpids, hlds⟩ :=
      splitInsert_spec_noGrow hashFn sz t key value hfull hdD
    have hidx : keyToDirectoryIndex hashFn (splitInsert hashFn sz t key value).1 q =
        keyToDirectoryIndex hashFn t q := by
      unfold keyToDirectoryIndex Directory.globalDepthMask
      rw [hgd]
    have hbase : keyToPageId hashFn (splitInsert hashFn sz t key value).1 q =
        (splitInsert hashFn sz t key value).1.dir.bucketPageIds
          (keyToDirectoryIndex hashFn t q) := by
      show (splitInsert hashFn sz t key value).1.dir.bucketPageIds
          (keyToDirectoryIndex hashFn (splitInsert hashFn sz t key value).1 q) = _
      rw [hidx]
    constructor
    · intro hne
      rw [hbase, hpids (keyToDirectoryIndex hashFn t q)]
      rw [if_neg (fun hcon => hne hcon.2.1)]
      rfl
    · intro heq
      rw [hbase, hpids (keyToDirectoryIndex hashFn t q)]
      by_cases hcls : keyToDirectoryIndex hashFn t q %
          2 ^ (t.dir.localDepths (keyToDirectoryIndex hashFn t key) + 1) =
          keyToDirectoryIndex hashFn t key %
            2 ^ (t.dir.localDepths (keyToDirectoryIndex hashFn t key) + 1)
      · rw [if_neg (fun hcon => hcon.2.2 hcls)]
        exact Or.inl heq
      · rw [if_pos ⟨keyToDirectoryIndex_lt hashFn t q, heq, hcls⟩]
        exact Or.inr rfl
  · obtain ⟨hfreed, hlen, hgd, hlow, hhigh⟩ :=
      splitInsert_spec_grow hashFn sz t key value hfull hdD
    have hS : t.dir.size = 2 ^ t.dir.globalDepth := rfl
    have h2S : t.dir.size + t.dir.size = 2 ^ (t.dir.globalDepth + 1) := by
      rw [hS, Nat.pow_succ]
      omega
    have hbase : keyToPageId hashFn (splitInsert hashFn sz t key value).1 q =
        (splitInsert hashFn sz t key value).1.dir.bucketPageIds
          (hash32 hashFn q % 2 ^ (t.dir.globalDepth + 1)) := by
      show (splitInsert hashFn sz t key value).1.dir.bucketPageIds
          (hash32 hashFn q &&&
            (2 ^ (splitInsert hashFn sz t key value).1.dir.globalDepth - 1)) = _
      rw [hgd, and_mask_mod]
    have hIq : keyToDirectoryIndex hashFn t q = hash32 hashFn q % 2 ^ t.dir.globalDepth := by
      show hash32 hashFn q &&& (2 ^ t.dir.globalDepth - 1) = _
      rw [and_mask_mod]
    have hmm : hash32 hashFn q % 2 ^ (t.dir.globalDepth + 1) % 2 ^ t.dir.globalDepth =
        hash32 hashFn q % 2 ^ t.dir.globalDepth :=
      Nat.mod_mod_of_dvd _ (pow_dvd_pow 2 (Nat.le_succ _))
    have hI2lt : hash32 hashFn q % 2 ^ (t.dir.globalDepth + 1) < 2 ^ (t.dir.globalDepth + 1) :=
      Nat.mod_lt _ (Nat.two_pow_pos _)
    rcases Nat.lt_or_ge (hash32 hashFn q % 2 ^ (t.dir.globalDepth + 1)) t.dir.size with
      hlo2 | hhi2
    · have hIeq : hash32 hashFn q % 2 ^ (t.dir.globalDepth + 1) =
          keyToDirectoryIndex hashFn t q := by
        rw [hIq, ← hmm]
        exact (Nat.mod_eq_of_lt (hS ▸ hlo2)).symm
      have hmain : keyToPageId hashFn (splitInsert hashFn sz t key value).1 q =
          keyToPageId hashFn t q := by
        rw [hbase, hIeq]
        exact (hlow _ (hIeq ▸ hlo2)).1
      exact ⟨fun _ => hmain, fun heq => Or.inl (hmain.trans heq)⟩
    · have hsub : hash32 hashFn q % 2 ^ (t.dir.globalDepth + 1) - t.dir.size =
          keyToDirectoryIndex hashFn t q := by
        rw [hIq, ← hmm]
        have hlt2 : hash32 hashFn q % 2 ^ (t.dir.globalDepth + 1) - t.dir.size <
            2 ^ t.dir.globalDepth := by omega
        have hdecomp : hash32 hashFn q % 2 ^ (t.dir.globalDepth + 1) =
            (hash32 hashFn q % 2 ^ (t.dir.globalDepth + 1) - t.dir.size) +
              2 ^ t.dir.globalDepth := by omega
        conv_rhs => rw [hdecomp]
        rw [add_pow_mod _ _ _ (Nat.le_refl _), Nat.mod_eq_of_lt hlt2]
      have hup := (hhigh (hash32 hashFn q % 2 ^ (t.dir.globalDepth + 1)) hhi2
        (by omega)).1
      rw [hsub] at hup
      constructor
      · intro hne
        rw [hbase, hup]
        rw [if_neg (fun hcon : t.dir.bucketPageIds (keyToDirectoryIndex hashFn t q) =
          keyToPageId hashFn t key => hne hcon)]
        rfl
      · intro heq
        rw [hbase, hup]
        rw [if_pos (show t.dir.bucketPageIds (keyToDirectoryIndex hashFn t q) =
          keyToPageId hashFn t key from heq)]
        exact Or.inr rfl


/-! ## Locating pages in the state written back by the full-bucket branch -/

theorem keyToPageId_expr (hashFn : K → Nat) (t : TableState K V) (q : K) :
    keyToPageId hashFn t q =
      t.dir.bucketPageIds (hash32 hashFn q &&& t.dir.globalDepthMask) := rfl

theorem splitInsert_keyToPageId [DecidableEq K] [DecidableEq V] [Inhabited K] [Inhabited V]
    (hashFn : K → Nat) (sz : Nat) (t : TableState K V) (key : K) (value : V) (q : K)
    (hfull : (fetchBucket sz t (keyToPageId hashFn t key)).isFull sz = true) :
    keyToPageId hashFn (splitInsert hashFn sz t key value).1 q =
      (splitDir2 hashFn t key).bucketPageIds
        (hash32 hashFn q &&& (splitDir2 hashFn t key).globalDepthMask) := by
  rw [keyToPageId_expr, splitInsert_dir_eq hashFn sz t key value hfull]

theorem concat_getD_ne {α : Type} (x d : α) :
    ∀ (l : List α) (p : Nat), p ≠ l.length → (l ++ [x]).getD p d = l.getD p d := by
  intro l
  induction l with
  | nil =>
    intro p hp
    cases p with
    | zero => exact absurd rfl hp
    | succ n => simp [List.getD]
  | cons a ts ih =>
    intro p hp
    cases p with
    | zero => rfl
    | succ n =>
      have hlen : n ≠ ts.length := by simpa using hp
      show (ts ++ [x]).getD n d = ts.getD n d
      exact ih n hlen

theorem splitInsert_buckets_length [DecidableEq K] [DecidableEq V] [Inhabited K]
    [Inhabited V] (hashFn : K → Nat) (sz : Nat) (t : TableState K V) (key : K) (value : V)
    (hfull : (fetchBucket sz t (keyToPageId hashFn t key)).isFull sz = true) :
    (splitInsert hashFn sz t key value).1.buckets.length = t.buckets.length + 1 := by
  rw [splitInsert_full_eq hashFn sz t key value hfull]
  show (((t.buckets ++ [Bucket.empty K V sz]).set _ _).set _ _).length = _
  rw [List.length_set, List.length_set, List.length_append]
  rfl

theorem fetch_split_new [DecidableEq K] [DecidableEq V] [Inhabited K] [Inhabited V]
    (hashFn : K → Nat) (sz : Nat) (t : TableState K V) (key : K) (value : V)
    (hfull : (fetchBucket sz t (keyToPageId hashFn t key)).isFull sz = true) :
    fetchBucket sz (splitInsert hashFn sz t key value).1 t.buckets.length =
      (splitResult hashFn sz t key value).1.2 := by
  rw [splitInsert_full_eq hashFn sz t key value hfull]
  show (((t.buckets ++ [Bucket.empty K V sz]).set (keyToPageId hashFn t key)
      (splitResult hashFn sz t key value).1.1).set t.buckets.length
      (splitResult hashFn sz t key value).1.2).getD t.buckets.length
      (Bucket.empty K V sz) = _
  rw [getD_set]
  have hb1 : t.buckets.length < ((t.buckets ++ [Bucket.empty K V sz]).set
      (keyToPageId hashFn t key) (splitResult hashFn sz t key value).1.1).length := by
    rw [List.length_set, List.length_append]
    show t.buckets.length < t.buckets.length + 1
    exact Nat.lt_succ_self _
  rw [if_pos (And.intro (rfl : t.buckets.length = t.buckets.length) hb1)]

theorem fetch_split_old [DecidableEq K] [DecidableEq V] [Inhabited K] [Inhabited V]
    (hashFn : K → Nat) (sz : Nat) (t : TableState K V) (key : K) (value : V)
    (hfull : (fetchBucket sz t (keyToPageId hashFn t key)).isFull sz = true)
    (hop : keyToPageId hashFn t key < t.buckets.length) :
    fetchBucket sz (splitInsert hashFn sz t key value).1 (keyToPageId hashFn t key) =
      (splitResult hashFn sz t key value).1.1 := by
  rw [splitInsert_full_eq hashFn sz t key value hfull]
  show (((t.buckets ++ [Bucket.empty K V sz]).set (keyToPageId hashFn t key)
      (splitResult hashFn sz t key value).1.1).set t.buckets.length
      (splitResult hashFn sz t key value).1.2).getD (keyToPageId hashFn t key)
      (Bucket.empty K V sz) = _
  rw [getD_set]
  rw [if_neg (fun hcon => absurd hcon.1 (by omega))]
  rw [getD_set]
  have hb2 : keyToPageId hashFn t key < (t.buckets ++ [Bucket.empty K V sz]).length := by
    rw [List.length_append]
    exact Nat.lt_of_lt_of_le hop (Nat.le_add_right _ _)
  rw [if_pos (And.intro (rfl : keyToPageId hashFn t key = keyToPageId hashFn t key) hb2)]

theorem fetch_split_other [DecidableEq K] [DecidableEq V] [Inhabited K] [Inhabited V]
    (hashFn : K → Nat) (sz : Nat) (t : TableState K V) (key : K) (value : V) (p : Nat)
    (hfull : (fetchBucket sz t (keyToPageId hashFn t key)).isFull sz = true)
    (hp1 : p ≠ keyToPageId hashFn t key) (hp2 : p ≠ t.buckets.length) :
    fetchBucket sz (splitInsert hashFn sz t key value).1 p = fetchBucket sz t p := by
  rw [splitInsert_full_eq hashFn sz t key value hfull]
  show (((t.buckets ++ [Bucket.empty K V sz]).set (keyToPageId hashFn t key)
      (splitResult hashFn sz t key value).1.1).set t.buckets.length
      (splitResult hashFn sz t key value).1.2).getD p (Bucket.empty K V sz) = _
  rw [getD_set]
  rw [if_neg (fun hcon => hp2 hcon.1.symm)]
  rw [getD_set]
  rw [if_neg (fun hcon => hp1 hcon.1.symm)]
  exact concat_getD_ne _ _ _ _ hp2

theorem splitResult_retry_old [DecidableEq K] [DecidableEq V] [Inhabited K] [Inhabited V]
    (hashFn : K → Nat) (sz : Nat) (t : TableState K V) (key : K) (value : V)
    (hr : (splitDir2 hashFn t key).bucketPageIds
        (hash32 hashFn key &&& (splitDir2 hashFn t key).globalDepthMask) =
      keyToPageId hashFn t key) :
    splitResult hashFn sz t key value =
      ((((splitRd hashFn sz (splitDir2 hashFn t key) t.buckets.length
          (fetchBucket sz t (keyToPageId hashFn t key))).1.insert sz key value).1,
        (splitRd hashFn sz (splitDir2 hashFn t key) t.buckets.length
          (fetchBucket sz t (keyToPageId hashFn t key))).2),
       ((splitRd hashFn sz (splitDir2 hashFn t key) t.buckets.length
          (fetchBucket sz t (keyToPageId hashFn t key))).1.insert sz key value).2) := by
  simp only [splitResult]
  rw [if_pos hr]

theorem splitResult_retry_new [DecidableEq K] [DecidableEq V] [Inhabited K] [Inhabited V]
    (hashFn : K → Nat) (sz : Nat) (t : TableState K V) (key : K) (value : V)
    (hr : ¬ (splitDir2 hashFn t key).bucketPageIds
        (hash32 hashFn key &&& (splitDir2 hashFn t key).globalDepthMask) =
      keyToPageId hashFn t key) :
    splitResult hashFn sz t key value =
      (((splitRd hashFn sz (splitDir2 hashFn t key) t.buckets.length
          (fetchBucket sz t (keyToPageId hashFn t key))).1,
        ((splitRd hashFn sz (splitDir2 hashFn t key) t.buckets.length
          (fetchBucket sz t (keyToPageId hashFn t key))).2.insert sz key value).1),
       ((splitRd hashFn sz (splitDir2 hashFn t key) t.buckets.length
          (fetchBucket sz t (keyToPageId hashFn t key))).2.insert sz key value).2) := by
  simp only [splitResult]
  rw [if_neg hr]

theorem splitInsert_flag_eq [DecidableEq K] [DecidableEq V] [Inhabited K] [Inhabited V]
    (hashFn : K → Nat) (sz : Nat) (t : TableState K V) (key : K) (value : V)
    (hfull : (fetchBucket sz t (keyToPageId hashFn t key)).isFull sz = true) :
    (splitInsert hashFn sz t key value).2 = (splitResult hashFn sz t key value).2 := by
  rw [splitInsert_full_eq hashFn sz t key value hfull]


/-! ## What the redistribution loop does to the two bucket pages -/

theorem splitRdAux [DecidableEq K] [DecidableEq V] [Inhabited K] [Inhabited V]
    (hashFn : K → Nat) (sz : Nat) (D2 : Directory) (newPid : Nat) (oldB : Bucket K V)
    (f : Nat → Bucket K V × Bucket K V → Bucket K V × Bucket K V)
    (hf : ∀ i p, f i p =
      if D2.bucketPageIds (hash32 hashFn (p.1.keyAt i) &&& D2.globalDepthMask) = newPid then
        (p.1.removeAt i, (p.2.insert sz (p.1.keyAt i) (p.1.valueAt i)).1)
      else p)
    (hwf : oldB.lenWF sz = true) :
    ∀ j, j ≤ sz →
      (loopN j f (oldB, Bucket.empty K V sz)).1.array = oldB.array ∧
      (∀ l, (loopN j f (oldB, Bucket.empty K V sz)).1.isOccupied l = oldB.isOccupied l) ∧
      (loopN j f (oldB, Bucket.empty K V sz)).1.lenWF sz = true ∧
      (∀ l, j ≤ l →
        (loopN j f (oldB, Bucket.empty K V sz)).1.isReadable l = oldB.isReadable l) ∧
      (∀ l, (loopN j f (oldB, Bucket.empty K V sz)).1.isReadable l = true →
        oldB.isReadable l = true) ∧
      ∃ m, m ≤ j ∧ prefixShaped sz m (loopN j f (oldB, Bucket.empty K V sz)).2 ∧
        (∀ i2, i2 < j → oldB.isReadable i2 = true →
          D2.bucketPageIds (hash32 hashFn (oldB.keyAt i2) &&& D2.globalDepthMask) = newPid →
          ∃ m2, m2 < m ∧ (loopN j f (oldB, Bucket.empty K V sz)).2.array.getD m2 default =
            oldB.array.getD i2 default) ∧
        (∀ i2, i2 < j → oldB.isReadable i2 = true →
          ¬ D2.bucketPageIds (hash32 hashFn (oldB.keyAt i2) &&& D2.globalDepthMask) = newPid →
          (loopN j f (oldB, Bucket.empty K V sz)).1.isReadable i2 = true) := by
  intro j
  induction j with
  | zero =>
    intro _
    refine ⟨rfl, fun l => rfl, hwf, fun l _ => rfl, fun l h => h, 0, Nat.le_refl 0,
      prefixShaped_empty sz, fun i2 hi2 => absurd hi2 (by omega),
      fun i2 hi2 => absurd hi2 (by omega)⟩
  | succ j ih =>
    intro hj1
    obtain ⟨hA, hO, hW, hD, hE, m, hm, hpre, htrack, hkeep⟩ := ih (by omega)
    set P := loopN j f (oldB, Bucket.empty K V sz) with hP
    have hky : P.1.keyAt j = oldB.keyAt j := by
      unfold Bucket.keyAt
      rw [hD j (Nat.le_refl j), hA]
    have hval : P.1.valueAt j = oldB.valueAt j := by
      unfold Bucket.valueAt
      rw [hD j (Nat.le_refl j), hA]
    have hstep0 : loopN (j + 1) f (oldB, Bucket.empty K V sz) = f j P := loopN_succ j f _
    by_cases hc : D2.bucketPageIds (hash32 hashFn (oldB.keyAt j) &&& D2.globalDepthMask) =
        newPid
    · have hstep : loopN (j + 1) f (oldB, Bucket.empty K V sz) =
          (P.1.removeAt j, (P.2.insert sz (oldB.keyAt j) (oldB.valueAt j)).1) := by
        rw [hstep0, hf j P, hky, hval, if_pos hc]
      have h1 : (loopN (j + 1) f (oldB, Bucket.empty K V sz)).1 = P.1.removeAt j := by
        rw [hstep]
      have h2 : (loopN (j + 1) f (oldB, Bucket.empty K V sz)).2 =
          (P.2.insert sz (oldB.keyAt j) (oldB.valueAt j)).1 := by
        rw [hstep]
      have hres : ((P.2.insert sz (oldB.keyAt j) (oldB.valueAt j)).1 = P.2 ∧
          ∃ l, l < m ∧ P.2.array.getD l default = (oldB.keyAt j, oldB.valueAt j)) ∨
          ((P.2.insert sz (oldB.keyAt j) (oldB.valueAt j)).1 =
            P.2.writeSlot m (oldB.keyAt j) (oldB.valueAt j) ∧
            prefixShaped sz (m + 1) (P.2.writeSlot m (oldB.keyAt j) (oldB.valueAt j))) := by
        rcases prefix_insert sz m P.2 (oldB.keyAt j) (oldB.valueAt j) hpre (by omega) with
          ⟨l, hl, hdup, hins⟩ | ⟨hins, hpre2⟩
        · left
          rw [hins]
          exact ⟨rfl, l, hl, hdup⟩
        · right
          rw [hins]
          exact ⟨rfl, hpre2⟩
      refine ⟨?_, ?_, ?_, ?_, ?_, ?_⟩
      · rw [h1]
        show (P.1.setUnreadable j).array = oldB.array
        rw [array_setUnreadable, hA]
      · intro l
        rw [h1]
        show (P.1.setUnreadable j).isOccupied l = oldB.isOccupied l
        rw [isOccupied_setUnreadable, hO]
      · rw [h1]
        show (P.1.setUnreadable j).lenWF sz = true
        rw [lenWF_setUnreadable]
        exact hW
      · intro l hl
        rw [h1]
        show (P.1.setUnreadable j).isReadable l = oldB.isReadable l
        rw [isReadable_setUnreadable, if_neg (by omega : ¬ l = j)]
        exact hD l (by omega)
      · intro l hl
        rw [h1] at hl
        have hl2 : (P.1.setUnreadable j).isReadable l = true := hl
        rw [isReadable_setUnreadable] at hl2
        by_cases hlj : l = j
        · rw [if_pos hlj] at hl2
          exact absurd hl2 (by simp)
        · rw [if_neg hlj] at hl2
          exact hE l hl2
      · rcases hres with ⟨hB2, l, hl, hdup⟩ | ⟨hB2, hpre2⟩
        · refine ⟨m, by omega, ?_, ?_, ?_⟩
          · rw [h2, hB2]
            exact hpre
          · intro i2 hi2 hr2 hmv
            rw [h2, hB2]
            rcases Nat.lt_succ_iff_lt_or_eq.1 hi2 with hlt | heq2
            · exact htrack i2 hlt hr2 hmv
            · subst heq2
              refine ⟨l, hl, ?_⟩
              rw [hdup]
              unfold Bucket.keyAt Bucket.valueAt
              rw [if_pos hr2, if_pos hr2]
          · intro i2 hi2 hr2 hnm
            rw [h1]
            rcases Nat.lt_succ_iff_lt_or_eq.1 hi2 with hlt | heq2
            · show (P.1.setUnreadable j).isReadable i2 = true
              rw [isReadable_setUnreadable, if_neg (by omega : ¬ i2 = j)]
              exact hkeep i2 hlt hr2 hnm
            · subst heq2
              exact absurd hc hnm
        · have harr : P.2.array.length = sz := (lenWF_iff.1 hpre.1).2.2
          refine ⟨m + 1, by omega, ?_, ?_, ?_⟩
          · rw [h2, hB2]
            exact hpre2
          · intro i2 hi2 hr2 hmv
            rw [h2, hB2, writeSlot_array]
            rcases Nat.lt_succ_iff_lt_or_eq.1 hi2 with hlt | heq2
            · obtain ⟨m2, hm2, hget⟩ := htrack i2 hlt hr2 hmv
              refine ⟨m2, by omega, ?_⟩
              rw [getD_set, if_neg (fun hcon => absurd hcon.1 (by omega))]
              exact hget
            · subst heq2
              refine ⟨m, by omega, ?_⟩
              rw [getD_set, if_pos ⟨rfl, by omega⟩]
              unfold Bucket.keyAt Bucket.valueAt
              rw [if_pos hr2, if_pos hr2]
          · intro i2 hi2 hr2 hnm
            rw [h1]
            rcases Nat.lt_succ_iff_lt_or_eq.1 hi2 with hlt | heq2
            · show (P.1.setUnreadable j).isReadable i2 = true
              rw [isReadable_setUnreadable, if_neg (by omega : ¬ i2 = j)]
              exact hkeep i2 hlt hr2 hnm
            · subst heq2
              exact absurd hc hnm
    · have hstep : loopN (j + 1) f (oldB, Bucket.empty K V sz) = P := by
        rw [hstep0, hf j P, hky, hval, if_neg hc]
      rw [hstep]
      refine ⟨hA, hO, hW, fun l hl => hD l (by omega), hE, m, by omega, hpre, ?_, ?_⟩
      · intro i2 hi2 hr2 hmv
        rcases Nat.lt_succ_iff_lt_or_eq.1 hi2 with hlt | heq2
        · exact htrack i2 hlt hr2 hmv
        · subst heq2
          exact absurd hmv hc
      · intro i2 hi2 hr2 hnm
        rcases Nat.lt_succ_iff_lt_or_eq.1 hi2 with hlt | heq2
        · exact hkeep i2 hlt hr2 hnm
        · subst heq2
          rw [hD i2 (Nat.le_refl i2)]
          exact hr2


theorem splitRd_facts [DecidableEq K] [DecidableEq V] [Inhabited K] [Inhabited V]
    (hashFn : K → Nat) (sz : Nat) (D2 : Directory) (newPid : Nat) (oldB : Bucket K V)
    (hwf : oldB.lenWF sz = true) :
    (splitRd hashFn sz D2 newPid oldB).1.array = oldB.array ∧
    (∀ l, (splitRd hashFn sz D2 newPid oldB).1.isOccupied l = oldB.isOccupied l) ∧
    (splitRd hashFn sz D2 newPid oldB).1.lenWF sz = true ∧
    (∀ l, (splitRd hashFn sz D2 newPid oldB).1.isReadable l = true →
      oldB.isReadable l = true) ∧
    (splitRd hashFn sz D2 newPid oldB).2.lenWF sz = true ∧
    (∀ i, (splitRd hashFn sz D2 newPid oldB).2.isReadable i = true →
      (splitRd hashFn sz D2 newPid oldB).2.isOccupied i = true) ∧
    (∀ i2, i2 < sz → oldB.isReadable i2 = true →
      (D2.bucketPageIds (hash32 hashFn (oldB.keyAt i2) &&& D2.globalDepthMask) = newPid →
        ∃ m2, m2 < sz ∧ (splitRd hashFn sz D2 newPid oldB).2.isReadable m2 = true ∧
          (splitRd hashFn sz D2 newPid oldB).2.array.getD m2 default =
            oldB.array.getD i2 default ∧
          ∀ l, l < m2 → (splitRd hashFn sz D2 newPid oldB).2.isOccupied l = true) ∧
      (¬ D2.bucketPageIds (hash32 hashFn (oldB.keyAt i2) &&& D2.globalDepthMask) = newPid →
        (splitRd hashFn sz D2 newPid oldB).1.isReadable i2 = true)) := by
  have haux := splitRdAux hashFn sz D2 newPid oldB
    (fun i p =>
      let bucketKey := p.1.keyAt i
      let bucketValue := p.1.valueAt i
      let bpid := D2.bucketPageIds (hash32 hashFn bucketKey &&& D2.globalDepthMask)
      if bpid = newPid then (p.1.removeAt i, (p.2.insert sz bucketKey bucketValue).1)
      else p)
    (fun i p => rfl) hwf sz (Nat.le_refl sz)
  have hsp : splitRd hashFn sz D2 newPid oldB = loopN sz
      (fun i p =>
        let bucketKey := p.1.keyAt i
        let bucketValue := p.1.valueAt i
        let bpid := D2.bucketPageIds (hash32 hashFn bucketKey &&& D2.globalDepthMask)
        if bpid = newPid then (p.1.removeAt i, (p.2.insert sz bucketKey bucketValue).1)
        else p) (oldB, Bucket.empty K V sz) := rfl
  rw [← hsp] at haux
  obtain ⟨hA, hO, hW, hD, hE, m, hm, ⟨hwf2, hmsz, hrd2, hoc2⟩, htrack, hkeep⟩ := haux
  refine ⟨hA, hO, hW, hE, hwf2, ?_, ?_⟩
  · intro i hi
    rw [hoc2 i]
    rw [hrd2 i] at hi
    exact hi
  · intro i2 hi2 hr2
    constructor
    · intro hmv
      obtain ⟨m2, hm2, hget⟩ := htrack i2 hi2 hr2 hmv
      refine ⟨m2, by omega, ?_, hget, ?_⟩
      · rw [hrd2 m2]
        simp only [decide_eq_true_eq]
        omega
      · intro l hl
        rw [hoc2 l]
        simp only [decide_eq_true_eq]
        omega
    · intro hnm
      exact hkeep i2 hi2 hr2 hnm

/-! ## Presence through a bucket-page Insert -/

theorem writeSlot_bounds {sz : Nat} (b : Bucket K V) (j : Nat)
    (hwf : b.lenWF sz = true) (hj : j < sz) :
    j / 8 < b.readable.length ∧ j / 8 < b.occupied.length := by
  obtain ⟨ho, hr, ha⟩ := lenWF_iff.1 hwf
  have hle : j / 8 ≤ (sz - 1) / 8 := Nat.div_le_div_right (by omega)
  rw [ho, hr]
  omega

theorem insert_keep [DecidableEq K] [DecidableEq V] [Inhabited K] [Inhabited V]
    (sz : Nat) (b : Bucket K V) (key : K) (value : V) (qk : K) (qv : V)
    (hwf : b.lenWF sz = true)
    (i : Nat) (hi : i < sz) (hr : b.isReadable i = true)
    (ha : b.array.getD i default = (qk, qv))
    (hocc : ∀ l, l < i → b.isOccupied l = true) :
    (b.insert sz key value).1.isReadable i = true ∧
    (b.insert sz key value).1.array.getD i default = (qk, qv) ∧
    (∀ l, l < i → (b.insert sz key value).1.isOccupied l = true) := by
  rcases insert_shape sz b key value with hcase | ⟨j, hj, hjr, hcase⟩
  · rw [hcase]
    exact ⟨hr, ha, hocc⟩
  · rw [hcase]
    have hij : ¬ i = j := fun hcon => by
      rw [hcon] at hr
      rw [hr] at hjr
      exact absurd hjr (by simp)
    obtain ⟨hbr, hbo⟩ := writeSlot_bounds b j hwf hj
    refine ⟨?_, ?_, ?_⟩
    · rw [writeSlot_isReadable b j i key value hbr, if_neg hij]
      exact hr
    · rw [writeSlot_array, getD_set, if_neg (fun hcon => hij hcon.1.symm)]
      exact ha
    · intro l hl
      rw [writeSlot_isOccupied b j l key value hbo]
      by_cases hlj : l = j
      · rw [if_pos hlj]
      · rw [if_neg hlj]
        exact hocc l hl

theorem insert_wf [DecidableEq K] [DecidableEq V] [Inhabited K] [Inhabited V]
    (sz : Nat) (b : Bucket K V) (key : K) (value : V)
    (hwf : b.lenWF sz = true)
    (hro : ∀ i, i < sz → b.isReadable i = true → b.isOccupied i = true) :
    (b.insert sz key value).1.lenWF sz = true ∧
    (∀ i, i < sz → (b.insert sz key value).1.isReadable i = true →
      (b.insert sz key value).1.isOccupied i = true) := by
  rcases insert_shape sz b key value with hcase | ⟨j, hj, hjr, hcase⟩
  · rw [hcase]
    exact ⟨hwf, hro⟩
  · rw [hcase]
    obtain ⟨hbr, hbo⟩ := writeSlot_bounds b j hwf hj
    refine ⟨?_, ?_⟩
    · rw [lenWF_writeSlot]
      exact hwf
    · exact rdImpOcc_writeSlot b j key value (fun i hi hri => hro i hi hri) hbr hbo

theorem insert_establish [DecidableEq K] [DecidableEq V] [Inhabited K] [Inhabited V]
    (sz : Nat) (b : Bucket K V) (key : K) (value : V)
    (hwf : b.lenWF sz = true)
    (hro : ∀ i, i < sz → b.isReadable i = true → b.isOccupied i = true)
    (hsucc : (b.insert sz key value).2 = true) :
    ∃ i, i < sz ∧ (b.insert sz key value).1.isReadable i = true ∧
      (b.insert sz key value).1.array.getD i default = (key, value) ∧
      ∀ l, l < i → (b.insert sz key value).1.isOccupied l = true := by
  obtain ⟨j, hj, hjr, hjocc, hcase⟩ :=
    insert_success_spec sz b key value (fun i hi hri => hro i hi hri) hsucc
  obtain ⟨hbr, hbo⟩ := writeSlot_bounds b j hwf hj
  have harr : b.array.length = sz := (lenWF_iff.1 hwf).2.2
  rw [hcase]
  refine ⟨j, hj, ?_, ?_, ?_⟩
  · rw [writeSlot_isReadable b j j key value hbr, if_pos rfl]
  · rw [writeSlot_array, getD_set, if_pos ⟨rfl, by omega⟩]
  · intro l hl
    rw [writeSlot_isOccupied b j l key value hbo]
    by_cases hlj : l = j
    · rw [if_pos hlj]
    · rw [if_neg hlj]
      exact hjocc l hl


/-! ## PoolWF and presence through the table operations -/

theorem poolWF_fetch [Inhabited K] [Inhabited V] (sz : Nat) (t : TableState K V)
    (hpool : PoolWF sz t) (p : Nat) :
    (fetchBucket sz t p).lenWF sz = true ∧
    ∀ i, i < sz → (fetchBucket sz t p).isReadable i = true →
      (fetchBucket sz t p).isOccupied i = true := by
  rcases Nat.lt_or_ge p t.buckets.length with h | h
  · obtain ⟨h1, h2⟩ := hpool p h
    exact ⟨h1, fun i hi hr => rdImpOcc_pointwise h2 i hi hr⟩
  · have hf : fetchBucket sz t p = Bucket.empty K V sz := by
      show t.buckets.getD p (Bucket.empty K V sz) = _
      rw [List.getD_eq_getElem?_getD, List.getElem?_eq_none (by simpa using h)]
      rfl
    rw [hf]
    refine ⟨empty_lenWF sz, fun i hi hr => ?_⟩
    rw [empty_isReadable] at hr
    exact absurd hr (by simp)

theorem splitInsert_main [DecidableEq K] [DecidableEq V] [Inhabited K] [Inhabited V]
    (hashFn : K → Nat) (sz : Nat) (t : TableState K V) (key : K) (value : V)
    (hinv : StateInvD t) (hpool : PoolWF sz t)
    (hfull : (fetchBucket sz t (keyToPageId hashFn t key)).isFull sz = true) :
    PoolWF sz (splitInsert hashFn sz t key value).1 ∧
    (∀ qk qv, hasPairAt hashFn sz t qk qv →
      hasPairAt hashFn sz (splitInsert hashFn sz t key value).1 qk qv) ∧
    ((splitInsert hashFn sz t key value).2 = true →
      hasPairAt hashFn sz (splitInsert hashFn sz t key value).1 key value) := by
  have hop : keyToPageId hashFn t key < t.buckets.length :=
    hinv.2 (keyToDirectoryIndex hashFn t key) (keyToDirectoryIndex_lt hashFn t key)
  have hwfO := (poolWF_fetch sz t hpool (keyToPageId hashFn t key)).1
  have hroO := (poolWF_fetch sz t hpool (keyToPageId hashFn t key)).2
  obtain ⟨hA, hO, hW1, hE1, hW2, hRO2, hmoves⟩ :=
    splitRd_facts hashFn sz (splitDir2 hashFn t key) t.buckets.length
      (fetchBucket sz t (keyToPageId hashFn t key)) hwfO
  have hRO1 : ∀ i, i < sz →
      (splitRd hashFn sz (splitDir2 hashFn t key) t.buckets.length
        (fetchBucket sz t (keyToPageId hashFn t key))).1.isReadable i = true →
      (splitRd hashFn sz (splitDir2 hashFn t key) t.buckets.length
        (fetchBucket sz t (keyToPageId hashFn t key))).1.isOccupied i = true := by
    intro i hi hr
    rw [hO i]
    exact hroO i hi (hE1 i hr)
  have hlen := splitInsert_buckets_length hashFn sz t key value hfull
  have hfN := fetch_split_new hashFn sz t key value hfull
  have hfO := fetch_split_old hashFn sz t key value hfull hop
  have hflag := splitInsert_flag_eq hashFn sz t key value hfull
  by_cases hr : (splitDir2 hashFn t key).bucketPageIds
      (hash32 hashFn key &&& (splitDir2 hashFn t key).globalDepthMask) =
      keyToPageId hashFn t key
  · have hres := splitResult_retry_old hashFn sz t key value hr
    have hfN2 : fetchBucket sz (splitInsert hashFn sz t key value).1 t.buckets.length =
        (splitRd hashFn sz (splitDir2 hashFn t key) t.buckets.length
          (fetchBucket sz t (keyToPageId hashFn t key))).2 := by
      rw [hfN, hres]
    have hfO2 : fetchBucket sz (splitInsert hashFn sz t key value).1
        (keyToPageId hashFn t key) =
        ((splitRd hashFn sz (splitDir2 hashFn t key) t.buckets.length
          (fetchBucket sz t (keyToPageId hashFn t key))).1.insert sz key value).1 := by
      rw [hfO, hres]
    refine ⟨?_, ?_, ?_⟩
    · intro p hp
      rw [hlen] at hp
      by_cases hpN : p = t.buckets.length
      · subst hpN
        rw [hfN2]
        exact ⟨hW2, rdImpOcc_of_pointwise (fun i hi hrd => hRO2 i hrd)⟩
      · by_cases hpO : p = keyToPageId hashFn t key
        · subst hpO
          rw [hfO2]
          obtain ⟨hw, hpo⟩ := insert_wf sz _ key value hW1 hRO1
          exact ⟨hw, rdImpOcc_of_pointwise hpo⟩
        · rw [fetch_split_other hashFn sz t key value p hfull hpO hpN]
          exact (hpool p (by omega)).elim (fun h1 h2 => ⟨h1, h2⟩)
    · intro qk qv hhas
      have hhas2 : ∃ i, i < sz ∧
          (fetchBucket sz t (keyToPageId hashFn t qk)).isReadable i = true ∧
          (fetchBucket sz t (keyToPageId hashFn t qk)).array.getD i default = (qk, qv) ∧
          ∀ l, l < i → (fetchBucket sz t (keyToPageId hashFn t qk)).isOccupied l = true :=
        hhas
      obtain ⟨i, hi, hir, hia, hiocc⟩ := hhas2
      by_cases hqO : keyToPageId hashFn t qk = keyToPageId hashFn t key
      · rw [hqO] at hir hia hiocc
        have hkeyAt : (fetchBucket sz t (keyToPageId hashFn t key)).keyAt i = qk := by
          unfold Bucket.keyAt
          rw [if_pos hir, hia]
        by_cases hmv : (splitDir2 hashFn t key).bucketPageIds
            (hash32 hashFn qk &&& (splitDir2 hashFn t key).globalDepthMask) =
            t.buckets.length
        · have hmv2 : (splitDir2 hashFn t key).bucketPageIds
              (hash32 hashFn ((fetchBucket sz t (keyToPageId hashFn t key)).keyAt i) &&&
                (splitDir2 hashFn t key).globalDepthMask) = t.buckets.length := by
            rw [hkeyAt]
            exact hmv
          obtain ⟨m2, hm2sz, hm2r, hm2a, hm2occ⟩ := (hmoves i hi hir).1 hmv2
          have hroute : keyToPageId hashFn (splitInsert hashFn sz t key value).1 qk =
              t.buckets.length := by
            rw [splitInsert_keyToPageId hashFn sz t key value qk hfull]
            exact hmv
          show ∃ i2, i2 < sz ∧
            (fetchBucket sz (splitInsert hashFn sz t key value).1
              (keyToPageId hashFn (splitInsert hashFn sz t key value).1 qk)).isReadable i2 =
                true ∧
            (fetchBucket sz (splitInsert hashFn sz t key value).1
              (keyToPageId hashFn (splitInsert hashFn sz t key value).1 qk)).array.getD i2
                default = (qk, qv) ∧
            ∀ l, l < i2 → (fetchBucket sz (splitInsert hashFn sz t key value).1
              (keyToPageId hashFn (splitInsert hashFn sz t key value).1 qk)).isOccupied l =
                true
          rw [hroute, hfN2]
          exact ⟨m2, hm2sz, hm2r, by rw [hm2a]; exact hia, hm2occ⟩
        · have hnm2 : ¬ (splitDir2 hashFn t key).bucketPageIds
              (hash32 hashFn ((fetchBucket sz t (keyToPageId hashFn t key)).keyAt i) &&&
                (splitDir2 hashFn t key).globalDepthMask) = t.buckets.length := by
            rw [hkeyAt]
            exact hmv
          have hkeepi := (hmoves i hi hir).2 hnm2
          have hget : (splitRd hashFn sz (splitDir2 hashFn t key) t.buckets.length
              (fetchBucket sz t (keyToPageId hashFn t key))).1.array.getD i default =
              (qk, qv) := by
            rw [hA]
            exact hia
          have hocc2 : ∀ l, l < i → (splitRd hashFn sz (splitDir2 hashFn t key)
              t.buckets.length
              (fetchBucket sz t (keyToPageId hashFn t key))).1.isOccupied l = true := by
            intro l hl
            rw [hO l]
            exact hiocc l hl
          have hroute : keyToPageId hashFn (splitInsert hashFn sz t key value).1 qk =
              keyToPageId hashFn t key := by
            rcases (splitInsert_route hashFn sz t key value qk hfull).2 hqO with h | h
            · exact h
            · rw [splitInsert_keyToPageId hashFn sz t key value qk hfull] at h
              exact absurd h hmv
          obtain ⟨hkr, hka, hkocc⟩ := insert_keep sz _ key value qk qv hW1 i hi hkeepi
            hget hocc2
          show ∃ i2, i2 < sz ∧
            (fetchBucket sz (splitInsert hashFn sz t key value).1
              (keyToPageId hashFn (splitInsert hashFn sz t key value).1 qk)).isReadable i2 =
                true ∧
            (fetchBucket sz (splitInsert hashFn sz t key value).1
              (keyToPageId hashFn (splitInsert hashFn sz t key value).1 qk)).array.getD i2
                default = (qk, qv) ∧
            ∀ l, l < i2 → (fetchBucket sz (splitInsert hashFn sz t key value).1
              (keyToPageId hashFn (splitInsert hashFn sz t key value).1 qk)).isOccupied l =
                true
          rw [hroute, hfO2]
          exact ⟨i, hi, hkr, hka, hkocc⟩
      · have hroute := (splitInsert_route hashFn sz t key value qk hfull).1 hqO
        have hqN : keyToPageId hashFn t qk ≠ t.buckets.length :=
          Nat.ne_of_lt (hinv.2 (keyToDirectoryIndex hashFn t qk)
            (keyToDirectoryIndex_lt hashFn t qk))
        show ∃ i2, i2 < sz ∧
          (fetchBucket sz (splitInsert hashFn sz t key value).1
            (keyToPageId hashFn (splitInsert hashFn sz t key value).1 qk)).isReadable i2 =
              true ∧
          (fetchBucket sz (splitInsert hashFn sz t key value).1
            (keyToPageId hashFn (splitInsert hashFn sz t key value).1 qk)).array.getD i2
              default = (qk, qv) ∧
          ∀ l, l < i2 → (fetchBucket sz (splitInsert hashFn sz t key value).1
            (keyToPageId hashFn (splitInsert hashFn sz t key value).1 qk)).isOccupied l =
              true
        rw [hroute, fetch_split_other hashFn sz t key value (keyToPageId hashFn t qk)
          hfull hqO hqN]
        exact ⟨i, hi, hir, hia, hiocc⟩
    · intro hsucc
      rw [hflag, hres] at hsucc
      have hs2 : ((splitRd hashFn sz (splitDir2 hashFn t key) t.buckets.length
          (fetchBucket sz t (keyToPageId hashFn t key))).1.insert sz key value).2 = true :=
        hsucc
      obtain ⟨i, hi, hirN, hiaN, hioccN⟩ := insert_establish sz _ key value hW1 hRO1 hs2
      have hroute : keyToPageId hashFn (splitInsert hashFn sz t key value).1 key =
          keyToPageId hashFn t key := by
        rw [splitInsert_keyToPageId hashFn sz t key value key hfull]
        exact hr
      show ∃ i2, i2 < sz ∧
        (fetchBucket sz (splitInsert hashFn sz t key value).1
          (keyToPageId hashFn (splitInsert hashFn sz t key value).1 key)).isReadable i2 =
            true ∧
        (fetchBucket sz (splitInsert hashFn sz t key value).1
          (keyToPageId hashFn (splitInsert hashFn sz t key value).1 key)).array.getD i2
            default = (key, value) ∧
        ∀ l, l < i2 → (fetchBucket sz (splitInsert hashFn sz t key value).1
          (keyToPageId hashFn (splitInsert hashFn sz t key value).1 key)).isOccupied l =
            true
      rw [hroute, hfO2]
      exact ⟨i, hi, hirN, hiaN, hioccN⟩
  · have hres := splitResult_retry_new hashFn sz t key value hr
    have hfN2 : fetchBucket sz (splitInsert hashFn sz t key value).1 t.buckets.length =
        ((splitRd hashFn sz (splitDir2 hashFn t key) t.buckets.length
          (fetchBucket sz t (keyToPageId hashFn t key))).2.insert sz key value).1 := by
      rw [hfN, hres]
    have hfO2 : fetchBucket sz (splitInsert hashFn sz t key value).1
        (keyToPageId hashFn t key) =
        (splitRd hashFn sz (splitDir2 hashFn t key) t.buckets.length
          (fetchBucket sz t (keyToPageId hashFn t key))).1 := by
      rw [hfO, hres]
    have hRO2b : ∀ i, i < sz →
        (splitRd hashFn sz (splitDir2 hashFn t key) t.buckets.length
          (fetchBucket sz t (keyToPageId hashFn t key))).2.isReadable i = true →
        (splitRd hashFn sz (splitDir2 hashFn t key) t.buckets.length
          (fetchBucket sz t (keyToPageId hashFn t key))).2.isOccupied i = true :=
      fun i _ hrd => hRO2 i hrd
    refine ⟨?_, ?_, ?_⟩
    · intro p hp
      rw [hlen] at hp
      by_cases hpN : p = t.buckets.length
      · subst hpN
        rw [hfN2]
        obtain ⟨hw, hpo⟩ := insert_wf sz _ key value hW2 hRO2b
        exact ⟨hw, rdImpOcc_of_pointwise hpo⟩
      · by_cases hpO : p = keyToPageId hashFn t key
        · subst hpO
          rw [hfO2]
          exact ⟨hW1, rdImpOcc_of_pointwise hRO1⟩
        · rw [fetch_split_other hashFn sz t key value p hfull hpO hpN]
          exact (hpool p (by omega)).elim (fun h1 h2 => ⟨h1, h2⟩)
    · intro qk qv hhas
      have hhas2 : ∃ i, i < sz ∧
          (fetchBucket sz t (keyToPageId hashFn t qk)).isReadable i = true ∧
          (fetchBucket sz t (keyToPageId hashFn t qk)).array.getD i default = (qk, qv) ∧
          ∀ l, l < i → (fetchBucket sz t (keyToPageId hashFn t qk)).isOccupied l = true :=
        hhas
      obtain ⟨i, hi, hir, hia, hiocc⟩ := hhas2
      by_cases hqO : keyToPageId hashFn t qk = keyToPageId hashFn t key
      · rw [hqO] at hir hia hiocc
        have hkeyAt : (fetchBucket sz t (keyToPageId hashFn t key)).keyAt i = qk := by
          unfold Bucket.keyAt
          rw [if_pos hir, hia]
        by_cases hmv : (splitDir2 hashFn t key).bucketPageIds
            (hash32 hashFn qk &&& (splitDir2 hashFn t key).globalDepthMask) =
            t.buckets.length
        · have hmv2 : (splitDir2 hashFn t key).bucketPageIds
              (hash32 hashFn ((fetchBucket sz t (keyToPageId hashFn t key)).keyAt i) &&&
                (splitDir2 hashFn t key).globalDepthMask) = t.buckets.length := by
            rw [hkeyAt]
            exact hmv
          obtain ⟨m2, hm2sz, hm2r, hm2a, hm2occ⟩ := (hmoves i hi hir).1 hmv2
          have hroute : keyToPageId hashFn (splitInsert hashFn sz t key value).1 qk =
              t.buckets.length := by
            rw [splitInsert_keyToPageId hashFn sz t key value qk hfull]
            exact hmv
          have hget : (splitRd hashFn sz (splitDir2 hashFn t key) t.buckets.length
              (fetchBucket sz t (keyToPageId hashFn t key))).2.array.getD m2 default =
              (qk, qv) := by
            rw [hm2a]
            exact hia
          obtain ⟨hkr, hka, hkocc⟩ := insert_keep sz _ key value qk qv hW2 m2 hm2sz hm2r
            hget hm2occ
          show ∃ i2, i2 < sz ∧
            (fetchBucket sz (splitInsert hashFn sz t key value).1
              (keyToPageId hashFn (splitInsert hashFn sz t key value).1 qk)).isReadable i2 =
                true ∧
            (fetchBucket sz (splitInsert hashFn sz t key value).1
              (keyToPageId hashFn (splitInsert hashFn sz t key value).1 qk)).array.getD i2
                default = (qk, qv) ∧
            ∀ l, l < i2 → (fetchBucket sz (splitInsert hashFn sz t key value).1
              (keyToPageId hashFn (splitInsert hashFn sz t key value).1 qk)).isOccupied l =
                true
          rw [hroute, hfN2]
          exact ⟨m2, hm2sz, hkr, hka, hkocc⟩
        · have hnm2 : ¬ (splitDir2 hashFn t key).bucketPageIds
              (hash32 hashFn ((fetchBucket sz t (keyToPageId hashFn t key)).keyAt i) &&&
                (splitDir2 hashFn t key).globalDepthMask) = t.buckets.length := by
            rw [hkeyAt]
            exact hmv
          have hkeepi := (hmoves i hi hir).2 hnm2
          have hget : (splitRd hashFn sz (splitDir2 hashFn t key) t.buckets.length
              (fetchBucket sz t (keyToPageId hashFn t key))).1.array.getD i default =
              (qk, qv) := by
            rw [hA]
            exact hia
          have hocc2 : ∀ l, l < i → (splitRd hashFn sz (splitDir2 hashFn t key)
              t.buckets.length
              (fetchBucket sz t (keyToPageId hashFn t key))).1.isOccupied l = true := by
            intro l hl
            rw [hO l]
            exact hiocc l hl
          have hroute : keyToPageId hashFn (splitInsert hashFn sz t key value).1 qk =
              keyToPageId hashFn t key := by
            rcases (splitInsert_route hashFn sz t key value qk hfull).2 hqO with h | h
            · exact h
            · rw [splitInsert_keyToPageId hashFn sz t key value qk hfull] at h
              exact absurd h hmv
          show ∃ i2, i2 < sz ∧
            (fetchBucket sz (splitInsert hashFn sz t key value).1
              (keyToPageId hashFn (splitInsert hashFn sz t key value).1 qk)).isReadable i2 =
                true ∧
            (fetchBucket sz (splitInsert hashFn sz t key value).1
              (keyToPageId hashFn (splitInsert hashFn sz t key value).1 qk)).array.getD i2
                default = (qk, qv) ∧
            ∀ l, l < i2 → (fetchBucket sz (splitInsert hashFn sz t key value).1
              (keyToPageId hashFn (splitInsert hashFn sz t key value).1 qk)).isOccupied l =
                true
          rw [hroute, hfO2]
          exact ⟨i, hi, hkeepi, hget, hocc2⟩
      · have hroute := (splitInsert_route hashFn sz t key value qk hfull).1 hqO
        have hqN : keyToPageId hashFn t qk ≠ t.buckets.length :=
          Nat.ne_of_lt (hinv.2 (keyToDirectoryIndex hashFn t qk)
            (keyToDirectoryIndex_lt hashFn t qk))
        show ∃ i2, i2 < sz ∧
          (fetchBucket sz (splitInsert hashFn sz t key value).1
            (keyToPageId hashFn (splitInsert hashFn sz t key value).1 qk)).isReadable i2 =
              true ∧
          (fetchBucket sz (splitInsert hashFn sz t key value).1
            (keyToPageId hashFn (splitInsert hashFn sz t key value).1 qk)).array.getD i2
              default = (qk, qv) ∧
          ∀ l, l < i2 → (fetchBucket sz (splitInsert hashFn sz t key value).1
            (keyToPageId hashFn (splitInsert hashFn sz t key value).1 qk)).isOccupied l =
              true
        rw [hroute, fetch_split_other hashFn sz t key value (keyToPageId hashFn t qk)
          hfull hqO hqN]
        exact ⟨i, hi, hir, hia, hiocc⟩
    · intro hsucc
      rw [hflag, hres] at hsucc
      have hs2 : ((splitRd hashFn sz (splitDir2 hashFn t key) t.buckets.length
          (fetchBucket sz t (keyToPageId hashFn t key))).2.insert sz key value).2 = true :=
        hsucc
      obtain ⟨i, hi, hirN, hiaN, hioccN⟩ := insert_establish sz _ key value hW2 hRO2b hs2
      have hroute : keyToPageId hashFn (splitInsert hashFn sz t key value).1 key =
          t.buckets.length := by
        rcases (splitInsert_route hashFn sz t key value key hfull).2 rfl with h | h
        · rw [splitInsert_keyToPageId hashFn sz t key value key hfull] at h
          exact absurd h hr
        · exact h
      show ∃ i2, i2 < sz ∧
        (fetchBucket sz (splitInsert hashFn sz t key value).1
          (keyToPageId hashFn (splitInsert hashFn sz t key value).1 key)).isReadable i2 =
            true ∧
        (fetchBucket sz (splitInsert hashFn sz t key value).1
          (keyToPageId hashFn (splitInsert hashFn sz t key value).1 key)).array.getD i2
            default = (key, value) ∧
        ∀ l, l < i2 → (fetchBucket sz (splitInsert hashFn sz t key value).1
          (keyToPageId hashFn (splitInsert hashFn sz t key value).1 key)).isOccupied l =
            true
      rw [hroute, hfN2]
      exact ⟨i, hi, hirN, hiaN, hioccN⟩


/-! ## Merges never move pages, and keep the route of every non-empty bucket -/

theorem route_stable (d2 : Directory) (hinv : DirInv d2) (h : Nat) :
    (if d2.canShrink then d2.decrGlobalDepth else d2).bucketPageIds
      (h &&& (if d2.canShrink then d2.decrGlobalDepth else d2).globalDepthMask) =
    d2.bucketPageIds (h &&& d2.globalDepthMask) := by
  by_cases hsh : d2.canShrink = true
  · rw [if_pos hsh]
    have hcs : ∀ i, i < d2.size → d2.localDepths i < d2.globalDepth :=
      of_decide_eq_true ((canShrink_eq_decide d2).symm.trans hsh)
    have hgd0 : 0 < d2.globalDepth := by
      have h0 : (0 : Nat) < d2.size := Nat.two_pow_pos _
      have := hcs 0 h0
      omega
    show d2.bucketPageIds (h &&& (2 ^ (d2.globalDepth - 1) - 1)) =
      d2.bucketPageIds (h &&& (2 ^ d2.globalDepth - 1))
    rw [and_mask_mod, and_mask_mod]
    have hi : h % 2 ^ (d2.globalDepth - 1) < d2.size := by
      show h % 2 ^ (d2.globalDepth - 1) < 2 ^ d2.globalDepth
      exact Nat.lt_of_lt_of_le (Nat.mod_lt _ (Nat.two_pow_pos _))
        (Nat.pow_le_pow_right (by norm_num) (by omega))
    have hj : h % 2 ^ d2.globalDepth < d2.size := Nat.mod_lt _ (Nat.two_pow_pos _)
    have hld := hcs _ hi
    have hd1 : d2.localDepths (h % 2 ^ (d2.globalDepth - 1)) ≤ d2.globalDepth := by omega
    have hd2 : d2.localDepths (h % 2 ^ (d2.globalDepth - 1)) ≤ d2.globalDepth - 1 := by
      omega
    have hm : h % 2 ^ d2.globalDepth %
        2 ^ d2.localDepths (h % 2 ^ (d2.globalDepth - 1)) =
        h % 2 ^ (d2.globalDepth - 1) %
          2 ^ d2.localDepths (h % 2 ^ (d2.globalDepth - 1)) := by
      rw [Nat.mod_mod_of_dvd _ (pow_dvd_pow 2 hd1), Nat.mod_mod_of_dvd _ (pow_dvd_pow 2 hd2)]
    exact ((dirInv_sameClass hinv hi hj hm).2).symm
  · rw [if_neg hsh]

theorem fetch_congr [Inhabited K] [Inhabited V] (sz : Nat) (t2 t1 : TableState K V)
    (p : Nat) (hb : t2.buckets = t1.buckets) : fetchBucket sz t2 p = fetchBucket sz t1 p := by
  unfold fetchBucket
  rw [hb]

theorem poolWF_congr [Inhabited K] [Inhabited V] (sz : Nat) (t2 t1 : TableState K V)
    (hb : t2.buckets = t1.buckets) (h : PoolWF sz t1) : PoolWF sz t2 := by
  intro p hp
  rw [hb] at hp
  rw [fetch_congr sz t2 t1 p hb]
  exact h p hp

theorem hasPairAt_congr [Inhabited K] [Inhabited V] (hashFn : K → Nat) (sz : Nat)
    (t2 t1 : TableState K V) (qk : K) (qv : V) (hb : t2.buckets = t1.buckets)
    (hr : keyToPageId hashFn t2 qk = keyToPageId hashFn t1 qk)
    (h : hasPairAt hashFn sz t1 qk qv) : hasPairAt hashFn sz t2 qk qv := by
  have h2 : ∃ i, i < sz ∧
      (fetchBucket sz t1 (keyToPageId hashFn t1 qk)).isReadable i = true ∧
      (fetchBucket sz t1 (keyToPageId hashFn t1 qk)).array.getD i default = (qk, qv) ∧
      ∀ l, l < i → (fetchBucket sz t1 (keyToPageId hashFn t1 qk)).isOccupied l = true := h
  obtain ⟨i, hi, ha, hb2, hc⟩ := h2
  show ∃ i, i < sz ∧
    (fetchBucket sz t2 (keyToPageId hashFn t2 qk)).isReadable i = true ∧
    (fetchBucket sz t2 (keyToPageId hashFn t2 qk)).array.getD i default = (qk, qv) ∧
    ∀ l, l < i → (fetchBucket sz t2 (keyToPageId hashFn t2 qk)).isOccupied l = true
  rw [hr, fetch_congr sz t2 t1 _ hb]
  exact ⟨i, hi, ha, hb2, hc⟩

theorem mergeOp_keep [DecidableEq K] [DecidableEq V] [Inhabited K] [Inhabited V]
    (hashFn : K → Nat) (sz : Nat) (t : TableState K V) (key : K) (hinv : StateInvD t) :
    (mergeOp hashFn sz t key).buckets = t.buckets ∧
    ∀ q, (∃ l, l < sz ∧
        (fetchBucket sz t (keyToPageId hashFn t q)).isReadable l = true) →
      keyToPageId hashFn (mergeOp hashFn sz t key) q = keyToPageId hashFn t q := by
  by_cases hg : t.dir.localDepths (keyToDirectoryIndex hashFn t key) = 0 ∨
      ¬ (fetchBucket sz t (keyToPageId hashFn t key)).isEmpty sz = true ∨
      t.dir.localDepths (t.dir.getSplitImageIndex (keyToDirectoryIndex hashFn t key)) ≠
        t.dir.localDepths (keyToDirectoryIndex hashFn t key)
  · rw [mergeOp_abort hashFn sz t key hg]
    exact ⟨rfl, fun q _ => rfl⟩
  · push_neg at hg
    obtain ⟨hd0, hemp, heqd⟩ := hg
    obtain ⟨hfreed, hbk, dir2, hdir, hgd, hpids, hlds⟩ :=
      mergeOp_occur hashFn sz t key (by omega) hemp heqd
    obtain ⟨e, he⟩ : ∃ e, t.dir.localDepths (keyToDirectoryIndex hashFn t key) = e + 1 :=
      ⟨t.dir.localDepths (keyToDirectoryIndex hashFn t key) - 1, by omega⟩
    simp only [Directory.localDepthMask, he, Nat.add_sub_cancel, and_mask_mod] at hpids hlds
    have hIlt : keyToDirectoryIndex hashFn t key < t.dir.size :=
      keyToDirectoryIndex_lt hashFn t key
    obtain ⟨hAlt, hAd, hAlow, hsplit⟩ :=
      mergeClass_facts t.dir (keyToDirectoryIndex hashFn t key) e hinv.1 hIlt he
    obtain ⟨hKI, hKA, hPANE, hPMA, hPMI⟩ :=
      mergeClass_slots t.dir (keyToDirectoryIndex hashFn t key) e hinv.1 hIlt he heqd
    set I := keyToDirectoryIndex hashFn t key with hIdef
    set A := t.dir.getSplitImageIndex I with hAdef
    have hM : ∀ j, j < t.dir.size → j % 2 ^ e = I % 2 ^ e →
        dir2.localDepths j = e ∧ dir2.bucketPageIds j = t.dir.bucketPageIds A := by
      intro j hj hm
      rcases hsplit j hm with hk | hk
      · constructor
        · rw [hlds j, if_pos ⟨hj, hm⟩, (hKI j hj hk).1]
          omega
        · rw [hpids j, if_pos ⟨hj, hk⟩]
      · constructor
        · rw [hlds j, if_pos ⟨hj, hm⟩, (hKA j hj hk).1]
          omega
        · rw [hpids j, if_neg (fun hcon => hAd (hk.symm.trans hcon.2))]
          exact (hKA j hj hk).2
    have hNM : ∀ j, j < t.dir.size → ¬ j % 2 ^ e = I % 2 ^ e →
        dir2.localDepths j = t.dir.localDepths j ∧
        dir2.bucketPageIds j = t.dir.bucketPageIds j := by
      intro j hj hm
      constructor
      · rw [hlds j, if_neg (fun hcon => hm hcon.2)]
      · rw [hpids j,
          if_neg (fun hcon => hm (lowEq_mono j I (Nat.le_succ e) hcon.2))]
    have hPM : ∀ j, j < t.dir.size → t.dir.bucketPageIds j = t.dir.bucketPageIds A →
        j % 2 ^ e = I % 2 ^ e := fun j hj hpj => hPMA j hj hpj
    have hMld : ∀ j, j < t.dir.size → j % 2 ^ e = I % 2 ^ e →
        t.dir.localDepths j = e + 1 := by
      intro j hj hm
      rcases hsplit j hm with hk | hk
      · exact (hKI j hj hk).1
      · exact (hKA j hj hk).1
    have hdirinv2 : DirInv dir2 :=
      merge_class_dirInv t.dir dir2 I (t.dir.bucketPageIds A) e hinv.1 hIlt he hgd hM hNM
        hPM hMld
    refine ⟨hbk, ?_⟩
    intro q hq
    obtain ⟨l, hl, hread⟩ := hq
    have hIq : keyToDirectoryIndex hashFn t q < t.dir.size :=
      keyToDirectoryIndex_lt hashFn t q
    have hstepA : dir2.bucketPageIds (keyToDirectoryIndex hashFn t q) =
        t.dir.bucketPageIds (keyToDirectoryIndex hashFn t q) := by
      by_cases hcls : keyToDirectoryIndex hashFn t q % 2 ^ (e + 1) = I % 2 ^ (e + 1)
      · exfalso
        have hm2 : keyToDirectoryIndex hashFn t q % 2 ^ t.dir.localDepths I =
            I % 2 ^ t.dir.localDepths I := by
          rw [he]
          exact hcls
        have hpq : keyToPageId hashFn t q = keyToPageId hashFn t key :=
          (dirInv_sameClass hinv.1 hIlt hIq hm2).2
        rw [hpq] at hread
        have hfalse := isEmpty_no_readable hemp l hl
        rw [hfalse] at hread
        exact absurd hread (by simp)
      · rw [hpids (keyToDirectoryIndex hashFn t q),
          if_neg (fun hcon => hcls hcon.2)]
    have hmask : dir2.globalDepthMask = t.dir.globalDepthMask := by
      unfold Directory.globalDepthMask
      rw [hgd]
    rw [keyToPageId_expr hashFn (mergeOp hashFn sz t key) q, hdir,
      route_stable dir2 hdirinv2 (hash32 hashFn q), hmask]
    show dir2.bucketPageIds (keyToDirectoryIndex hashFn t q) = keyToPageId hashFn t q
    rw [hstepA]
    rfl

theorem extraMergeOp_keep [DecidableEq K] [DecidableEq V] [Inhabited K] [Inhabited V]
    (hashFn : K → Nat) (sz : Nat) (t : TableState K V) (key : K) (hinv : StateInvD t) :
    (extraMergeOp hashFn sz t key).1.buckets = t.buckets ∧
    ∀ q, (∃ l, l < sz ∧
        (fetchBucket sz t (keyToPageId hashFn t q)).isReadable l = true) →
      keyToPageId hashFn (extraMergeOp hashFn sz t key).1 q = keyToPageId hashFn t q := by
  by_cases hg : 0 < t.dir.localDepths (keyToDirectoryIndex hashFn t key) ∧
      t.dir.localDepths (t.dir.getSplitImageIndex (keyToDirectoryIndex hashFn t key)) =
        t.dir.localDepths (keyToDirectoryIndex hashFn t key) ∧
      (fetchBucket sz t (t.dir.bucketPageIds
        (t.dir.getSplitImageIndex (keyToDirectoryIndex hashFn t key)))).isEmpty sz = true
  · obtain ⟨hd0, heqd, hemp⟩ := hg
    obtain ⟨hret, hfreed, hbk, dir1, hdir, hgd, hpids, hlds⟩ :=
      extraMergeOp_occur hashFn sz t key hd0 heqd hemp
    obtain ⟨e, he⟩ : ∃ e, t.dir.localDepths (keyToDirectoryIndex hashFn t key) = e + 1 :=
      ⟨t.dir.localDepths (keyToDirectoryIndex hashFn t key) - 1, by omega⟩
    simp only [keyToPageId] at hpids hlds
    have hIlt : keyToDirectoryIndex hashFn t key < t.dir.size :=
      keyToDirectoryIndex_lt hashFn t key
    obtain ⟨hAlt, hAd, hAlow, hsplit⟩ :=
      mergeClass_facts t.dir (keyToDirectoryIndex hashFn t key) e hinv.1 hIlt he
    obtain ⟨hKI, hKA, hPANE, hPMA, hPMI⟩ :=
      mergeClass_slots t.dir (keyToDirectoryIndex hashFn t key) e hinv.1 hIlt he heqd
    set I := keyToDirectoryIndex hashFn t key with hIdef
    set A := t.dir.getSplitImageIndex I with hAdef
    have hM : ∀ j, j < t.dir.size → j % 2 ^ e = I % 2 ^ e →
        dir1.localDepths j = e ∧ dir1.bucketPageIds j = t.dir.bucketPageIds I := by
      intro j hj hm
      rcases hsplit j hm with hk | hk
      · obtain ⟨hlj, hpj⟩ := hKI j hj hk
        constructor
        · rw [hlds j, if_pos ⟨hj, Or.inr hpj⟩, hlj]
          omega
        · rw [hpids j, if_neg (fun hcon => hPANE (hcon.2.symm.trans hpj))]
          exact hpj
      · obtain ⟨hlj, hpj⟩ := hKA j hj hk
        constructor
        · rw [hlds j, if_pos ⟨hj, Or.inl hpj⟩, hlj]
          omega
        · rw [hpids j, if_pos ⟨hj, hpj⟩]
    have hNM : ∀ j, j < t.dir.size → ¬ j % 2 ^ e = I % 2 ^ e →
        dir1.localDepths j = t.dir.localDepths j ∧
        dir1.bucketPageIds j = t.dir.bucketPageIds j := by
      intro j hj hm
      constructor
      · rw [hlds j, if_neg]
        rintro ⟨-, hco | hco⟩
        · exact hm (hPMA j hj hco)
        · exact hm (lowEq_mono j I (Nat.le_succ e) (hPMI j hj hco))
      · rw [hpids j, if_neg (fun hcon => hm (hPMA j hj hcon.2))]
    have hPM : ∀ j, j < t.dir.size → t.dir.bucketPageIds j = t.dir.bucketPageIds I →
        j % 2 ^ e = I % 2 ^ e :=
      fun j hj hpj => lowEq_mono j I (Nat.le_succ e) (hPMI j hj hpj)
    have hMld : ∀ j, j < t.dir.size → j % 2 ^ e = I % 2 ^ e →
        t.dir.localDepths j = e + 1 := by
      intro j hj hm
      rcases hsplit j hm with hk | hk
      · exact (hKI j hj hk).1
      · exact (hKA j hj hk).1
    have hdirinv1 : DirInv dir1 :=
      merge_class_dirInv t.dir dir1 I (t.dir.bucketPageIds I) e hinv.1 hIlt he hgd hM hNM
        hPM hMld
    refine ⟨hbk, ?_⟩
    intro q hq
    obtain ⟨l, hl, hread⟩ := hq
    have hIq : keyToDirectoryIndex hashFn t q < t.dir.size :=
      keyToDirectoryIndex_lt hashFn t q
    have hstepA : dir1.bucketPageIds (keyToDirectoryIndex hashFn t q) =
        t.dir.bucketPageIds (keyToDirectoryIndex hashFn t q) := by
      by_cases hcls : t.dir.bucketPageIds (keyToDirectoryIndex hashFn t q) =
          t.dir.bucketPageIds A
      · exfalso
        have hpq : keyToPageId hashFn t q = t.dir.bucketPageIds A := hcls
        rw [hpq] at hread
        have hfalse := isEmpty_no_readable hemp l hl
        rw [hfalse] at hread
        exact absurd hread (by simp)
      · rw [hpids (keyToDirectoryIndex hashFn t q),
          if_neg (fun hcon => hcls hcon.2)]
    have hmask : dir1.globalDepthMask = t.dir.globalDepthMask := by
      unfold Directory.globalDepthMask
      rw [hgd]
    rw [keyToPageId_expr hashFn (extraMergeOp hashFn sz t key).1 q, hdir,
      route_stable dir1 hdirinv1 (hash32 hashFn q), hmask]
    show dir1.bucketPageIds (keyToDirectoryIndex hashFn t q) = keyToPageId hashFn t q
    rw [hstepA]
    rfl
  · rw [extraMergeOp_abort hashFn sz t key hg]
    exact ⟨rfl, fun q _ => rfl⟩

theorem extraMergeLoop_keep [DecidableEq K] [DecidableEq V] [Inhabited K] [Inhabited V]
    (hashFn : K → Nat) (sz : Nat) (key : K) :
    ∀ (fuel : Nat) (t : TableState K V), StateInvD t →
      (extraMergeLoop hashFn sz fuel t key).buckets = t.buckets ∧
      ∀ q, (∃ l, l < sz ∧
          (fetchBucket sz t (keyToPageId hashFn t q)).isReadable l = true) →
        keyToPageId hashFn (extraMergeLoop hashFn sz fuel t key) q =
          keyToPageId hashFn t q := by
  intro fuel
  induction fuel with
  | zero => exact fun t hinv => ⟨rfl, fun q _ => rfl⟩
  | succ n ih =>
    intro t hinv
    obtain ⟨hbk1, hrt1⟩ := extraMergeOp_keep hashFn sz t key hinv
    have hinv2 := extraMergeOp_StateInvD hashFn sz t key hinv
    have hunf : extraMergeLoop hashFn sz (n + 1) t key =
        (if (extraMergeOp hashFn sz t key).2 = true then
          extraMergeLoop hashFn sz n (extraMergeOp hashFn sz t key).1 key
        else (extraMergeOp hashFn sz t key).1) := rfl
    by_cases h : (extraMergeOp hashFn sz t key).2 = true
    · rw [hunf, if_pos h]
      obtain ⟨hbk2, hrt2⟩ := ih (extraMergeOp hashFn sz t key).1 hinv2
      refine ⟨hbk2.trans hbk1, ?_⟩
      intro q hq
      have hq1 := hrt1 q hq
      have hq2 : ∃ l, l < sz ∧
          (fetchBucket sz (extraMergeOp hashFn sz t key).1
            (keyToPageId hashFn (extraMergeOp hashFn sz t key).1 q)).isReadable l =
            true := by
        obtain ⟨l, hl, hrd⟩ := hq
        refine ⟨l, hl, ?_⟩
        rw [hq1, fetch_congr sz (extraMergeOp hashFn sz t key).1 t _ hbk1]
        exact hrd
      rw [hrt2 q hq2, hq1]
    · rw [hunf, if_neg h]
      exact ⟨hbk1, hrt1⟩


/-! ## Presence and pool well-formedness through Insert and Remove -/

theorem hasPairAt_nonempty [Inhabited K] [Inhabited V] (hashFn : K → Nat) (sz : Nat)
    (t : TableState K V) (qk : K) (qv : V) (h : hasPairAt hashFn sz t qk qv) :
    ∃ l, l < sz ∧ (fetchBucket sz t (keyToPageId hashFn t qk)).isReadable l = true := by
  have h2 : ∃ i, i < sz ∧
      (fetchBucket sz t (keyToPageId hashFn t qk)).isReadable i = true ∧
      (fetchBucket sz t (keyToPageId hashFn t qk)).array.getD i default = (qk, qv) ∧
      ∀ l, l < i → (fetchBucket sz t (keyToPageId hashFn t qk)).isOccupied l = true := h
  obtain ⟨i, hi, hr, _, _⟩ := h2
  exact ⟨i, hi, hr⟩

theorem initTable_PoolWF (K V : Type) [Inhabited K] [Inhabited V] (sz : Nat) :
    PoolWF sz (initTable K V sz) := by
  intro p hp
  have hp1 : p = 0 := by
    have : p < 1 := hp
    omega
  subst hp1
  have hf : fetchBucket sz (initTable K V sz) 0 = Bucket.empty K V sz := rfl
  rw [hf]
  refine ⟨empty_lenWF sz, rdImpOcc_of_pointwise (fun i hi hr => ?_)⟩
  rw [empty_isReadable] at hr
  exact absurd hr (by simp)

theorem insertOp_keep [DecidableEq K] [DecidableEq V] [Inhabited K] [Inhabited V]
    (hashFn : K → Nat) (sz : Nat) (t : TableState K V) (key : K) (value : V)
    (hinv : StateInvD t) (hpool : PoolWF sz t) :
    PoolWF sz (insertOp hashFn sz t key value).1 ∧
    (∀ qk qv, hasPairAt hashFn sz t qk qv →
      hasPairAt hashFn sz (insertOp hashFn sz t key value).1 qk qv) ∧
    ((insertOp hashFn sz t key value).2 = true →
      hasPairAt hashFn sz (insertOp hashFn sz t key value).1 key value) := by
  have hpid : keyToPageId hashFn t key < t.buckets.length :=
    hinv.2 (keyToDirectoryIndex hashFn t key) (keyToDirectoryIndex_lt hashFn t key)
  have hwfB := (poolWF_fetch sz t hpool (keyToPageId hashFn t key)).1
  have hroB := (poolWF_fetch sz t hpool (keyToPageId hashFn t key)).2
  by_cases hc : ¬ ((fetchBucket sz t (keyToPageId hashFn t key)).insert sz key value).2 = true ∧ ((fetchBucket sz t (keyToPageId hashFn t key)).insert sz key value).1.isFull sz = true
  · have hp1 : ((fetchBucket sz t (keyToPageId hashFn t key)).insert sz key value).1 = fetchBucket sz t (keyToPageId hashFn t key) :=
      insert_false_unchanged sz _ key value (by
        cases hb : ((fetchBucket sz t (keyToPageId hashFn t key)).insert sz key value).2
        · rfl
        · exact absurd hb hc.1)
    have ht2 : ({ t with buckets := t.buckets.set (keyToPageId hashFn t key) ((fetchBucket sz t (keyToPageId hashFn t key)).insert sz key value).1 } :
        TableState K V) = t := by
      rw [hp1]
      show ({ t with buckets := (t.buckets.set (keyToPageId hashFn t key)
        (t.buckets.getD (keyToPageId hashFn t key) (Bucket.empty K V sz))) } : TableState K V) = t
      rw [set_getD_self t.buckets _ _ hpid]
    have hfull : (fetchBucket sz t (keyToPageId hashFn t key)).isFull sz = true := by
      have h2 := hc.2
      rw [hp1] at h2
      exact h2
    have hie : insertOp hashFn sz t key value = splitInsert hashFn sz t key value := by
      simp only [insertOp]
      rw [if_pos hc, ht2]
    rw [hie]
    exact splitInsert_main hashFn sz t key value hinv hpool hfull
  · have hie : insertOp hashFn sz t key value =
        ({ t with buckets := t.buckets.set (keyToPageId hashFn t key) ((fetchBucket sz t (keyToPageId hashFn t key)).insert sz key value).1 }, ((fetchBucket sz t (keyToPageId hashFn t key)).insert sz key value).2) := by
      simp only [insertOp]
      rw [if_neg hc]
    have hroute : ∀ q : K, keyToPageId hashFn (insertOp hashFn sz t key value).1 q =
        keyToPageId hashFn t q := by
      intro q
      rw [hie]
      rfl
    have hlen : (insertOp hashFn sz t key value).1.buckets.length = t.buckets.length := by
      rw [hie]
      show (t.buckets.set (keyToPageId hashFn t key) ((fetchBucket sz t (keyToPageId hashFn t key)).insert sz key value).1).length = t.buckets.length
      rw [List.length_set]
    have hfp : fetchBucket sz (insertOp hashFn sz t key value).1 (keyToPageId hashFn t key) = ((fetchBucket sz t (keyToPageId hashFn t key)).insert sz key value).1 := by
      rw [hie]
      show (t.buckets.set (keyToPageId hashFn t key) ((fetchBucket sz t (keyToPageId hashFn t key)).insert sz key value).1).getD (keyToPageId hashFn t key) (Bucket.empty K V sz) = _
      rw [getD_set, if_pos ⟨rfl, hpid⟩]
    have hfq : ∀ p : Nat, p ≠ keyToPageId hashFn t key →
        fetchBucket sz (insertOp hashFn sz t key value).1 p = fetchBucket sz t p := by
      intro p hp
      rw [hie]
      show (t.buckets.set (keyToPageId hashFn t key) ((fetchBucket sz t (keyToPageId hashFn t key)).insert sz key value).1).getD p (Bucket.empty K V sz) = _
      rw [getD_set, if_neg (fun hcon => hp hcon.1.symm)]
      rfl
    refine ⟨?_, ?_, ?_⟩
    · intro p hp
      rw [hlen] at hp
      by_cases hpe : p = keyToPageId hashFn t key
      · subst hpe
        rw [hfp]
        obtain ⟨hw, hpo⟩ := insert_wf sz _ key value hwfB hroB
        exact ⟨hw, rdImpOcc_of_pointwise hpo⟩
      · rw [hfq p hpe]
        exact hpool p hp
    · intro qk qv hhas
      have hhas2 : ∃ i, i < sz ∧
          (fetchBucket sz t (keyToPageId hashFn t qk)).isReadable i = true ∧
          (fetchBucket sz t (keyToPageId hashFn t qk)).array.getD i default = (qk, qv) ∧
          ∀ l, l < i → (fetchBucket sz t (keyToPageId hashFn t qk)).isOccupied l = true :=
        hhas
      obtain ⟨i, hi, hir, hia, hiocc⟩ := hhas2
      show ∃ i2, i2 < sz ∧
        (fetchBucket sz (insertOp hashFn sz t key value).1
          (keyToPageId hashFn (insertOp hashFn sz t key value).1 qk)).isReadable i2 =
            true ∧
        (fetchBucket sz (insertOp hashFn sz t key value).1
          (keyToPageId hashFn (insertOp hashFn sz t key value).1 qk)).array.getD i2
            default = (qk, qv) ∧
        ∀ l, l < i2 → (fetchBucket sz (insertOp hashFn sz t key value).1
          (keyToPageId hashFn (insertOp hashFn sz t key value).1 qk)).isOccupied l = true
      rw [hroute qk]
      by_cases hpq : keyToPageId hashFn t qk = keyToPageId hashFn t key
      · rw [hpq, hfp]
        rw [hpq] at hir hia hiocc
        obtain ⟨hkr, hka, hkocc⟩ := insert_keep sz _ key value qk qv hwfB i hi hir hia
          hiocc
        exact ⟨i, hi, hkr, hka, hkocc⟩
      · rw [hfq _ hpq]
        exact ⟨i, hi, hir, hia, hiocc⟩
    · intro hsucc
      rw [hie] at hsucc
      have hs : ((fetchBucket sz t (keyToPageId hashFn t key)).insert sz key value).2 = true := hsucc
      obtain ⟨i, hi, hirN, hiaN, hioccN⟩ := insert_establish sz _ key value hwfB hroB hs
      show ∃ i2, i2 < sz ∧
        (fetchBucket sz (insertOp hashFn sz t key value).1
          (keyToPageId hashFn (insertOp hashFn sz t key value).1 key)).isReadable i2 =
            true ∧
        (fetchBucket sz (insertOp hashFn sz t key value).1
          (keyToPageId hashFn (insertOp hashFn sz t key value).1 key)).array.getD i2
            default = (key, value) ∧
        ∀ l, l < i2 → (fetchBucket sz (insertOp hashFn sz t key value).1
          (keyToPageId hashFn (insertOp hashFn sz t key value).1 key)).isOccupied l = true
      rw [hroute key, hfp]
      exact ⟨i, hi, hirN, hiaN, hioccN⟩


theorem removeOp_keep [DecidableEq K] [DecidableEq V] [Inhabited K] [Inhabited V]
    (hashFn : K → Nat) (sz : Nat) (t : TableState K V) (key : K) (value : V)
    (hinv : StateInvD t) (hpool : PoolWF sz t) :
    PoolWF sz (removeOp hashFn sz t key value).1 ∧
    ∀ qk qv, ¬ (key = qk ∧ value = qv) → hasPairAt hashFn sz t qk qv →
      hasPairAt hashFn sz (removeOp hashFn sz t key value).1 qk qv := by
  have hpid : keyToPageId hashFn t key < t.buckets.length :=
    hinv.2 (keyToDirectoryIndex hashFn t key) (keyToDirectoryIndex_lt hashFn t key)
  have hwfB := (poolWF_fetch sz t hpool (keyToPageId hashFn t key)).1
  have hroB := (poolWF_fetch sz t hpool (keyToPageId hashFn t key)).2
  have hsh := remove_shape sz (fetchBucket sz t (keyToPageId hashFn t key)) key value
  have hWn : ((fetchBucket sz t (keyToPageId hashFn t key)).remove sz key value).1.lenWF sz = true := by
    rcases hsh with h | ⟨j, hj, hjr, hja, h⟩
    · rw [h]
      exact hwfB
    · rw [h]
      show ((fetchBucket sz t (keyToPageId hashFn t key)).setUnreadable j).lenWF sz = true
      rw [lenWF_setUnreadable]
      exact hwfB
  have hron : ∀ i, i < sz → ((fetchBucket sz t (keyToPageId hashFn t key)).remove sz key value).1.isReadable i = true →
      ((fetchBucket sz t (keyToPageId hashFn t key)).remove sz key value).1.isOccupied i = true := by
    intro i hi hr
    rcases hsh with h | ⟨j, hj, hjr, hja, h⟩
    · rw [h] at hr ⊢
      exact hroB i hi hr
    · rw [h] at hr ⊢
      have hr2 : ((fetchBucket sz t (keyToPageId hashFn t key)).setUnreadable j).isReadable i = true := hr
      rw [isReadable_setUnreadable] at hr2
      show ((fetchBucket sz t (keyToPageId hashFn t key)).setUnreadable j).isOccupied i = true
      rw [isOccupied_setUnreadable]
      by_cases hij : i = j
      · rw [if_pos hij] at hr2
        exact absurd hr2 (by simp)
      · rw [if_neg hij] at hr2
        exact hroB i hi hr2
  have hpres : ∀ qk qv, ¬ (key = qk ∧ value = qv) → ∀ i, i < sz →
      (fetchBucket sz t (keyToPageId hashFn t key)).isReadable i = true → (fetchBucket sz t (keyToPageId hashFn t key)).array.getD i default = (qk, qv) →
      (∀ l, l < i → (fetchBucket sz t (keyToPageId hashFn t key)).isOccupied l = true) →
      ((fetchBucket sz t (keyToPageId hashFn t key)).remove sz key value).1.isReadable i = true ∧ ((fetchBucket sz t (keyToPageId hashFn t key)).remove sz key value).1.array.getD i default = (qk, qv) ∧
      ∀ l, l < i → ((fetchBucket sz t (keyToPageId hashFn t key)).remove sz key value).1.isOccupied l = true := by
    intro qk qv hne i hi hir hia hiocc
    rcases hsh with h | ⟨j, hj, hjr, hja, h⟩
    · rw [h]
      exact ⟨hir, hia, hiocc⟩
    · have hij : ¬ i = j := by
        intro hcon
        subst hcon
        have h2 : (key, value) = (qk, qv) := hja.symm.trans hia
        exact hne ⟨congrArg Prod.fst h2, congrArg Prod.snd h2⟩
      rw [h]
      refine ⟨?_, ?_, ?_⟩
      · show ((fetchBucket sz t (keyToPageId hashFn t key)).setUnreadable j).isReadable i = true
        rw [isReadable_setUnreadable, if_neg hij]
        exact hir
      · show ((fetchBucket sz t (keyToPageId hashFn t key)).setUnreadable j).array.getD i default = (qk, qv)
        rw [array_setUnreadable]
        exact hia
      · intro l hl
        show ((fetchBucket sz t (keyToPageId hashFn t key)).setUnreadable j).isOccupied l = true
        rw [isOccupied_setUnreadable]
        exact hiocc l hl
  have hlen2 : ({ t with buckets := t.buckets.set (keyToPageId hashFn t key) ((fetchBucket sz t (keyToPageId hashFn t key)).remove sz key value).1 } : TableState K V).buckets.length = t.buckets.length := by
    show (t.buckets.set (keyToPageId hashFn t key) ((fetchBucket sz t (keyToPageId hashFn t key)).remove sz key value).1).length = t.buckets.length
    rw [List.length_set]
  have hfp : fetchBucket sz ({ t with buckets := t.buckets.set (keyToPageId hashFn t key) ((fetchBucket sz t (keyToPageId hashFn t key)).remove sz key value).1 } : TableState K V) (keyToPageId hashFn t key) = ((fetchBucket sz t (keyToPageId hashFn t key)).remove sz key value).1 := by
    show (t.buckets.set (keyToPageId hashFn t key) ((fetchBucket sz t (keyToPageId hashFn t key)).remove sz key value).1).getD (keyToPageId hashFn t key) (Bucket.empty K V sz) = _
    rw [getD_set, if_pos ⟨rfl, hpid⟩]
  have hfq : ∀ p : Nat, p ≠ keyToPageId hashFn t key →
      fetchBucket sz ({ t with buckets := t.buckets.set (keyToPageId hashFn t key) ((fetchBucket sz t (keyToPageId hashFn t key)).remove sz key value).1 } : TableState K V) p = fetchBucket sz t p := by
    intro p hp
    show (t.buckets.set (keyToPageId hashFn t key) ((fetchBucket sz t (keyToPageId hashFn t key)).remove sz key value).1).getD p (Bucket.empty K V sz) = _
    rw [getD_set, if_neg (fun hcon => hp hcon.1.symm)]
    rfl
  have hP2 : PoolWF sz ({ t with buckets := t.buckets.set (keyToPageId hashFn t key) ((fetchBucket sz t (keyToPageId hashFn t key)).remove sz key value).1 } : TableState K V) := by
    intro p hp
    rw [hlen2] at hp
    by_cases hpe : p = keyToPageId hashFn t key
    · subst hpe
      rw [hfp]
      exact ⟨hWn, rdImpOcc_of_pointwise hron⟩
    · rw [hfq p hpe]
      exact hpool p hp
  have hH2 : ∀ qk qv, ¬ (key = qk ∧ value = qv) → hasPairAt hashFn sz t qk qv →
      hasPairAt hashFn sz ({ t with buckets := t.buckets.set (keyToPageId hashFn t key) ((fetchBucket sz t (keyToPageId hashFn t key)).remove sz key value).1 } : TableState K V) qk qv := by
    intro qk qv hne hhas
    have hhas2 : ∃ i, i < sz ∧
        (fetchBucket sz t (keyToPageId hashFn t qk)).isReadable i = true ∧
        (fetchBucket sz t (keyToPageId hashFn t qk)).array.getD i default = (qk, qv) ∧
        ∀ l, l < i → (fetchBucket sz t (keyToPageId hashFn t qk)).isOccupied l = true :=
      hhas
    obtain ⟨i, hi, hir, hia, hiocc⟩ := hhas2
    show ∃ i2, i2 < sz ∧
      (fetchBucket sz ({ t with buckets := t.buckets.set (keyToPageId hashFn t key) ((fetchBucket sz t (keyToPageId hashFn t key)).remove sz key value).1 } : TableState K V) (keyToPageId hashFn t qk)).isReadable i2 =
        true ∧
      (fetchBucket sz ({ t with buckets := t.buckets.set (keyToPageId hashFn t key) ((fetchBucket sz t (keyToPageId hashFn t key)).remove sz key value).1 } : TableState K V) (keyToPageId hashFn t qk)).array.getD i2
        default = (qk, qv) ∧
      ∀ l, l < i2 → (fetchBucket sz ({ t with buckets := t.buckets.set (keyToPageId hashFn t key) ((fetchBucket sz t (keyToPageId hashFn t key)).remove sz key value).1 } : TableState K V)
        (keyToPageId hashFn t qk)).isOccupied l = true
    by_cases hpq : keyToPageId hashFn t qk = keyToPageId hashFn t key
    · rw [hpq, hfp]
      rw [hpq] at hir hia hiocc
      obtain ⟨h1, h2, h3⟩ := hpres qk qv hne i hi hir hia hiocc
      exact ⟨i, hi, h1, h2, h3⟩
    · rw [hfq _ hpq]
      exact ⟨i, hi, hir, hia, hiocc⟩
  have hinv2 : StateInvD ({ t with buckets := t.buckets.set (keyToPageId hashFn t key) ((fetchBucket sz t (keyToPageId hashFn t key)).remove sz key value).1 } : TableState K V) := setBucket_StateInvD t _ _ hinv
  by_cases hbr : ((fetchBucket sz t (keyToPageId hashFn t key)).remove sz key value).2 = true ∧ ((fetchBucket sz t (keyToPageId hashFn t key)).remove sz key value).1.isEmpty sz = true
  · have hre : (removeOp hashFn sz t key value).1 =
        extraMergeLoop hashFn sz
          ((mergeOp hashFn sz ({ t with buckets := t.buckets.set (keyToPageId hashFn t key) ((fetchBucket sz t (keyToPageId hashFn t key)).remove sz key value).1 }) key).dir.globalDepth + 1)
          (mergeOp hashFn sz ({ t with buckets := t.buckets.set (keyToPageId hashFn t key) ((fetchBucket sz t (keyToPageId hashFn t key)).remove sz key value).1 }) key) key := by
      simp only [removeOp]
      rw [if_pos hbr]
    obtain ⟨hbkM, hrtM⟩ := mergeOp_keep hashFn sz ({ t with buckets := t.buckets.set (keyToPageId hashFn t key) ((fetchBucket sz t (keyToPageId hashFn t key)).remove sz key value).1 }) key hinv2
    have hinv3 := mergeOp_StateInvD hashFn sz ({ t with buckets := t.buckets.set (keyToPageId hashFn t key) ((fetchBucket sz t (keyToPageId hashFn t key)).remove sz key value).1 }) key hinv2
    obtain ⟨hbkL, hrtL⟩ := extraMergeLoop_keep hashFn sz key
      ((mergeOp hashFn sz ({ t with buckets := t.buckets.set (keyToPageId hashFn t key) ((fetchBucket sz t (keyToPageId hashFn t key)).remove sz key value).1 }) key).dir.globalDepth + 1)
      (mergeOp hashFn sz ({ t with buckets := t.buckets.set (keyToPageId hashFn t key) ((fetchBucket sz t (keyToPageId hashFn t key)).remove sz key value).1 }) key) hinv3
    refine ⟨?_, ?_⟩
    · rw [hre]
      exact poolWF_congr sz _ ({ t with buckets := t.buckets.set (keyToPageId hashFn t key) ((fetchBucket sz t (keyToPageId hashFn t key)).remove sz key value).1 }) (hbkL.trans hbkM) hP2
    · intro qk qv hne hhas
      have hh2 := hH2 qk qv hne hhas
      have hne2 := hasPairAt_nonempty hashFn sz ({ t with buckets := t.buckets.set (keyToPageId hashFn t key) ((fetchBucket sz t (keyToPageId hashFn t key)).remove sz key value).1 }) qk qv hh2
      have hh3 : hasPairAt hashFn sz (mergeOp hashFn sz ({ t with buckets := t.buckets.set (keyToPageId hashFn t key) ((fetchBucket sz t (keyToPageId hashFn t key)).remove sz key value).1 }) key) qk qv :=
        hasPairAt_congr hashFn sz _ ({ t with buckets := t.buckets.set (keyToPageId hashFn t key) ((fetchBucket sz t (keyToPageId hashFn t key)).remove sz key value).1 }) qk qv hbkM (hrtM qk hne2) hh2
      have hne3 := hasPairAt_nonempty hashFn sz (mergeOp hashFn sz ({ t with buckets := t.buckets.set (keyToPageId hashFn t key) ((fetchBucket sz t (keyToPageId hashFn t key)).remove sz key value).1 }) key) qk qv hh3
      have hh4 := hasPairAt_congr hashFn sz _ _ qk qv hbkL (hrtL qk hne3) hh3
      rw [hre]
      exact hh4
  · have hre : (removeOp hashFn sz t key value).1 = ({ t with buckets := t.buckets.set (keyToPageId hashFn t key) ((fetchBucket sz t (keyToPageId hashFn t key)).remove sz key value).1 } : TableState K V) := by
      simp only [removeOp]
      rw [if_neg hbr]
    refine ⟨?_, ?_⟩
    · rw [hre]
      exact hP2
    · intro qk qv hne hhas
      rw [hre]
      exact hH2 qk qv hne hhas


theorem applyOp_keep [DecidableEq K] [DecidableEq V] [Inhabited K] [Inhabited V]
    (hashFn : K → Nat) (sz : Nat) (t : TableState K V) (op : Op K V)
    (hinv : StateInvD t) (hpool : PoolWF sz t) :
    PoolWF sz (applyOp hashFn sz t op) ∧
    ∀ qk qv, op ≠ Op.remove qk qv → hasPairAt hashFn sz t qk qv →
      hasPairAt hashFn sz (applyOp hashFn sz t op) qk qv := by
  cases op with
  | insert k v =>
    obtain ⟨h1, h2, _⟩ := insertOp_keep hashFn sz t k v hinv hpool
    exact ⟨h1, fun qk qv _ hhas => h2 qk qv hhas⟩
  | remove k v =>
    obtain ⟨h1, h2⟩ := removeOp_keep hashFn sz t k v hinv hpool
    refine ⟨h1, fun qk qv hne hhas => h2 qk qv ?_ hhas⟩
    intro hcon
    obtain ⟨hk, hv⟩ := hcon
    subst hk
    subst hv
    exact hne rfl
  | getValue k => exact ⟨hpool, fun qk qv _ hhas => hhas⟩

theorem runOps_keep [DecidableEq K] [DecidableEq V] [Inhabited K] [Inhabited V]
    (hashFn : K → Nat) (sz : Nat) (qk : K) (qv : V) :
    ∀ (ops : List (Op K V)) (t : TableState K V), StateInvD t → PoolWF sz t →
      hasPairAt hashFn sz t qk qv → Op.remove qk qv ∉ ops →
      hasPairAt hashFn sz (runOps hashFn sz t ops) qk qv := by
  intro ops
  induction ops with
  | nil => exact fun t _ _ hhas _ => hhas
  | cons op rest ih =>
    intro t hinv hpool hhas hmem
    have hop : op ≠ Op.remove qk qv := fun hcon => hmem (hcon ▸ List.mem_cons_self op rest)
    have hrest : Op.remove qk qv ∉ rest := fun hcon => hmem (List.mem_cons_of_mem op hcon)
    obtain ⟨h1, h2⟩ := applyOp_keep hashFn sz t op hinv hpool
    exact ih (applyOp hashFn sz t op) (applyOp_StateInvD hashFn sz t op hinv) h1
      (h2 qk qv hop hhas) hrest

theorem runOps_PoolWF [DecidableEq K] [DecidableEq V] [Inhabited K] [Inhabited V]
    (hashFn : K → Nat) (sz : Nat) :
    ∀ (ops : List (Op K V)) (t : TableState K V), StateInvD t → PoolWF sz t →
      PoolWF sz (runOps hashFn sz t ops) := by
  intro ops
  induction ops with
  | nil => exact fun t _ hpool => hpool
  | cons op rest ih =>
    intro t hinv hpool
    exact ih (applyOp hashFn sz t op) (applyOp_StateInvD hashFn sz t op hinv)
      (applyOp_keep hashFn sz t op hinv hpool).1

/-- A stored pair whose slot has a fully occupied prefix is reported by
`GetValue`. -/
theorem hasPair_getValue [DecidableEq K] [DecidableEq V] [Inhabited K] [Inhabited V]
    (hashFn : K → Nat) (sz : Nat) (t : TableState K V) (qk : K) (qv : V)
    (h : hasPairAt hashFn sz t qk qv) :
    qv ∈ (getValueOp hashFn sz t qk).1 ∧ (getValueOp hashFn sz t qk).2 = true := by
  have h2 : ∃ i, i < sz ∧
      (fetchBucket sz t (keyToPageId hashFn t qk)).isReadable i = true ∧
      (fetchBucket sz t (keyToPageId hashFn t qk)).array.getD i default = (qk, qv) ∧
      ∀ l, l < i → (fetchBucket sz t (keyToPageId hashFn t qk)).isOccupied l = true := h
  obtain ⟨i, hi, hir, hia, hiocc⟩ := h2
  have hk : ((fetchBucket sz t (keyToPageId hashFn t qk)).array.getD i default).1 = qk := by
    rw [hia]
  have hmem := getValueLoop_mem (fetchBucket sz t (keyToPageId hashFn t qk)) qk i hir hk
    hiocc sz 0 (Nat.zero_le _) (by omega)
  rw [← List.range_eq_range'] at hmem
  have hv : ((fetchBucket sz t (keyToPageId hashFn t qk)).array.getD i default).2 = qv := by
    rw [hia]
  constructor
  · show qv ∈ (fetchBucket sz t (keyToPageId hashFn t qk)).getValueLoop qk (List.range sz)
    rw [← hv]
    exact hmem
  · show (!((fetchBucket sz t (keyToPageId hashFn t qk)).getValueLoop qk
      (List.range sz)).isEmpty) = true
    rcases hgl : (fetchBucket sz t (keyToPageId hashFn t qk)).getValueLoop qk
        (List.range sz) with _ | ⟨x, xs⟩
    · rw [hgl] at hmem
      exact absurd hmem (List.not_mem_nil _)
    · rfl


/-- Claim C1, amended to require the insertion to succeed (the counterexample
exhibits an `Insert` that is executed but returns false on a full bucket of
colliding keys, after which the lookup misses): starting from a fresh table,
after any prior history `pre`, if `Insert(k, v)` returns true and the
subsequent history `ops` contains no `Remove(k, v)` — it may contain any
other inserts, removes and lookups, including ones that split, merge or
shrink — then `GetValue(k)` afterwards returns a list containing `v` and
reports true. -/
theorem C1_insert_then_get [DecidableEq K] [DecidableEq V] [Inhabited K] [Inhabited V]
    (hashFn : K → Nat) (sz : Nat) (pre ops : List (Op K V)) (k : K) (v : V)
    (hins : (insertOp hashFn sz (runOps hashFn sz (initTable K V sz) pre) k v).2 = true)
    (hnorem : Op.remove k v ∉ ops) :
    v ∈ (getValueOp hashFn sz (runOps hashFn sz
        (insertOp hashFn sz (runOps hashFn sz (initTable K V sz) pre) k v).1 ops) k).1 ∧
    (getValueOp hashFn sz (runOps hashFn sz
        (insertOp hashFn sz (runOps hashFn sz (initTable K V sz) pre) k v).1 ops) k).2 =
      true := by
  have hinv0 := runOps_StateInvD hashFn sz pre (initTable K V sz) (stateInvD_init K V sz)
  have hpool0 := runOps_PoolWF hashFn sz pre (initTable K V sz) (stateInvD_init K V sz)
    (initTable_PoolWF K V sz)
  obtain ⟨hpool1, _, hest⟩ := insertOp_keep hashFn sz _ k v hinv0 hpool0
  have hhas1 := hest hins
  have hinv1 := insertOp_StateInvD hashFn sz _ k v hinv0
  have hhas2 := runOps_keep hashFn sz k v ops _ hinv1 hpool1 hhas1 hnorem
  exact hasPair_getValue hashFn sz _ k v hhas2

/-- Witness for the amended C1: a fresh one-slot table, a successful insert
of (5, 7), then a later insert of (6, 8) that splits the bucket (moving the
stored pair to the new page); the final lookup still reports 7. -/
theorem C1_insert_then_get_witness :
    (insertOp hashId 1 (runOps hashId 1 (initTable Nat Nat 1) []) 5 7).2 = true ∧
    (Op.remove 5 7 : Op Nat Nat) ∉ [Op.insert 6 8] ∧
    7 ∈ (getValueOp hashId 1 (runOps hashId 1
        (insertOp hashId 1 (runOps hashId 1 (initTable Nat Nat 1) []) 5 7).1
        [Op.insert 6 8]) 5).1 :=
  ⟨by decide, by decide,
    (C1_insert_then_get hashId 1 [] [Op.insert 6 8] 5 7 (by decide) (by decide)).1⟩

end Bustub
